import Mathlib

/-!
# authinfo: the line-oriented credential-file parser of `authinfo.c`

A shallow embedding of `authinfo_parse` and of the static helpers it calls.

* The text buffer is a list of byte values (`Nat`).  The cursor `data` of the
  C code is an offset into that list.  A read at an offset outside the list is
  an out-of-bounds read: every function that reads returns `none` there.
* `unsigned int` counters (`line`, `column`) are natural numbers reduced
  modulo `2 ^ 32` wherever the C code adds to them.
* The two callbacks thread the caller's `arg` as an explicit state of type `σ`
  and return the stop flag.  Every invocation is also appended to a log
  (`calls`), together with the flag the callback returned.
* The `while (!stop)` loop is `loop_body` iterated by `run`, which counts
  iterations down from a bound.
-/

namespace Authinfo

/-! ## Bytes and literals -/

/-- Byte values of an ASCII literal. -/
def ascii (s : String) : List Nat := s.toList.map Char.toNat

/-- Capacity of a token buffer, `#define TOKEN_SIZE_MAX 128`. -/
def TOKEN_SIZE_MAX : Nat := 128

/-- Range of `unsigned int`. -/
def UINT_RANGE : Nat := 2 ^ 32

/-- Read of `mem[p]`; `none` when `p` is outside the object. -/
def load (mem : List Nat) (p : Nat) : Option Nat := (mem.drop p).head?

/-- Scan of `strspn`: number of leading bytes that belong to `accept`.  The
scan ends at the first byte outside `accept` (the terminating NUL always is);
`none` when it runs off the object before finding one. -/
def strspn_scan (accept : List Nat) : List Nat → Option Nat
  | [] => none
  | c :: cs =>
    if c ≠ 0 ∧ c ∈ accept then
      match strspn_scan accept cs with
      | some n => some (n + 1)
      | none => none
    else some 0

/-- Scan of `strcspn`: number of leading bytes that are neither NUL nor in
`reject`; `none` when the scan runs off the object. -/
def strcspn_scan (reject : List Nat) : List Nat → Option Nat
  | [] => none
  | c :: cs =>
    if c = 0 ∨ c ∈ reject then some 0
    else
      match strcspn_scan reject cs with
      | some n => some (n + 1)
      | none => none

/-- C library `strspn(mem + p, accept)`. -/
def strspn (mem : List Nat) (p : Nat) (accept : List Nat) : Option Nat :=
  strspn_scan accept (mem.drop p)

/-- C library `strcspn(mem + p, reject)`. -/
def strcspn (mem : List Nat) (p : Nat) (reject : List Nat) : Option Nat :=
  strcspn_scan reject (mem.drop p)

/-! ## Data model -/

/-- States of the record state machine (`enum parse_state_t`). -/
inductive parse_state_t
  | LINE_START
  | WAITING_NEXT_PAIR
  | WAITING_HOST
  | WAITING_PROTOCOL
  | WAITING_USER
  | WAITING_PASSWORD
  | WAITING_FORCE
  | LINE_END
  deriving DecidableEq, Repr

/-- Modelled from the spec: the enumeration `authinfo_parse_error_type_t` of
`authinfo.h` (the header is not among the sources); the constants are the ones
`authinfo.c` uses. -/
inductive authinfo_parse_error_type_t
  | AUTHINFO_PET_MISSING_HOST
  | AUTHINFO_PET_MISSING_VALUE
  | AUTHINFO_PET_VALUE_TOO_LONG
  | AUTHINFO_PET_BAD_VALUE
  | AUTHINFO_PET_BAD_KEYWORD
  | AUTHINFO_PET_DUPLICATED_KEYWORD
  deriving DecidableEq, Repr

/-- Modelled from the spec: `struct authinfo_parse_entry_t` of `authinfo.h`
(the header is not among the sources).  A `NULL` field is `none`; a field that
points to one of the token buffers is `some` of the C string held there. -/
structure authinfo_parse_entry_t where
  host : Option (List Nat)
  protocol : Option (List Nat)
  user : Option (List Nat)
  password : Option (List Nat)
  force : Bool
  deriving DecidableEq, Repr

/-- One callback invocation, with the stop flag the callback returned. -/
inductive Call
  | entry (e : authinfo_parse_entry_t) (stop : Bool)
  | error (type : authinfo_parse_error_type_t) (line column : Nat) (stop : Bool)
  deriving DecidableEq, Repr

/-- Modelled from the spec: the callback types `authinfo_parse_entry_cb_t` and
`authinfo_parse_error_cb_t` of `authinfo.h`.  Each receives the caller's `arg`
and returns the stop flag together with the updated `arg`. -/
structure Handlers (σ : Type) where
  entry_callback : authinfo_parse_entry_t → σ → Bool × σ
  error_callback : authinfo_parse_error_type_t → Nat → Nat → σ → Bool × σ

/-- Local variables of `authinfo_parse`, the caller's `arg`, and the log of
callback invocations. -/
structure Locals (σ : Type) where
  data : Nat
  line : Nat
  column : Nat
  entry : authinfo_parse_entry_t
  stop : Bool
  state : parse_state_t
  arg : σ
  calls : List Call

/-! ## Static helpers -/

/-- Embedding of `authinfo_skip_spaces`: new cursor and column. -/
def authinfo_skip_spaces (mem : List Nat) (str column : Nat) : Option (Nat × Nat) :=
  match strspn mem str [32, 9] with
  | none => none
  | some span => some (str + span, (column + span) % UINT_RANGE)

/-- Embedding of `authinfo_eol`. -/
def authinfo_eol (mem : List Nat) (str : Nat) : Option Bool :=
  match load mem str with
  | none => none
  | some c => some (c = 10 || c = 0)

/-- Embedding of `authinfo_eof`. -/
def authinfo_eof (mem : List Nat) (str : Nat) : Option Bool :=
  match load mem str with
  | none => none
  | some c => some (c = 0)

/-- Embedding of `authinfo_skip_line`: new cursor, line and column. -/
def authinfo_skip_line (mem : List Nat) (str line : Nat) : Option (Nat × Nat × Nat) :=
  match strcspn mem str [10] with
  | none => none
  | some cspan => some (str + (cspan + 1), (line + 1) % UINT_RANGE, 0)

/-- Embedding of `authinfo_skip_comment`: `some none` when the line is not a
comment, `some (some (str, line, column))` when it was skipped. -/
def authinfo_skip_comment (mem : List Nat) (str line : Nat) :
    Option (Option (Nat × Nat × Nat)) :=
  match load mem str with
  | none => none
  | some c =>
    if c = 35 then
      match authinfo_skip_line mem str line with
      | none => none
      | some r => some (some r)
    else some none

/-- Embedding of `authinfo_next_token`: new cursor, new column, and the token
(`none` for the `false` return, when the run is `TOKEN_SIZE_MAX` or longer). -/
def authinfo_next_token (mem : List Nat) (str column : Nat) :
    Option (Nat × Nat × Option (List Nat)) :=
  match strcspn mem str [32, 9, 10] with
  | none => none
  | some cspan =>
    some (str + cspan, (column + cspan) % UINT_RANGE,
      if cspan ≥ TOKEN_SIZE_MAX then none else some ((mem.drop str).take cspan))

/-- Result of code that contains a loop: a value, an out-of-bounds read, or a
loop that used up its iteration bound. -/
inductive Exec (α : Type)
  | ok (a : α)
  | fault
  | timeout
  deriving DecidableEq, Repr

/-- The `do ... while (**str != '\n')` loop of `authinfo_skip_macdef`, run for
at most `n` rounds: new cursor, line and column. -/
def skip_macdef_loop (mem : List Nat) : Nat → Nat → Nat → Exec (Nat × Nat × Nat)
  | 0, _, _ => Exec.timeout
  | n + 1, str, line =>
    match authinfo_skip_line mem str line with
    | none => Exec.fault
    | some (str1, line1, column1) =>
      match load mem str1 with
      | none => Exec.fault
      | some c =>
        if c ≠ 10 then skip_macdef_loop mem n str1 line1
        else Exec.ok (str1, line1, column1)

/-- Embedding of `authinfo_skip_macdef`: `ok none` for the `false` return,
`ok (some (str, line, column))` when a macro definition was skipped.  Every
round of the loop moves the cursor forward, which is why the bound on the
rounds is `mem.length`. -/
def authinfo_skip_macdef (mem : List Nat) (str line column : Nat) :
    Exec (Option (Nat × Nat × Nat)) :=
  match authinfo_next_token mem str column with
  | none => Exec.fault
  | some (token_end, _, token) =>
    if token = some (ascii "macdef") then
      match skip_macdef_loop mem mem.length token_end line with
      | Exec.ok r => Exec.ok (some r)
      | Exec.fault => Exec.fault
      | Exec.timeout => Exec.timeout
    else Exec.ok none

/-- Embedding of `authinfo_report_error`: calls the error callback, logs the
call, returns the stop flag. -/
def authinfo_report_error {σ : Type} (cb : Handlers σ)
    (type : authinfo_parse_error_type_t) (line column : Nat) (s : Locals σ) :
    Bool × Locals σ :=
  let r := cb.error_callback type line column s.arg
  (r.1, { s with arg := r.2, calls := s.calls ++ [Call.error type line column r.1] })

/-- Embedding of `authinfo_report_entry`: a missing host is reported as an
error at column 0, otherwise the entry callback is called. -/
def authinfo_report_entry {σ : Type} (cb : Handlers σ) (line : Nat) (s : Locals σ) :
    Bool × Locals σ :=
  if s.entry.host = none then
    authinfo_report_error cb authinfo_parse_error_type_t.AUTHINFO_PET_MISSING_HOST line 0 s
  else
    let r := cb.entry_callback s.entry s.arg
    (r.1, { s with arg := r.2, calls := s.calls ++ [Call.entry s.entry r.1] })

/-! ## The parser -/

open parse_state_t authinfo_parse_error_type_t

/-- The `case WAITING_NEXT_PAIR` arm of `authinfo_parse`, after a token was
read: keyword table, duplicate test, and the two error reports. -/
def keyword_arm {σ : Type} (cb : Handlers σ) (token : List Nat) (token_column : Nat)
    (s : Locals σ) : Locals σ :=
  let r : Locals σ × Bool :=
    if token = ascii "default" then
      ({ s with entry := { s.entry with host := some [] } }, s.entry.host.isSome)
    else if token = ascii "machine" ∨ token = ascii "host" then
      ({ s with state := WAITING_HOST }, s.entry.host.isSome)
    else if token = ascii "login" ∨ token = ascii "user" ∨ token = ascii "account" then
      ({ s with state := WAITING_USER }, s.entry.user.isSome)
    else if token = ascii "password" then
      ({ s with state := WAITING_PASSWORD }, s.entry.password.isSome)
    else if token = ascii "force" then
      ({ s with state := WAITING_FORCE }, s.entry.force)
    else if token = ascii "port" ∨ token = ascii "protocol" then
      ({ s with state := WAITING_PROTOCOL }, s.entry.protocol.isSome)
    else
      let e := authinfo_report_error cb AUTHINFO_PET_BAD_KEYWORD s.line token_column s
      ({ e.2 with stop := e.1 }, false)
  if r.2 then
    let e := authinfo_report_error cb AUTHINFO_PET_DUPLICATED_KEYWORD r.1.line token_column r.1
    { e.2 with stop := e.1 }
  else r.1

/-- The inner `switch (state)` of the value states, after a token was read:
`force` accepts only `yes`, the text fields are assigned when still `NULL`
(the `ASSIGN` macro). -/
def value_arm {σ : Type} (cb : Handlers σ) (token : List Nat) (token_column : Nat)
    (s : Locals σ) : Locals σ :=
  match s.state with
  | WAITING_FORCE =>
    if token = ascii "yes" then { s with entry := { s.entry with force := true } }
    else (authinfo_report_error cb AUTHINFO_PET_BAD_VALUE s.line token_column s).2
  | WAITING_HOST =>
    if s.entry.host = none then { s with entry := { s.entry with host := some token } } else s
  | WAITING_PROTOCOL =>
    if s.entry.protocol = none then
      { s with entry := { s.entry with protocol := some token } } else s
  | WAITING_USER =>
    if s.entry.user = none then { s with entry := { s.entry with user := some token } } else s
  | WAITING_PASSWORD =>
    if s.entry.password = none then
      { s with entry := { s.entry with password := some token } } else s
  | _ => s

/-- The second `switch (state)` of the loop body of `authinfo_parse`. -/
def dispatch {σ : Type} (cb : Handlers σ) (mem : List Nat) (token_column : Nat)
    (s : Locals σ) : Exec (Locals σ) :=
  match s.state with
  | LINE_START =>
    let s1 : Locals σ := { s with entry := ⟨none, none, none, none, false⟩ }
    match authinfo_skip_comment mem s1.data s1.line with
    | none => Exec.fault
    | some (some (str, line, column)) =>
      Exec.ok { s1 with data := str, line := line, column := column }
    | some none =>
      match authinfo_skip_macdef mem s1.data s1.line s1.column with
      | Exec.fault => Exec.fault
      | Exec.timeout => Exec.timeout
      | Exec.ok (some (str, line, column)) =>
        Exec.ok { s1 with data := str, line := line, column := column }
      | Exec.ok none => Exec.ok { s1 with state := WAITING_NEXT_PAIR }
  | LINE_END =>
    let r := authinfo_report_entry cb s.line s
    match authinfo_skip_line mem r.2.data r.2.line with
    | none => Exec.fault
    | some (str, line, column) =>
      Exec.ok { r.2 with stop := r.1, data := str, line := line, column := column,
                         state := LINE_START }
  | WAITING_NEXT_PAIR =>
    match authinfo_next_token mem s.data s.column with
    | none => Exec.fault
    | some (str, column, some token) =>
      Exec.ok (keyword_arm cb token token_column { s with data := str, column := column })
    | some (str, column, none) =>
      Exec.ok (authinfo_report_error cb AUTHINFO_PET_BAD_KEYWORD s.line token_column
        { s with data := str, column := column }).2
  | _ =>
    match authinfo_next_token mem s.data s.column with
    | none => Exec.fault
    | some (str, column, some token) =>
      Exec.ok { value_arm cb token token_column { s with data := str, column := column } with
                state := WAITING_NEXT_PAIR }
    | some (str, column, none) =>
      let e := authinfo_report_error cb AUTHINFO_PET_VALUE_TOO_LONG s.line token_column
        { s with data := str, column := column }
      Exec.ok { e.2 with stop := e.1, state := WAITING_NEXT_PAIR }

/-- One iteration of the `while (!stop)` loop of `authinfo_parse`. -/
def loop_body {σ : Type} (cb : Handlers σ) (mem : List Nat) (s : Locals σ) :
    Exec (Locals σ) :=
  let token_column := s.column
  match authinfo_skip_spaces mem s.data s.column with
  | none => Exec.fault
  | some (str, column) =>
    let s1 : Locals σ := { s with data := str, column := column }
    match authinfo_eol mem s1.data with
    | none => Exec.fault
    | some false => dispatch cb mem token_column s1
    | some true =>
      match s1.state with
      | LINE_START =>
        match authinfo_eof mem s1.data with
        | none => Exec.fault
        | some true => Exec.ok { s1 with stop := true }
        | some false =>
          match authinfo_skip_line mem s1.data s1.line with
          | none => Exec.fault
          | some (str2, line2, column2) =>
            Exec.ok { s1 with data := str2, line := line2, column := column2 }
      | WAITING_NEXT_PAIR => dispatch cb mem token_column { s1 with state := LINE_END }
      | _ =>
        let e := authinfo_report_error cb AUTHINFO_PET_MISSING_VALUE s1.line token_column
          { s1 with state := LINE_END }
        dispatch cb mem token_column { e.2 with stop := e.1 }

/-- How a run of the loop ended: the loop condition became false, a read went
out of bounds, or the iteration bound was used up. -/
inductive Outcome
  | finished
  | overrun
  | exhausted
  deriving DecidableEq, Repr

/-- The `while (!stop)` loop, at most `n` iterations from the locals `s`. -/
def run {σ : Type} (cb : Handlers σ) (mem : List Nat) : Nat → Locals σ → Outcome × Locals σ
  | 0, s => if s.stop then (Outcome.finished, s) else (Outcome.exhausted, s)
  | n + 1, s =>
    if s.stop then (Outcome.finished, s)
    else
      match loop_body cb mem s with
      | Exec.fault => (Outcome.overrun, s)
      | Exec.timeout => (Outcome.exhausted, s)
      | Exec.ok s1 => run cb mem n s1

/-- Locals of `authinfo_parse` on entry to the loop.  The C code leaves `entry`
uninitialised; it is reset in `LINE_START` before it is ever read. -/
def init {σ : Type} (arg : σ) : Locals σ :=
  { data := 0, line := 1, column := 0, entry := ⟨none, none, none, none, false⟩,
    stop := false, state := LINE_START, arg := arg, calls := [] }

/-- Embedding of `authinfo_parse` on the object `mem`, read from offset 0.
Every iteration but the `LINE_START` to `WAITING_NEXT_PAIR` one moves the
cursor forward, which is why the bound is `2 * mem.length + 2` iterations. -/
def authinfo_parse {σ : Type} (cb : Handlers σ) (mem : List Nat) (arg : σ) :
    Outcome × Locals σ :=
  run cb mem (2 * mem.length + 2) (init arg)

/-- The buffer handed to `authinfo_parse` for the text `t`: the bytes of `t`
followed by the terminating NUL. -/
def cstr (t : List Nat) : List Nat := t ++ [0]

/-- Callbacks that never ask to stop and keep no state. -/
def go_on : Handlers Unit :=
  { entry_callback := fun _ a => (false, a), error_callback := fun _ _ _ a => (false, a) }

/-- Callbacks that ask to stop at every call. -/
def halt : Handlers Unit :=
  { entry_callback := fun _ a => (true, a), error_callback := fun _ _ _ a => (true, a) }

/-! ## Vocabulary of the statements -/

/-- A run of spaces and tabs. -/
def Blank (ws : List Nat) : Prop := ∀ c ∈ ws, c = 32 ∨ c = 9

instance (ws : List Nat) : Decidable (Blank ws) := by unfold Blank; infer_instance

/-- Bytes that can be part of a token: no space, tab, newline or NUL. -/
def TokenBytes (t : List Nat) : Prop := ∀ c ∈ t, c ≠ 0 ∧ c ≠ 32 ∧ c ≠ 9 ∧ c ≠ 10

instance (t : List Nat) : Decidable (TokenBytes t) := by unfold TokenBytes; infer_instance

/-- The text starts with a byte that ends a token: NUL, space, tab or newline. -/
def StartsDelim : List Nat → Prop
  | [] => False
  | d :: _ => d = 0 ∨ d = 32 ∨ d = 9 ∨ d = 10

instance (l : List Nat) : Decidable (StartsDelim l) := by
  cases l <;> unfold StartsDelim <;> infer_instance

/-- The text starts with a byte that is neither a space nor a tab. -/
def StartsSolid : List Nat → Prop
  | [] => False
  | d :: _ => d ≠ 32 ∧ d ≠ 9

instance (l : List Nat) : Decidable (StartsSolid l) := by
  cases l <;> unfold StartsSolid <;> infer_instance

/-- The entry with every field `NULL` and `force` false, as set in `LINE_START`. -/
def empty_entry : authinfo_parse_entry_t := ⟨none, none, none, none, false⟩

/-- The five states in which the parser waits for a value. -/
def ValueState (st : parse_state_t) : Prop :=
  st = WAITING_HOST ∨ st = WAITING_PROTOCOL ∨ st = WAITING_USER ∨ st = WAITING_PASSWORD ∨
    st = WAITING_FORCE

instance (st : parse_state_t) : Decidable (ValueState st) := by unfold ValueState; infer_instance

/-- What `case LINE_END` does at a line terminator found at offset `p`: the
entry is reported, the cursor moves past the terminator. -/
def line_end {σ : Type} (cb : Handlers σ) (p : Nat) (s : Locals σ) : Locals σ :=
  { (authinfo_report_entry cb s.line s).2 with
    stop := (authinfo_report_entry cb s.line s).1, data := p + 1,
    line := (s.line + 1) % UINT_RANGE, column := 0, state := LINE_START }

/-- The loop run from `s` for `k` more iterations than from `s1` gives what the
loop run from `s1` gives: `k` iterations lead from `s` to `s1`. -/
def Reach {σ : Type} (cb : Handlers σ) (mem : List Nat) (k : Nat) (s s1 : Locals σ) : Prop :=
  ∀ n, run cb mem (k + n) s = run cb mem n s1

/-- The fields a keyword of the table can announce. -/
inductive Key
  | host
  | user
  | password
  | force
  | protocol
  deriving DecidableEq, Repr

/-- The keyword table of `case WAITING_NEXT_PAIR`, without `default`. -/
def keyword (t : List Nat) : Option Key :=
  if t = ascii "machine" ∨ t = ascii "host" then some Key.host
  else if t = ascii "login" ∨ t = ascii "user" ∨ t = ascii "account" then some Key.user
  else if t = ascii "password" then some Key.password
  else if t = ascii "force" then some Key.force
  else if t = ascii "port" ∨ t = ascii "protocol" then some Key.protocol
  else none

/-- The state in which the value of a keyword is awaited. -/
def Key.state : Key → parse_state_t
  | Key.host => WAITING_HOST
  | Key.user => WAITING_USER
  | Key.password => WAITING_PASSWORD
  | Key.force => WAITING_FORCE
  | Key.protocol => WAITING_PROTOCOL

/-- The duplicate test of the keyword table. -/
def Key.given (e : authinfo_parse_entry_t) : Key → Bool
  | Key.host => e.host.isSome
  | Key.user => e.user.isSome
  | Key.password => e.password.isSome
  | Key.force => e.force
  | Key.protocol => e.protocol.isSome

/-- What a value state does to the entry with a token `v`: a text field is
assigned when it is still `NULL`, `force` is set by `yes`. -/
def Key.assign (v : List Nat) (e : authinfo_parse_entry_t) : Key → authinfo_parse_entry_t
  | Key.host => if e.host = none then { e with host := some v } else e
  | Key.user => if e.user = none then { e with user := some v } else e
  | Key.password => if e.password = none then { e with password := some v } else e
  | Key.force => if v = ascii "yes" then { e with force := true } else e
  | Key.protocol => if e.protocol = none then { e with protocol := some v } else e

/-- A keyword and its value, each with the spaces and tabs written before it. -/
structure Pair where
  sp1 : List Nat
  kw : List Nat
  sp2 : List Nat
  val : List Nat
  deriving DecidableEq, Repr

/-- The bytes of a pair as they stand on the line. -/
def Pair.text (p : Pair) : List Nat := p.sp1 ++ (p.kw ++ (p.sp2 ++ p.val))

/-- The bytes of a sequence of pairs. -/
def render : List Pair → List Nat
  | [] => []
  | p :: ps => p.text ++ render ps

/-- A well-formed pair: a keyword of the table, some blanks, a value token of
at most 127 bytes; the value of `force` is `yes`. -/
def Pair.wf (p : Pair) : Prop :=
  Blank p.sp1 ∧ (keyword p.kw).isSome ∧ Blank p.sp2 ∧ p.sp2 ≠ [] ∧ TokenBytes p.val ∧
    p.val ≠ [] ∧ p.val.length < TOKEN_SIZE_MAX ∧
    (keyword p.kw = some Key.force → p.val = ascii "yes")

instance (p : Pair) : Decidable p.wf := by unfold Pair.wf; infer_instance

/-- The entry after the pair has been read. -/
def Pair.apply (e : authinfo_parse_entry_t) (p : Pair) : authinfo_parse_entry_t :=
  match keyword p.kw with
  | some k => k.assign p.val e
  | none => e

/-- The keyword of the pair announces a field the entry does not have yet. -/
def Pair.fresh (e : authinfo_parse_entry_t) (p : Pair) : Prop :=
  match keyword p.kw with
  | some k => k.given e = false
  | none => False

instance (e : authinfo_parse_entry_t) (p : Pair) : Decidable (p.fresh e) := by
  unfold Pair.fresh; split <;> infer_instance

/-- A sequence of well-formed pairs none of which repeats a field: read from
the entry `e`, it raises no error. -/
def Clean : authinfo_parse_entry_t → List Pair → Prop
  | _, [] => True
  | e, p :: ps => p.wf ∧ p.fresh e ∧ Clean (p.apply e) ps

instance Clean.dec : (e : authinfo_parse_entry_t) → (ps : List Pair) → Decidable (Clean e ps)
  | _, [] => isTrue trivial
  | e, p :: ps =>
    have := Clean.dec (p.apply e) ps
    by unfold Clean; infer_instance

/-- The entry after a sequence of pairs has been read. -/
def entry_of (e : authinfo_parse_entry_t) (ps : List Pair) : authinfo_parse_entry_t :=
  ps.foldl Pair.apply e

/-- Every pair but the first is preceded by at least one blank. -/
def Spaced (ps : List Pair) : Prop := ∀ q ∈ ps.tail, q.sp1 ≠ []

instance (ps : List Pair) : Decidable (Spaced ps) := by unfold Spaced; infer_instance

/-- The call `authinfo_report_entry` makes for the entry `e` on line `l`, with
the stop flag `b` it got back. -/
def report_call (e : authinfo_parse_entry_t) (l : Nat) (b : Bool) : Call :=
  if e.host = none then Call.error AUTHINFO_PET_MISSING_HOST l 0 b else Call.entry e b

/-- What the callback invoked by `authinfo_report_entry` returns. -/
def report_result {σ : Type} (cb : Handlers σ) (e : authinfo_parse_entry_t) (l : Nat) (arg : σ) :
    Bool × σ :=
  if e.host = none then cb.error_callback AUTHINFO_PET_MISSING_HOST l 0 arg
  else cb.entry_callback e arg

/-- A token with the spaces and tabs written before it. -/
structure Tok where
  sp : List Nat
  tok : List Nat
  deriving DecidableEq, Repr

/-- The bytes of a sequence of tokens. -/
def render_toks : List Tok → List Nat
  | [] => []
  | x :: xs => x.sp ++ (x.tok ++ render_toks xs)

/-- A token item: blanks, then a non-empty run of token bytes. -/
def Tok.wf (x : Tok) : Prop := Blank x.sp ∧ TokenBytes x.tok ∧ x.tok ≠ []

instance (x : Tok) : Decidable x.wf := by unfold Tok.wf; infer_instance

/-- The token is none of the keywords that give a host. -/
def Tok.no_host (x : Tok) : Prop :=
  x.tok ≠ ascii "machine" ∧ x.tok ≠ ascii "host" ∧ x.tok ≠ ascii "default"

instance (x : Tok) : Decidable x.no_host := by unfold Tok.no_host; infer_instance

/-- The states of a line on which no host keyword has been read. -/
def NoHostState (st : parse_state_t) : Prop :=
  st = WAITING_NEXT_PAIR ∨ st = WAITING_PROTOCOL ∨ st = WAITING_USER ∨ st = WAITING_PASSWORD ∨
    st = WAITING_FORCE

/-- Calls of the error callback on line `line`, none of them a missing-host
error, each logged with the flag the callback returned. -/
def ErrsOn {σ : Type} (cb : Handlers σ) (line : Nat) (errs : List Call) : Prop :=
  ∀ c ∈ errs, ∃ t col a, c = Call.error t line col (cb.error_callback t line col a).1 ∧
    t ≠ AUTHINFO_PET_MISSING_HOST

/-- The entry right after the keyword `default` at the start of a line: the
host is the empty string, every other field is absent. -/
def default_entry : authinfo_parse_entry_t := ⟨some [], none, none, none, false⟩

/-- The text field a keyword announces (`force` has none). -/
def Key.text (e : authinfo_parse_entry_t) : Key → Option (List Nat)
  | Key.host => e.host
  | Key.user => e.user
  | Key.password => e.password
  | Key.force => none
  | Key.protocol => e.protocol

/-- The call is a call of the error callback. -/
def Call.is_error : Call → Bool
  | Call.error _ _ _ _ => true
  | Call.entry _ _ => false

/-- What one iteration adds to the log `old`: calls of the error callback,
then at most one call of the entry callback, for an entry whose host is
present; it is the last call of the iteration and its answer is the stop flag
`stop` the iteration leaves. -/
def LogStep (old new : List Call) (stop : Bool) : Prop :=
  ∃ errs, (∀ c ∈ errs, c.is_error = true) ∧
    (new = old ++ errs ∨ ∃ e, e.host ≠ none ∧ new = old ++ errs ++ [Call.entry e stop])

/-- Every entry call in the log was made for an entry whose host is present. -/
def HostsPresent (calls : List Call) : Prop :=
  ∀ e b, Call.entry e b ∈ calls → e.host ≠ none

/-- Every entry call in the log that was answered with a stop request is the
last call of the log, and the stop flag is set. -/
def StopsAtEntry (calls : List Call) (stop : Bool) : Prop :=
  ∀ pre e post, calls = pre ++ Call.entry e true :: post → post = [] ∧ stop = true

/-- The longest prefix of `s` that holds no space, tab, newline or NUL. -/
def token_run (s : List Nat) : List Nat :=
  s.takeWhile (fun c => decide (¬(c = 0 ∨ c ∈ [32, 9, 10])))

/-- One or more consecutive uses of `authinfo_skip_line`: from offset `p` on
line `l` to offset `p1` on line `l1`. -/
inductive LineSkips (mem : List Nat) : Nat → Nat → Nat → Nat → Prop
  | one (p l : Nat) (b r : List Nat) (e : Nat) (h : mem.drop p = b ++ e :: r)
      (hb : ∀ c ∈ b, c ≠ 0 ∧ c ≠ 10) (he : e = 0 ∨ e = 10) :
      LineSkips mem p l (p + b.length + 1) ((l + 1) % UINT_RANGE)
  | more (p l p1 l1 : Nat) (b r : List Nat) (e : Nat) (h : mem.drop p = b ++ e :: r)
      (hb : ∀ c ∈ b, c ≠ 0 ∧ c ≠ 10) (he : e = 0 ∨ e = 10)
      (hrest : LineSkips mem (p + b.length + 1) ((l + 1) % UINT_RANGE) p1 l1) :
      LineSkips mem p l p1 l1

/-- Where `dispatch` leaves the cursor and the counters. -/
def DispatchEffect {σ : Type} (mem : List Nat) (s s1 : Locals σ) : Prop :=
  (s.state = LINE_START ∧
    ((∃ w rest, mem.drop s.data = w ++ rest ∧ (∀ c ∈ w, c ≠ 0 ∧ c ≠ 10) ∧
        LineSkips mem (s.data + w.length) s.line s1.data s1.line ∧ s1.column = 0 ∧
        s1.state = LINE_START ∧ s1.stop = s.stop) ∨
      (s1.state = WAITING_NEXT_PAIR ∧ s1.data = s.data ∧ s1.line = s.line ∧
        s1.column = s.column ∧ s1.stop = s.stop))) ∨
  (s.state = LINE_END ∧ LineSkips mem s.data s.line s1.data s1.line ∧ s1.column = 0 ∧
    s1.state = LINE_START) ∨
  (s.state ≠ LINE_START ∧ s.state ≠ LINE_END ∧
    ∃ t e r, mem.drop s.data = t ++ e :: r ∧ TokenBytes t ∧ (e = 0 ∨ e = 32 ∨ e = 9 ∨ e = 10) ∧
      s1.state ≠ LINE_START ∧ s1.data = s.data + t.length ∧ s1.line = s.line ∧
      s1.column = (s.column + t.length) % UINT_RANGE)

/-- Where one iteration leaves the cursor and the counters: blanks `a` are
skipped, then either the end of the buffer sets the stop flag, or one or more
lines are skipped, or the first token of a line is found, or one token is
read. -/
def Effect {σ : Type} (mem : List Nat) (s s1 : Locals σ) : Prop :=
  ∃ a d r, mem.drop s.data = a ++ d :: r ∧ Blank a ∧ d ≠ 32 ∧ d ≠ 9 ∧
    ((d = 0 ∧ s.state = LINE_START ∧ s1.stop = true ∧ s1.data = s.data + a.length ∧
        s1.line = s.line ∧ s1.column = (s.column + a.length) % UINT_RANGE ∧
        s1.state = LINE_START) ∨
      (∃ w rest, d :: r = w ++ rest ∧ (∀ c ∈ w, c ≠ 0 ∧ c ≠ 10) ∧
        LineSkips mem (s.data + a.length + w.length) s.line s1.data s1.line ∧ s1.column = 0 ∧
        s1.state = LINE_START) ∨
      (s.state = LINE_START ∧ d ≠ 0 ∧ d ≠ 10 ∧ s1.state = WAITING_NEXT_PAIR ∧
        s1.data = s.data + a.length ∧ s1.line = s.line ∧
        s1.column = (s.column + a.length) % UINT_RANGE ∧ s1.stop = s.stop) ∨
      (∃ t e r1, d :: r = t ++ e :: r1 ∧ TokenBytes t ∧ t ≠ [] ∧ s.state ≠ LINE_START ∧
        s1.state ≠ LINE_START ∧ s1.data = s.data + a.length + t.length ∧ s1.line = s.line ∧
        s1.column = (s.column + a.length + t.length) % UINT_RANGE))

/-- Bound on the iterations the loop can still make from `s`: two for every
byte from the cursor to the end of the object, and one more at the start of a
line. -/
def budget {σ : Type} (mem : List Nat) (s : Locals σ) : Nat :=
  2 * (mem.length - s.data) + (if s.state = LINE_START then 1 else 0)

/-- A call as it is made `k` lines further down: the line number of an error
is advanced by `k`, in `unsigned int` arithmetic. -/
def Call.shift (k : Nat) : Call → Call
  | Call.entry e b => Call.entry e b
  | Call.error t l c b => Call.error t ((l + k) % UINT_RANGE) c b

/-- The handlers `cb` as they are called `k` lines further down: the error
handler is given the line number advanced by `k`. -/
def Handlers.shift {σ : Type} (k : Nat) (cb : Handlers σ) : Handlers σ :=
  { entry_callback := cb.entry_callback,
    error_callback := fun t l c a => cb.error_callback t ((l + k) % UINT_RANGE) c a }

/-- The handlers `cb1`, called `k` lines further down, and the handlers `cb2`
give the same stop flag whenever their arguments are related by `A`, and leave
arguments that are related by `A`. -/
def Compat {σ τ : Type} (A : σ → τ → Prop) (k : Nat) (cb1 : Handlers σ) (cb2 : Handlers τ) :
    Prop :=
  ∀ a b, A a b →
    (∀ e, (cb1.entry_callback e a).1 = (cb2.entry_callback e b).1 ∧
      A (cb1.entry_callback e a).2 (cb2.entry_callback e b).2) ∧
    (∀ t l c,
      (cb1.error_callback t ((l + k) % UINT_RANGE) c a).1 = (cb2.error_callback t l c b).1 ∧
      A (cb1.error_callback t ((l + k) % UINT_RANGE) c a).2 (cb2.error_callback t l c b).2)

/-- The locals `s1` of a parse are the locals `s2` of another parse moved `n`
bytes and `k` lines further down, after the calls `pre`: same column, stop flag
and state, the same entry once the line has been entered, related arguments,
and the log of `s1` is `pre` followed by the log of `s2` shifted by `k`. -/
def Sim {σ τ : Type} (A : σ → τ → Prop) (n k : Nat) (pre : List Call) (s1 : Locals σ)
    (s2 : Locals τ) : Prop :=
  s1.data = s2.data + n ∧ s1.line = (s2.line + k) % UINT_RANGE ∧ s1.column = s2.column ∧
    s1.stop = s2.stop ∧ s1.state = s2.state ∧ (s1.state ≠ LINE_START → s1.entry = s2.entry) ∧
    A s1.arg s2.arg ∧ s1.calls = pre ++ s2.calls.map (Call.shift k)

/-- Two results of the same kind, with related values. -/
def ExecRel {α β : Type} (R : α → β → Prop) : Exec α → Exec β → Prop
  | Exec.ok a, Exec.ok b => R a b
  | Exec.fault, Exec.fault => True
  | Exec.timeout, Exec.timeout => True
  | _, _ => False

/-- Image of a result. -/
def Exec.map {α β : Type} (f : α → β) : Exec α → Exec β
  | Exec.ok a => Exec.ok (f a)
  | Exec.fault => Exec.fault
  | Exec.timeout => Exec.timeout

/-- A position moved `n` bytes and `k` lines further down. -/
def shift_pos (n k : Nat) (r : Nat × Nat × Nat) : Nat × Nat × Nat :=
  (r.1 + n, (r.2.1 + k) % UINT_RANGE, r.2.2)

/-- Text of the lines `ls`, each ended by a newline. -/
def unlines : List (List Nat) → List Nat
  | [] => []
  | l :: ls => l ++ 10 :: unlines ls

/-- A line with at least one byte before its newline, none of them NUL. -/
def BodyLine (l : List Nat) : Prop := l ≠ [] ∧ ∀ c ∈ l, c ≠ 0 ∧ c ≠ 10

instance (l : List Nat) : Decidable (BodyLine l) := by unfold BodyLine; infer_instance

/-- Line number of offset `p`: 1 plus the number of newline bytes before it. -/
def line_at (mem : List Nat) (p : Nat) : Nat := 1 + (mem.take p).count 10

/-- Column of offset `p`: the number of bytes between the start of its line
(the byte after the last newline before `p`, or the start of the buffer) and
`p`. -/
def column_at (mem : List Nat) (p : Nat) : Nat :=
  ((mem.take p).reverse.takeWhile (fun c => decide (c ≠ 10))).length

/-- The counters `line` and `column` are those of the cursor `p`, as
`unsigned int` values. -/
def Positioned (mem : List Nat) (p line column : Nat) : Prop :=
  line = line_at mem p % UINT_RANGE ∧ column = column_at mem p % UINT_RANGE

instance (mem : List Nat) (p line column : Nat) : Decidable (Positioned mem p line column) := by
  unfold Positioned; infer_instance

/-- The locals at the start of an iteration of the loop, for the parse that
starts with the locals `s0`: `s0` itself, and what an iteration that the loop
condition lets run makes of such locals. -/
inductive Visits {σ : Type} (cb : Handlers σ) (mem : List Nat) (s0 : Locals σ) :
    Locals σ → Prop
  | start : Visits cb mem s0 s0
  | next (s s1 : Locals σ) (h : Visits cb mem s0 s) (hstop : s.stop = false)
      (hbody : loop_body cb mem s = Exec.ok s1) : Visits cb mem s0 s1

/-- What an iteration on line `line` adds to the log `old`: calls, the errors
among them all reported for `line`. -/
def LineStep (line : Nat) (old new : List Call) : Prop :=
  ∃ added, new = old ++ added ∧ ∀ t l c b, Call.error t l c b ∈ added → l = line

/-- First token of a line: the bytes after the leading blanks, up to the next
blank, newline or NUL. -/
def first_token (L : List Nat) : List Nat :=
  token_run (L.dropWhile (fun c => decide (c = 32 ∨ c = 9)))

/-- Handlers that never ask to stop. -/
def NeverStops {σ : Type} (cb : Handlers σ) : Prop :=
  (∀ e a, (cb.entry_callback e a).1 = false) ∧ ∀ t l c a, (cb.error_callback t l c a).1 = false

/-- A call with the line number of an error increased by `k`. -/
def Call.advance (k : Nat) : Call → Call
  | Call.entry e b => Call.entry e b
  | Call.error t l c b => Call.error t (l + k) c b

/-! ## The iteration under a probe

The functions of the parser that invoke the error handler, written once more
with a list of records threaded through them.  `report_error_probed` makes the
call `authinfo_report_error` makes and appends to the list the cursor and the
counters of the locals it is invoked on; the other functions are `keyword_arm`,
`value_arm`, `authinfo_report_entry`, `dispatch` and `loop_body` with
`report_error_probed` in the place of `authinfo_report_error`.  Dropping the
list gives the original functions back (`loop_body_erase`). -/

/-- What a probe records when the error handler is invoked: the call, and the
cursor and the two counters the parser holds at that moment. -/
structure Probe where
  call : Call
  data : Nat
  line : Nat
  column : Nat
  deriving DecidableEq, Repr

/-- The function `authinfo_report_error` under the probe: the same call on the
same locals, and one more record in `pr`, taken from the locals the function is
invoked on. -/
def report_error_probed {σ : Type} (cb : Handlers σ) (type : authinfo_parse_error_type_t)
    (line column : Nat) (s : Locals σ) (pr : List Probe) : Bool × Locals σ × List Probe :=
  ((authinfo_report_error cb type line column s).1,
    (authinfo_report_error cb type line column s).2,
    pr ++ [⟨Call.error type line column (authinfo_report_error cb type line column s).1,
      s.data, s.line, s.column⟩])

/-- The function `authinfo_report_entry` under the probe. -/
def report_entry_probed {σ : Type} (cb : Handlers σ) (line : Nat) (s : Locals σ)
    (pr : List Probe) : Bool × Locals σ × List Probe :=
  if s.entry.host = none then
    report_error_probed cb AUTHINFO_PET_MISSING_HOST line 0 s pr
  else
    let r := cb.entry_callback s.entry s.arg
    (r.1, { s with arg := r.2, calls := s.calls ++ [Call.entry s.entry r.1] }, pr)

/-- The arm `keyword_arm` under the probe. -/
def keyword_arm_probed {σ : Type} (cb : Handlers σ) (token : List Nat) (token_column : Nat)
    (s : Locals σ) (pr : List Probe) : Locals σ × List Probe :=
  let r : Locals σ × List Probe × Bool :=
    if token = ascii "default" then
      ({ s with entry := { s.entry with host := some [] } }, pr, s.entry.host.isSome)
    else if token = ascii "machine" ∨ token = ascii "host" then
      ({ s with state := WAITING_HOST }, pr, s.entry.host.isSome)
    else if token = ascii "login" ∨ token = ascii "user" ∨ token = ascii "account" then
      ({ s with state := WAITING_USER }, pr, s.entry.user.isSome)
    else if token = ascii "password" then
      ({ s with state := WAITING_PASSWORD }, pr, s.entry.password.isSome)
    else if token = ascii "force" then
      ({ s with state := WAITING_FORCE }, pr, s.entry.force)
    else if token = ascii "port" ∨ token = ascii "protocol" then
      ({ s with state := WAITING_PROTOCOL }, pr, s.entry.protocol.isSome)
    else
      let e := report_error_probed cb AUTHINFO_PET_BAD_KEYWORD s.line token_column s pr
      ({ e.2.1 with stop := e.1 }, e.2.2, false)
  if r.2.2 then
    let e := report_error_probed cb AUTHINFO_PET_DUPLICATED_KEYWORD r.1.line token_column r.1
      r.2.1
    ({ e.2.1 with stop := e.1 }, e.2.2)
  else (r.1, r.2.1)

/-- The arm `value_arm` under the probe. -/
def value_arm_probed {σ : Type} (cb : Handlers σ) (token : List Nat) (token_column : Nat)
    (s : Locals σ) (pr : List Probe) : Locals σ × List Probe :=
  match s.state with
  | WAITING_FORCE =>
    if token = ascii "yes" then ({ s with entry := { s.entry with force := true } }, pr)
    else
      let e := report_error_probed cb AUTHINFO_PET_BAD_VALUE s.line token_column s pr
      (e.2.1, e.2.2)
  | WAITING_HOST =>
    (if s.entry.host = none then { s with entry := { s.entry with host := some token } } else s,
      pr)
  | WAITING_PROTOCOL =>
    (if s.entry.protocol = none then
      { s with entry := { s.entry with protocol := some token } } else s, pr)
  | WAITING_USER =>
    (if s.entry.user = none then { s with entry := { s.entry with user := some token } } else s,
      pr)
  | WAITING_PASSWORD =>
    (if s.entry.password = none then
      { s with entry := { s.entry with password := some token } } else s, pr)
  | _ => (s, pr)

/-- The switch `dispatch` under the probe. -/
def dispatch_probed {σ : Type} (cb : Handlers σ) (mem : List Nat) (token_column : Nat)
    (s : Locals σ) (pr : List Probe) : Exec (Locals σ × List Probe) :=
  match s.state with
  | LINE_START =>
    let s1 : Locals σ := { s with entry := ⟨none, none, none, none, false⟩ }
    match authinfo_skip_comment mem s1.data s1.line with
    | none => Exec.fault
    | some (some (str, line, column)) =>
      Exec.ok ({ s1 with data := str, line := line, column := column }, pr)
    | some none =>
      match authinfo_skip_macdef mem s1.data s1.line s1.column with
      | Exec.fault => Exec.fault
      | Exec.timeout => Exec.timeout
      | Exec.ok (some (str, line, column)) =>
        Exec.ok ({ s1 with data := str, line := line, column := column }, pr)
      | Exec.ok none => Exec.ok ({ s1 with state := WAITING_NEXT_PAIR }, pr)
  | LINE_END =>
    let r := report_entry_probed cb s.line s pr
    match authinfo_skip_line mem r.2.1.data r.2.1.line with
    | none => Exec.fault
    | some (str, line, column) =>
      Exec.ok ({ r.2.1 with stop := r.1, data := str, line := line, column := column,
                            state := LINE_START }, r.2.2)
  | WAITING_NEXT_PAIR =>
    match authinfo_next_token mem s.data s.column with
    | none => Exec.fault
    | some (str, column, some token) =>
      Exec.ok (keyword_arm_probed cb token token_column { s with data := str, column := column }
        pr)
    | some (str, column, none) =>
      let e := report_error_probed cb AUTHINFO_PET_BAD_KEYWORD s.line token_column
        { s with data := str, column := column } pr
      Exec.ok (e.2.1, e.2.2)
  | _ =>
    match authinfo_next_token mem s.data s.column with
    | none => Exec.fault
    | some (str, column, some token) =>
      let v := value_arm_probed cb token token_column { s with data := str, column := column } pr
      Exec.ok ({ v.1 with state := WAITING_NEXT_PAIR }, v.2)
    | some (str, column, none) =>
      let e := report_error_probed cb AUTHINFO_PET_VALUE_TOO_LONG s.line token_column
        { s with data := str, column := column } pr
      Exec.ok ({ e.2.1 with stop := e.1, state := WAITING_NEXT_PAIR }, e.2.2)

/-- One iteration of the loop, `loop_body`, under the probe. -/
def loop_body_probed {σ : Type} (cb : Handlers σ) (mem : List Nat) (s : Locals σ)
    (pr : List Probe) : Exec (Locals σ × List Probe) :=
  let token_column := s.column
  match authinfo_skip_spaces mem s.data s.column with
  | none => Exec.fault
  | some (str, column) =>
    let s1 : Locals σ := { s with data := str, column := column }
    match authinfo_eol mem s1.data with
    | none => Exec.fault
    | some false => dispatch_probed cb mem token_column s1 pr
    | some true =>
      match s1.state with
      | LINE_START =>
        match authinfo_eof mem s1.data with
        | none => Exec.fault
        | some true => Exec.ok ({ s1 with stop := true }, pr)
        | some false =>
          match authinfo_skip_line mem s1.data s1.line with
          | none => Exec.fault
          | some (str2, line2, column2) =>
            Exec.ok ({ s1 with data := str2, line := line2, column := column2 }, pr)
      | WAITING_NEXT_PAIR => dispatch_probed cb mem token_column { s1 with state := LINE_END } pr
      | _ =>
        let e := report_error_probed cb AUTHINFO_PET_MISSING_VALUE s1.line token_column
          { s1 with state := LINE_END } pr
        dispatch_probed cb mem token_column { e.2.1 with stop := e.1 } e.2.2

/-- The probes `pr1` are `pr` followed by one probe for each error among the
calls that lead from the log `old` to the log `new`, in the same order; every
such probe was taken with counters that fit its cursor in `mem`, and the line
number the handler was given is the line counter. -/
def ProbeStep (mem : List Nat) (old new : List Call) (pr pr1 : List Probe) : Prop :=
  ∃ added ps, new = old ++ added ∧ pr1 = pr ++ ps ∧
    added.filter Call.is_error = ps.map Probe.call ∧
    ∀ x ∈ ps, Positioned mem x.data x.line x.column ∧
      ∃ t c b, x.call = Call.error t x.line c b

/-- The flag logged with the call is an answer of the handlers `cb` to that
call. -/
def Answered {σ : Type} (cb : Handlers σ) : Call → Prop
  | Call.entry e b => ∃ a, b = (cb.entry_callback e a).1
  | Call.error t l c b => ∃ a, b = (cb.error_callback t l c a).1

/-- What an iteration adds to the log `old`: calls logged with the answers of
the handlers `cb`. -/
def AnswerStep {σ : Type} (cb : Handlers σ) (old new : List Call) : Prop :=
  ∃ added, new = old ++ added ∧ ∀ c ∈ added, Answered cb c

/-! ## Lemmas on the helpers and on single iterations -/

theorem strspn_scan_blank (ws rest : List Nat) (hws : Blank ws) (hrest : StartsSolid rest) :
    strspn_scan [32, 9] (ws ++ rest) = some ws.length := by
  induction ws with
  | nil =>
    cases rest with
    | nil => exact absurd hrest (by simp [StartsSolid])
    | cons d r =>
      have h : d ≠ 32 ∧ d ≠ 9 := hrest
      simp [strspn_scan, h.1, h.2]
  | cons c cs ih =>
    have hc : c = 32 ∨ c = 9 := hws c (by simp)
    have hcs : Blank cs := fun x hx => hws x (by simp [hx])
    have h0 : c ≠ 0 := by rcases hc with h | h <;> omega
    simp [strspn_scan, ih hcs, h0, hc]

theorem strcspn_scan_token (t rest : List Nat) (ht : TokenBytes t) (hrest : StartsDelim rest) :
    strcspn_scan [32, 9, 10] (t ++ rest) = some t.length := by
  induction t with
  | nil =>
    cases rest with
    | nil => exact absurd hrest (by simp [StartsDelim])
    | cons d r =>
      have h : d = 0 ∨ d = 32 ∨ d = 9 ∨ d = 10 := hrest
      simp [strcspn_scan, h]
  | cons c cs ih =>
    have hc := ht c (by simp)
    have hcs : TokenBytes cs := fun x hx => ht x (by simp [hx])
    simp [strcspn_scan, ih hcs, hc.1, hc.2.1, hc.2.2.1, hc.2.2.2]

theorem strcspn_scan_eol (d : Nat) (r : List Nat) (hd : d = 10 ∨ d = 0) :
    strcspn_scan [10] (d :: r) = some 0 := by
  rcases hd with h | h <;> simp [strcspn_scan, h]

theorem drop_add_of_drop_eq {mem a b : List Nat} {p : Nat} (h : mem.drop p = a ++ b) :
    mem.drop (p + a.length) = b := by
  rw [← List.drop_drop, h, List.drop_left]

theorem load_of_drop_eq {mem r : List Nat} {p c : Nat} (h : mem.drop p = c :: r) :
    load mem p = some c := by
  simp [load, h]

theorem StartsSolid.of_token {t rest : List Nat} (ht : TokenBytes t) (hne : t ≠ []) :
    StartsSolid (t ++ rest) := by
  cases t with
  | nil => exact absurd rfl hne
  | cons c cs =>
    have hc := ht c (by simp)
    exact ⟨hc.2.1, hc.2.2.1⟩

theorem skip_spaces_at {mem ws rest : List Nat} {p : Nat} (col : Nat)
    (h : mem.drop p = ws ++ rest) (hws : Blank ws) (hr : StartsSolid rest) :
    authinfo_skip_spaces mem p col = some (p + ws.length, (col + ws.length) % UINT_RANGE) := by
  simp [authinfo_skip_spaces, strspn, h, strspn_scan_blank ws rest hws hr]

theorem next_token_at {mem t rest : List Nat} {p : Nat} (col : Nat)
    (h : mem.drop p = t ++ rest) (ht : TokenBytes t) (hr : StartsDelim rest) :
    authinfo_next_token mem p col =
      some (p + t.length, (col + t.length) % UINT_RANGE,
        if t.length ≥ TOKEN_SIZE_MAX then none else some t) := by
  simp [authinfo_next_token, strcspn, h, strcspn_scan_token t rest ht hr]

theorem eol_at_token {mem t rest : List Nat} {p : Nat}
    (h : mem.drop p = t ++ rest) (ht : TokenBytes t) (hne : t ≠ []) :
    authinfo_eol mem p = some false := by
  cases t with
  | nil => exact absurd rfl hne
  | cons c cs =>
    have hc := ht c (by simp)
    simp [authinfo_eol, load, h, hc.1, hc.2.2.2]

theorem eol_at_end {mem r : List Nat} {p d : Nat}
    (h : mem.drop p = d :: r) (hd : d = 10 ∨ d = 0) :
    authinfo_eol mem p = some true := by
  rcases hd with hd | hd <;> simp [authinfo_eol, load, h, hd]

theorem eof_at {mem r : List Nat} {p d : Nat} (h : mem.drop p = d :: r) :
    authinfo_eof mem p = some (decide (d = 0)) := by
  simp [authinfo_eof, load, h]

theorem skip_line_at_eol {mem r : List Nat} {p d : Nat} (line : Nat)
    (h : mem.drop p = d :: r) (hd : d = 10 ∨ d = 0) :
    authinfo_skip_line mem p line = some (p + 1, (line + 1) % UINT_RANGE, 0) := by
  simp [authinfo_skip_line, strcspn, h, strcspn_scan_eol d r hd]

theorem skip_comment_at_token {mem t rest : List Nat} {p : Nat} (line : Nat)
    (h : mem.drop p = t ++ rest) (hne : t ≠ []) (hc : t.head? ≠ some 35) :
    authinfo_skip_comment mem p line = some none := by
  cases t with
  | nil => exact absurd rfl hne
  | cons c cs =>
    have : c ≠ 35 := by simpa using hc
    simp [authinfo_skip_comment, load, h, this]

theorem skip_macdef_at_token {mem t rest : List Nat} {p : Nat} (line col : Nat)
    (h : mem.drop p = t ++ rest) (ht : TokenBytes t) (hr : StartsDelim rest)
    (hm : t ≠ ascii "macdef") :
    authinfo_skip_macdef mem p line col = Exec.ok none := by
  simp only [authinfo_skip_macdef, next_token_at col h ht hr]
  by_cases hl : t.length ≥ TOKEN_SIZE_MAX
  · simp [hl]
  · simp [hl, hm]

theorem mod_add_mod_uint (a b c : Nat) :
    ((a + b) % UINT_RANGE + c) % UINT_RANGE = (a + b + c) % UINT_RANGE := by
  rw [Nat.mod_add_mod]

section body

variable {σ : Type} (cb : Handlers σ) {mem ws t rest : List Nat}
  {data : Nat} (line column : Nat) (entry : authinfo_parse_entry_t) (arg : σ) (calls : List Call)

theorem body_line_start (h : mem.drop data = ws ++ (t ++ rest)) (hws : Blank ws)
    (ht : TokenBytes t) (hne : t ≠ []) (hr : StartsDelim rest)
    (hc : t.head? ≠ some 35) (hm : t ≠ ascii "macdef") :
    loop_body cb mem ⟨data, line, column, entry, false, LINE_START, arg, calls⟩ =
      Exec.ok ⟨data + ws.length, line, (column + ws.length) % UINT_RANGE, empty_entry, false,
        WAITING_NEXT_PAIR, arg, calls⟩ := by
  have h2 := drop_add_of_drop_eq h
  simp [loop_body, skip_spaces_at column h hws (StartsSolid.of_token ht hne),
    eol_at_token h2 ht hne, dispatch, skip_comment_at_token line h2 hne hc,
    skip_macdef_at_token line _ h2 ht hr hm, empty_entry]

theorem body_keyword (h : mem.drop data = ws ++ (t ++ rest)) (hws : Blank ws)
    (ht : TokenBytes t) (hne : t ≠ []) (hr : StartsDelim rest) (hl : t.length < TOKEN_SIZE_MAX) :
    loop_body cb mem ⟨data, line, column, entry, false, WAITING_NEXT_PAIR, arg, calls⟩ =
      Exec.ok (keyword_arm cb t column
        ⟨data + ws.length + t.length, line, (column + ws.length + t.length) % UINT_RANGE, entry,
          false, WAITING_NEXT_PAIR, arg, calls⟩) := by
  have h2 := drop_add_of_drop_eq h
  simp [loop_body, skip_spaces_at column h hws (StartsSolid.of_token ht hne),
    eol_at_token h2 ht hne, dispatch, next_token_at _ h2 ht hr, Nat.not_le.mpr hl,
    mod_add_mod_uint]

theorem body_keyword_long (h : mem.drop data = ws ++ (t ++ rest)) (hws : Blank ws)
    (ht : TokenBytes t) (hr : StartsDelim rest) (hl : TOKEN_SIZE_MAX ≤ t.length) :
    loop_body cb mem ⟨data, line, column, entry, false, WAITING_NEXT_PAIR, arg, calls⟩ =
      Exec.ok (authinfo_report_error cb AUTHINFO_PET_BAD_KEYWORD line column
        ⟨data + ws.length + t.length, line, (column + ws.length + t.length) % UINT_RANGE, entry,
          false, WAITING_NEXT_PAIR, arg, calls⟩).2 := by
  have hne : t ≠ [] := by
    intro h0; rw [h0] at hl; simp [TOKEN_SIZE_MAX] at hl
  have h2 := drop_add_of_drop_eq h
  simp [loop_body, skip_spaces_at column h hws (StartsSolid.of_token ht hne),
    eol_at_token h2 ht hne, dispatch, next_token_at _ h2 ht hr, hl, mod_add_mod_uint]

theorem body_value {st : parse_state_t} (hst : ValueState st)
    (h : mem.drop data = ws ++ (t ++ rest)) (hws : Blank ws)
    (ht : TokenBytes t) (hne : t ≠ []) (hr : StartsDelim rest) (hl : t.length < TOKEN_SIZE_MAX) :
    loop_body cb mem ⟨data, line, column, entry, false, st, arg, calls⟩ =
      Exec.ok { value_arm cb t column
        ⟨data + ws.length + t.length, line, (column + ws.length + t.length) % UINT_RANGE, entry,
          false, st, arg, calls⟩ with state := WAITING_NEXT_PAIR } := by
  have h2 := drop_add_of_drop_eq h
  rcases hst with hs | hs | hs | hs | hs <;> subst hs <;>
  simp [loop_body, skip_spaces_at column h hws (StartsSolid.of_token ht hne),
    eol_at_token h2 ht hne, dispatch, next_token_at _ h2 ht hr, Nat.not_le.mpr hl,
    mod_add_mod_uint]

theorem body_value_long {st : parse_state_t} (hst : ValueState st)
    (h : mem.drop data = ws ++ (t ++ rest)) (hws : Blank ws)
    (ht : TokenBytes t) (hr : StartsDelim rest) (hl : TOKEN_SIZE_MAX ≤ t.length) :
    loop_body cb mem ⟨data, line, column, entry, false, st, arg, calls⟩ =
      Exec.ok
        ⟨data + ws.length + t.length, line, (column + ws.length + t.length) % UINT_RANGE, entry,
          (cb.error_callback AUTHINFO_PET_VALUE_TOO_LONG line column arg).1, WAITING_NEXT_PAIR,
          (cb.error_callback AUTHINFO_PET_VALUE_TOO_LONG line column arg).2,
          calls ++ [Call.error AUTHINFO_PET_VALUE_TOO_LONG line column
            (cb.error_callback AUTHINFO_PET_VALUE_TOO_LONG line column arg).1]⟩ := by
  have hne : t ≠ [] := by
    intro h0; rw [h0] at hl; simp [TOKEN_SIZE_MAX] at hl
  have h2 := drop_add_of_drop_eq h
  rcases hst with hs | hs | hs | hs | hs <;> subst hs <;>
  simp [loop_body, skip_spaces_at column h hws (StartsSolid.of_token ht hne),
    eol_at_token h2 ht hne, dispatch, next_token_at _ h2 ht hr, hl, mod_add_mod_uint,
    authinfo_report_error]

theorem body_eol_pair {d : Nat} (h : mem.drop data = ws ++ d :: rest) (hws : Blank ws)
    (hd : d = 10 ∨ d = 0) :
    loop_body cb mem ⟨data, line, column, entry, false, WAITING_NEXT_PAIR, arg, calls⟩ =
      Exec.ok (line_end cb (data + ws.length)
        ⟨data + ws.length, line, (column + ws.length) % UINT_RANGE, entry, false, LINE_END,
          arg, calls⟩) := by
  have h2 := drop_add_of_drop_eq h
  have hsol : StartsSolid (d :: rest) := by
    rcases hd with hd | hd <;> subst hd <;> simp [StartsSolid]
  have hline : ∀ s : Locals σ, (authinfo_report_entry cb line s).2.line = s.line := by
    intro s; unfold authinfo_report_entry authinfo_report_error; split <;> rfl
  have hdata : ∀ s : Locals σ, (authinfo_report_entry cb line s).2.data = s.data := by
    intro s; unfold authinfo_report_entry authinfo_report_error; split <;> rfl
  simp [loop_body, skip_spaces_at column h hws hsol, eol_at_end h2 hd, dispatch, line_end,
    hline, hdata, skip_line_at_eol _ h2 hd]

theorem body_eol_value {d : Nat} {st : parse_state_t} (hst : ValueState st)
    (h : mem.drop data = ws ++ d :: rest) (hws : Blank ws) (hd : d = 10 ∨ d = 0) :
    loop_body cb mem ⟨data, line, column, entry, false, st, arg, calls⟩ =
      Exec.ok (line_end cb (data + ws.length)
        ⟨data + ws.length, line, (column + ws.length) % UINT_RANGE, entry,
          (cb.error_callback AUTHINFO_PET_MISSING_VALUE line column arg).1, LINE_END,
          (cb.error_callback AUTHINFO_PET_MISSING_VALUE line column arg).2,
          calls ++ [Call.error AUTHINFO_PET_MISSING_VALUE line column
            (cb.error_callback AUTHINFO_PET_MISSING_VALUE line column arg).1]⟩) := by
  have h2 := drop_add_of_drop_eq h
  have hsol : StartsSolid (d :: rest) := by
    rcases hd with hd | hd <;> subst hd <;> simp [StartsSolid]
  have hline : ∀ s : Locals σ, (authinfo_report_entry cb line s).2.line = s.line := by
    intro s; unfold authinfo_report_entry authinfo_report_error; split <;> rfl
  have hdata : ∀ s : Locals σ, (authinfo_report_entry cb line s).2.data = s.data := by
    intro s; unfold authinfo_report_entry authinfo_report_error; split <;> rfl
  rcases hst with hs | hs | hs | hs | hs <;> subst hs <;>
  simp [loop_body, skip_spaces_at column h hws hsol, eol_at_end h2 hd, dispatch, line_end,
    hline, hdata, skip_line_at_eol _ h2 hd, authinfo_report_error]

theorem body_eof (h : mem.drop data = ws ++ 0 :: rest) (hws : Blank ws) :
    loop_body cb mem ⟨data, line, column, entry, false, LINE_START, arg, calls⟩ =
      Exec.ok ⟨data + ws.length, line, (column + ws.length) % UINT_RANGE, entry, true,
        LINE_START, arg, calls⟩ := by
  have h2 := drop_add_of_drop_eq h
  have hsol : StartsSolid (0 :: rest) := by simp [StartsSolid]
  simp [loop_body, skip_spaces_at column h hws hsol, eol_at_end h2 (Or.inr rfl), eof_at h2]

theorem body_empty_line (h : mem.drop data = ws ++ 10 :: rest) (hws : Blank ws) :
    loop_body cb mem ⟨data, line, column, entry, false, LINE_START, arg, calls⟩ =
      Exec.ok ⟨data + ws.length + 1, (line + 1) % UINT_RANGE, 0, entry, false,
        LINE_START, arg, calls⟩ := by
  have h2 := drop_add_of_drop_eq h
  have hsol : StartsSolid (10 :: rest) := by simp [StartsSolid]
  simp [loop_body, skip_spaces_at column h hws hsol, eol_at_end h2 (Or.inl rfl), eof_at h2,
    skip_line_at_eol _ h2 (Or.inl rfl)]

end body

theorem Reach.refl {σ : Type} (cb : Handlers σ) (mem : List Nat) (s : Locals σ) :
    Reach cb mem 0 s s := by
  intro n; simp

theorem Reach.trans {σ : Type} {cb : Handlers σ} {mem : List Nat} {j k : Nat}
    {s s1 s2 : Locals σ} (h1 : Reach cb mem j s s1) (h2 : Reach cb mem k s1 s2) :
    Reach cb mem (j + k) s s2 := by
  intro n; rw [Nat.add_assoc, h1, h2]

theorem Reach.step {σ : Type} {cb : Handlers σ} {mem : List Nat} {s s1 : Locals σ}
    (hstop : s.stop = false) (h : loop_body cb mem s = Exec.ok s1) :
    Reach cb mem 1 s s1 := by
  intro n; rw [Nat.add_comm]; simp [run, hstop, h]

theorem run_of_stop {σ : Type} (cb : Handlers σ) (mem : List Nat) (n : Nat) (s : Locals σ)
    (h : s.stop = true) : run cb mem n s = (Outcome.finished, s) := by
  cases n <;> simp [run, h]

theorem parse_of_reach {σ : Type} {cb : Handlers σ} {mem : List Nat} {arg : σ} {k : Nat}
    {s : Locals σ} (h : Reach cb mem k (init arg) s) (hk : k ≤ 2 * mem.length + 2)
    (hstop : s.stop = true) : authinfo_parse cb mem arg = (Outcome.finished, s) := by
  unfold authinfo_parse
  obtain ⟨m, hm⟩ := Nat.exists_eq_add_of_le hk
  rw [hm, h, run_of_stop cb mem m s hstop]

theorem keyword_cases {t : List Nat} {k : Key} (h : keyword t = some k) :
    t = ascii "machine" ∨ t = ascii "host" ∨ t = ascii "login" ∨ t = ascii "user" ∨
      t = ascii "account" ∨ t = ascii "password" ∨ t = ascii "force" ∨ t = ascii "port" ∨
      t = ascii "protocol" := by
  unfold keyword at h
  by_contra hc
  simp only [not_or] at hc
  obtain ⟨h1, h2, h3, h4, h5, h6, h7, h8, h9⟩ := hc
  simp [h1, h2, h3, h4, h5, h6, h7, h8, h9] at h

theorem keyword_token {t : List Nat} {k : Key} (h : keyword t = some k) :
    TokenBytes t ∧ t ≠ [] ∧ t.length < TOKEN_SIZE_MAX ∧ t ≠ ascii "default" ∧
      t.head? ≠ some 35 ∧ t ≠ ascii "macdef" := by
  rcases keyword_cases h with h | h | h | h | h | h | h | h | h <;> subst h <;> decide

theorem state_value (k : Key) : ValueState k.state := by
  cases k <;> simp [Key.state, ValueState]

section arms

variable {σ : Type} (cb : Handlers σ) (data line column : Nat)
  (entry : authinfo_parse_entry_t) (arg : σ) (calls : List Call)

theorem keyword_arm_key {t : List Nat} {k : Key} (tc : Nat) (h : keyword t = some k) :
    keyword_arm cb t tc ⟨data, line, column, entry, false, WAITING_NEXT_PAIR, arg, calls⟩ =
      if k.given entry then
        ⟨data, line, column, entry,
          (cb.error_callback AUTHINFO_PET_DUPLICATED_KEYWORD line tc arg).1, k.state,
          (cb.error_callback AUTHINFO_PET_DUPLICATED_KEYWORD line tc arg).2,
          calls ++ [Call.error AUTHINFO_PET_DUPLICATED_KEYWORD line tc
            (cb.error_callback AUTHINFO_PET_DUPLICATED_KEYWORD line tc arg).1]⟩
      else ⟨data, line, column, entry, false, k.state, arg, calls⟩ := by
  have hd := (keyword_token h).2.2.2.1
  unfold keyword at h
  unfold keyword_arm
  simp only [hd, if_false]
  split_ifs at h <;> simp at h <;> subst h <;>
    simp [*, Key.given, Key.state, authinfo_report_error] <;> split <;> simp_all

theorem value_arm_key {k : Key} {v : List Nat} (tc : Nat) (hv : k = Key.force → v = ascii "yes") :
    value_arm cb v tc ⟨data, line, column, entry, false, k.state, arg, calls⟩ =
      ⟨data, line, column, k.assign v entry, false, k.state, arg, calls⟩ := by
  cases k <;> simp [value_arm, Key.state, Key.assign] <;> first | (split <;> rfl) | simp [hv]

end arms

theorem StartsDelim.of_blank {ws rest : List Nat} (hws : Blank ws) (hne : ws ≠ []) :
    StartsDelim (ws ++ rest) := by
  cases ws with
  | nil => exact absurd rfl hne
  | cons c cs =>
    have hc : c = 32 ∨ c = 9 := hws c (by simp)
    rcases hc with hc | hc <;> simp [StartsDelim, hc]

theorem reach_pair {σ : Type} (cb : Handlers σ) {mem rest : List Nat} {data : Nat}
    (line column : Nat) (entry : authinfo_parse_entry_t) (arg : σ) (calls : List Call)
    (p : Pair) (h : mem.drop data = p.text ++ rest) (hr : StartsDelim rest)
    (hwf : p.wf) (hf : p.fresh entry) :
    Reach cb mem 2 ⟨data, line, column, entry, false, WAITING_NEXT_PAIR, arg, calls⟩
      ⟨data + p.text.length, line, (column + p.text.length) % UINT_RANGE, p.apply entry, false,
        WAITING_NEXT_PAIR, arg, calls⟩ := by
  obtain ⟨hb1, hk, hb2, hne2, htv, hnev, hlv, hyes⟩ := hwf
  obtain ⟨k, hk⟩ := Option.isSome_iff_exists.mp hk
  obtain ⟨htk, hnek, hlk, -, -, -⟩ := keyword_token hk
  have hfk : k.given entry = false := by simpa [Pair.fresh, hk] using hf
  have h1 : mem.drop data = p.sp1 ++ (p.kw ++ (p.sp2 ++ (p.val ++ rest))) := by
    simp [h, Pair.text]
  have h2 : mem.drop (data + p.sp1.length + p.kw.length) = p.sp2 ++ (p.val ++ rest) :=
    drop_add_of_drop_eq (drop_add_of_drop_eq h1)
  have s1 := Reach.step rfl (body_keyword cb line column entry arg calls h1 hb1 htk hnek
    (StartsDelim.of_blank hb2 hne2) hlk)
  rw [keyword_arm_key cb _ _ _ _ _ _ _ hk] at s1
  simp only [hfk] at s1
  have s2 := Reach.step rfl (body_value cb line
    ((column + p.sp1.length + p.kw.length) % UINT_RANGE) entry arg calls (state_value k) h2 hb2
    htv hnev hr hlv)
  rw [value_arm_key cb _ _ _ _ _ _ _ (fun hkf => hyes (hkf ▸ hk))] at s2
  have s3 := Reach.trans s1 s2
  have e1 : data + p.sp1.length + p.kw.length + p.sp2.length + p.val.length =
      data + p.text.length := by simp [Pair.text]; omega
  have e2 : ((column + p.sp1.length + p.kw.length) % UINT_RANGE + p.sp2.length +
      p.val.length) % UINT_RANGE = (column + p.text.length) % UINT_RANGE := by
    simp only [Pair.text, List.length_append]
    rw [Nat.add_assoc _ p.sp2.length, Nat.mod_add_mod]
    congr 1; omega
  simpa [e1, e2, Pair.apply, hk] using s3

theorem render_length_ge {e : authinfo_parse_entry_t} {ps : List Pair} (h : Clean e ps) :
    ps.length ≤ (render ps).length := by
  induction ps generalizing e with
  | nil => simp
  | cons p ps ih =>
    obtain ⟨hwf, -, hc⟩ := h
    have hv : 0 < p.val.length := List.length_pos.mpr hwf.2.2.2.2.2.1
    have := ih hc
    simp [render, Pair.text]
    omega

theorem starts_delim_render {ps : List Pair} {rest : List Nat} {e : authinfo_parse_entry_t}
    (hc : Clean e ps) (hs : ∀ q ∈ ps, q.sp1 ≠ []) (hr : StartsDelim rest) :
    StartsDelim (render ps ++ rest) := by
  cases ps with
  | nil => simpa [render] using hr
  | cons q qs =>
    have hb : Blank q.sp1 := hc.1.1
    have hne : q.sp1 ≠ [] := hs q (by simp)
    simp only [render, Pair.text, List.append_assoc]
    exact StartsDelim.of_blank hb hne

theorem reach_pairs {σ : Type} (cb : Handlers σ) {mem rest : List Nat} (line : Nat) (arg : σ)
    (calls : List Call) (ps : List Pair) :
    ∀ (data column : Nat) (entry : authinfo_parse_entry_t),
      column < UINT_RANGE → mem.drop data = render ps ++ rest → StartsDelim rest →
      Clean entry ps → Spaced ps →
      Reach cb mem (2 * ps.length)
        ⟨data, line, column, entry, false, WAITING_NEXT_PAIR, arg, calls⟩
        ⟨data + (render ps).length, line, (column + (render ps).length) % UINT_RANGE,
          entry_of entry ps, false, WAITING_NEXT_PAIR, arg, calls⟩ := by
  induction ps with
  | nil =>
    intro data column entry hcol _ _ _ _
    simpa [render, entry_of, Nat.mod_eq_of_lt hcol] using Reach.refl cb mem _
  | cons p ps ih =>
    intro data column entry _ h hr hc hs
    obtain ⟨hwf, hf, hc2⟩ := hc
    have hs2 : ∀ q ∈ ps, q.sp1 ≠ [] := hs
    have h1 : mem.drop data = p.text ++ (render ps ++ rest) := by simp [h, render]
    have r1 := reach_pair cb line column entry arg calls p h1
      (starts_delim_render hc2 hs2 hr) hwf hf
    have r2 := ih (data + p.text.length) ((column + p.text.length) % UINT_RANGE)
      (p.apply entry) (Nat.mod_lt _ (by decide)) (drop_add_of_drop_eq h1) hr hc2
      (fun q hq => hs2 q (List.mem_of_mem_tail hq))
    have r3 := Reach.trans r1 r2
    have e1 : data + p.text.length + (render ps).length = data + (render (p :: ps)).length := by
      simp [render]; omega
    have e2 : ((column + p.text.length) % UINT_RANGE + (render ps).length) % UINT_RANGE =
        (column + (render (p :: ps)).length) % UINT_RANGE := by
      rw [Nat.mod_add_mod]; simp [render]; congr 1; omega
    have e3 : 2 + 2 * ps.length = 2 * (p :: ps).length := by simp; omega
    rw [e1, e2, e3] at r3
    exact r3

theorem line_end_eq {σ : Type} (cb : Handlers σ) (p data line column : Nat)
    (entry : authinfo_parse_entry_t) (stop : Bool) (arg : σ) (calls : List Call) :
    line_end cb p ⟨data, line, column, entry, stop, LINE_END, arg, calls⟩ =
      ⟨p + 1, (line + 1) % UINT_RANGE, 0, entry, (report_result cb entry line arg).1, LINE_START,
        (report_result cb entry line arg).2,
        calls ++ [report_call entry line (report_result cb entry line arg).1]⟩ := by
  by_cases hh : entry.host = none <;>
    simp [line_end, authinfo_report_entry, authinfo_report_error, report_result, report_call, hh]

/-- From `LINE_START` on the last line terminator of the buffer, reached with
the stop flag `b`, the loop ends within one iteration and makes no call. -/
theorem reach_end {σ : Type} (cb : Handlers σ) {mem : List Nat} {data : Nat}
    (line column : Nat) (entry : authinfo_parse_entry_t) (b : Bool) (arg : σ)
    (calls : List Call) (h : mem.drop data = [0]) :
    ∃ s1 : Locals σ, Reach cb mem 1 ⟨data, line, column, entry, b, LINE_START, arg, calls⟩ s1 ∧
      s1.stop = true ∧ s1.calls = calls ∧ s1.arg = arg := by
  cases b with
  | true =>
    refine ⟨⟨data, line, column, entry, true, LINE_START, arg, calls⟩, ?_, rfl, rfl, rfl⟩
    intro n
    rw [run_of_stop _ _ _ _ rfl, run_of_stop _ _ _ _ rfl]
  | false =>
    have hb : Blank [] := by simp [Blank]
    have h1 : mem.drop data = [] ++ 0 :: [] := by simpa using h
    exact ⟨_, Reach.step rfl (body_eof cb line column entry arg calls h1 hb), rfl, rfl, rfl⟩

/-- A line that ends in `WAITING_NEXT_PAIR`, on the last line of the buffer:
the entry is reported and the loop ends. -/
theorem reach_last_pair {σ : Type} (cb : Handlers σ) {mem trail : List Nat} {data : Nat}
    (line column : Nat) (entry : authinfo_parse_entry_t) (arg : σ) (calls : List Call)
    (h : mem.drop data = trail ++ [10, 0]) (hb : Blank trail) :
    ∃ s1 : Locals σ,
      Reach cb mem 2 ⟨data, line, column, entry, false, WAITING_NEXT_PAIR, arg, calls⟩ s1 ∧
      s1.stop = true ∧
      s1.calls = calls ++ [report_call entry line (report_result cb entry line arg).1] := by
  have r1 := Reach.step rfl (body_eol_pair cb line column entry arg calls h hb (Or.inl rfl))
  rw [line_end_eq] at r1
  have h2 : mem.drop (data + trail.length + 1) = [0] := by
    have h3 : mem.drop (data + trail.length) = [10] ++ [0] := drop_add_of_drop_eq h
    simpa using drop_add_of_drop_eq h3
  obtain ⟨s1, r2, hs, hc, -⟩ := reach_end cb ((line + 1) % UINT_RANGE) 0 entry
    (report_result cb entry line arg).1 (report_result cb entry line arg).2
    (calls ++ [report_call entry line (report_result cb entry line arg).1]) h2
  exact ⟨s1, Reach.trans r1 r2, hs, hc⟩

theorem init_eq {σ : Type} (arg : σ) :
    init arg = ⟨0, 1, 0, empty_entry, false, LINE_START, arg, []⟩ := rfl

/-- The first iteration on a line that starts with a pair: the blanks before
the keyword are skipped, and the entry is reset. -/
theorem reach_first_pair {σ : Type} (cb : Handlers σ) {mem rest : List Nat} {data : Nat}
    (line column : Nat) (entry : authinfo_parse_entry_t) (arg : σ) (calls : List Call)
    (p : Pair) (h : mem.drop data = p.text ++ rest) (hwf : p.wf) :
    Reach cb mem 1 ⟨data, line, column, entry, false, LINE_START, arg, calls⟩
      ⟨data + p.sp1.length, line, (column + p.sp1.length) % UINT_RANGE, empty_entry, false,
        WAITING_NEXT_PAIR, arg, calls⟩ := by
  obtain ⟨hb1, hk, hb2, hne2, -⟩ := hwf
  obtain ⟨k, hk⟩ := Option.isSome_iff_exists.mp hk
  obtain ⟨htk, hnek, -, -, hc, hm⟩ := keyword_token hk
  have h1 : mem.drop data = p.sp1 ++ (p.kw ++ (p.sp2 ++ (p.val ++ rest))) := by
    simp [h, Pair.text]
  exact Reach.step rfl (body_line_start cb line column entry arg calls h1 hb1 htk hnek
    (StartsDelim.of_blank hb2 hne2) hc hm)

/-- A buffer that holds one line of well-formed pairs without a repeated field:
the entry built from the pairs is reported, and nothing else. -/
theorem parse_clean_line {σ : Type} (cb : Handlers σ) (arg : σ) (p : Pair) (ps : List Pair)
    (trail : List Nat) (hc : Clean empty_entry (p :: ps)) (hs : Spaced (p :: ps))
    (hb : Blank trail) :
    (authinfo_parse cb (cstr (render (p :: ps) ++ trail ++ [10])) arg).1 = Outcome.finished ∧
    (authinfo_parse cb (cstr (render (p :: ps) ++ trail ++ [10])) arg).2.calls =
      [report_call (entry_of empty_entry (p :: ps)) 1
        (report_result cb (entry_of empty_entry (p :: ps)) 1 arg).1] := by
  set mem := cstr (render (p :: ps) ++ trail ++ [10]) with hmem
  have h0 : mem.drop 0 = p.text ++ (render ps ++ (trail ++ [10, 0])) := by
    simp [hmem, cstr, render]
  have r1 := reach_first_pair cb 1 0 empty_entry arg [] p h0 hc.1
  let q : Pair := ⟨[], p.kw, p.sp2, p.val⟩
  have hq : Clean empty_entry (q :: ps) := by
    obtain ⟨⟨-, h2, h3, h4, h5, h6, h7, h8⟩, hf, hcl⟩ := hc
    exact ⟨⟨by simp [q, Blank], h2, h3, h4, h5, h6, h7, h8⟩, hf, hcl⟩
  have h1 : mem.drop (0 + p.sp1.length) = render (q :: ps) ++ (trail ++ [10, 0]) := by
    have h2 : mem.drop 0 =
        p.sp1 ++ (p.kw ++ (p.sp2 ++ p.val) ++ (render ps ++ (trail ++ [10, 0]))) := by
      simp [h0, Pair.text]
    simpa [render, Pair.text, q] using drop_add_of_drop_eq h2
  have hdel : StartsDelim (trail ++ [10, 0]) := by
    cases trail with
    | nil => simp [StartsDelim]
    | cons c cs => exact StartsDelim.of_blank hb (by simp)
  have r2 := reach_pairs cb 1 arg [] (q :: ps) (0 + p.sp1.length)
    ((0 + p.sp1.length) % UINT_RANGE) empty_entry (Nat.mod_lt _ (by decide)) h1 hdel hq hs
  obtain ⟨s1, r3, hstop, hcalls⟩ := reach_last_pair cb 1
    (((0 + p.sp1.length) % UINT_RANGE + (render (q :: ps)).length) % UINT_RANGE)
    (entry_of empty_entry (q :: ps)) arg [] (drop_add_of_drop_eq h1) hb
  have hlen : 1 + 2 * (q :: ps).length + 2 ≤ 2 * mem.length + 2 := by
    have := render_length_ge hc
    simp only [hmem, cstr, List.length_append, List.length_cons, List.length_nil] at *
    omega
  have hfin := parse_of_reach (Reach.trans (Reach.trans (init_eq arg ▸ r1) r2) r3) hlen hstop
  have he : entry_of empty_entry (q :: ps) = entry_of empty_entry (p :: ps) := rfl
  rw [hfin]
  exact ⟨rfl, by simpa [he] using hcalls⟩

theorem assign_of_given {k : Key} {e : authinfo_parse_entry_t} (v : List Nat)
    (h : k.given e = true) : k.assign v e = e := by
  cases e with
  | mk host protocol user password force =>
    cases k <;> simp only [Key.given] at h <;> simp only [Key.assign]
    · cases host <;> simp_all
    · cases user <;> simp_all
    · cases password <;> simp_all
    · simp_all
    · cases protocol <;> simp_all

/-- A line that starts with well-formed pairs without a repeated field: after
them the parser waits for a keyword with the entry built from the pairs, and no
callback has been called. -/
theorem reach_line_pairs {σ : Type} (cb : Handlers σ) {mem rest : List Nat} {data : Nat}
    (line column : Nat) (entry : authinfo_parse_entry_t) (arg : σ) (calls : List Call)
    (p : Pair) (ps : List Pair) (h : mem.drop data = render (p :: ps) ++ rest)
    (hr : StartsDelim rest) (hc : Clean empty_entry (p :: ps)) (hs : Spaced (p :: ps)) :
    Reach cb mem (1 + 2 * (p :: ps).length)
      ⟨data, line, column, entry, false, LINE_START, arg, calls⟩
      ⟨data + (render (p :: ps)).length, line,
        (column + (render (p :: ps)).length) % UINT_RANGE, entry_of empty_entry (p :: ps), false,
        WAITING_NEXT_PAIR, arg, calls⟩ := by
  have h0 : mem.drop data = p.text ++ (render ps ++ rest) := by simp [h, render]
  have r1 := reach_first_pair cb line column entry arg calls p h0 hc.1
  let q : Pair := ⟨[], p.kw, p.sp2, p.val⟩
  have hq : Clean empty_entry (q :: ps) := by
    obtain ⟨⟨-, h2, h3, h4, h5, h6, h7, h8⟩, hf, hcl⟩ := hc
    exact ⟨⟨by simp [q, Blank], h2, h3, h4, h5, h6, h7, h8⟩, hf, hcl⟩
  have h1 : mem.drop (data + p.sp1.length) = render (q :: ps) ++ rest := by
    have h2 : mem.drop data = p.sp1 ++ (p.kw ++ (p.sp2 ++ p.val) ++ (render ps ++ rest)) := by
      simp [h0, Pair.text]
    simpa [render, Pair.text, q] using drop_add_of_drop_eq h2
  have r2 := reach_pairs cb line arg calls (q :: ps) (data + p.sp1.length)
    ((column + p.sp1.length) % UINT_RANGE) empty_entry (Nat.mod_lt _ (by decide)) h1 hr hq hs
  have r3 := Reach.trans r1 r2
  have e1 : data + p.sp1.length + (render (q :: ps)).length =
      data + (render (p :: ps)).length := by
    simp [render, Pair.text, q]; omega
  have e2 : ((column + p.sp1.length) % UINT_RANGE + (render (q :: ps)).length) % UINT_RANGE =
      (column + (render (p :: ps)).length) % UINT_RANGE := by
    rw [Nat.mod_add_mod]; simp [render, Pair.text, q]; congr 1; omega
  have e3 : entry_of empty_entry (q :: ps) = entry_of empty_entry (p :: ps) := rfl
  have e4 : (q :: ps).length = (p :: ps).length := rfl
  rw [e1, e2, e3, e4] at r3
  exact r3

theorem body_fault_of_drop_nil {σ : Type} (cb : Handlers σ) {mem : List Nat} (s : Locals σ)
    (h : mem.drop s.data = []) : loop_body cb mem s = Exec.fault := by
  simp [loop_body, authinfo_skip_spaces, strspn, h, strspn_scan]

theorem parse_of_reach_overrun {σ : Type} {cb : Handlers σ} {mem : List Nat} {arg : σ} {k : Nat}
    {s : Locals σ} (h : Reach cb mem k (init arg) s) (hk : k < 2 * mem.length + 2)
    (hstop : s.stop = false) (hd : mem.drop s.data = []) :
    authinfo_parse cb mem arg = (Outcome.overrun, s) := by
  unfold authinfo_parse
  obtain ⟨m, hm⟩ := Nat.exists_eq_add_of_lt hk
  rw [hm, Nat.add_assoc, h]
  simp [run, hstop, body_fault_of_drop_nil cb s hd]

/-- The keyword `password` with no value before the end of the line, read in
`WAITING_NEXT_PAIR` with no password given yet: a missing-value error at the
column where the keyword ends, then the entry is reported. -/
theorem reach_password_eol {σ : Type} (cb : Handlers σ) {mem sp trail rest : List Nat}
    {data d : Nat} (line column : Nat) (entry : authinfo_parse_entry_t) (arg : σ)
    (calls : List Call)
    (h : mem.drop data = sp ++ (ascii "password" ++ (trail ++ d :: rest)))
    (hsp : Blank sp) (hb : Blank trail) (hd : d = 10 ∨ d = 0) (hpw : entry.password = none) :
    Reach cb mem 2 ⟨data, line, column, entry, false, WAITING_NEXT_PAIR, arg, calls⟩
      ⟨data + sp.length + 8 + trail.length + 1, (line + 1) % UINT_RANGE, 0, entry,
        (report_result cb entry line
          (cb.error_callback AUTHINFO_PET_MISSING_VALUE line
            ((column + sp.length + 8) % UINT_RANGE) arg).2).1,
        LINE_START,
        (report_result cb entry line
          (cb.error_callback AUTHINFO_PET_MISSING_VALUE line
            ((column + sp.length + 8) % UINT_RANGE) arg).2).2,
        calls ++ [Call.error AUTHINFO_PET_MISSING_VALUE line
            ((column + sp.length + 8) % UINT_RANGE)
            (cb.error_callback AUTHINFO_PET_MISSING_VALUE line
              ((column + sp.length + 8) % UINT_RANGE) arg).1] ++
          [report_call entry line (report_result cb entry line
            (cb.error_callback AUTHINFO_PET_MISSING_VALUE line
              ((column + sp.length + 8) % UINT_RANGE) arg).2).1]⟩ := by
  have hk : keyword (ascii "password") = some Key.password := by decide
  obtain ⟨htk, hnek, hlk, -, -, -⟩ := keyword_token hk
  have hdel : StartsDelim (trail ++ d :: rest) := by
    cases trail with
    | nil => rcases hd with hd | hd <;> simp [StartsDelim, hd]
    | cons c cs => exact StartsDelim.of_blank hb (by simp)
  have r1 := Reach.step rfl (body_keyword cb line column entry arg calls h hsp htk hnek hdel hlk)
  rw [keyword_arm_key cb _ _ _ _ _ _ _ hk] at r1
  have hg : Key.password.given entry = false := by simp [Key.given, hpw]
  simp only [hg] at r1
  have h2 : mem.drop (data + sp.length + (ascii "password").length) = trail ++ d :: rest :=
    drop_add_of_drop_eq (drop_add_of_drop_eq h)
  have r2 := Reach.step rfl (body_eol_value cb line
    ((column + sp.length + (ascii "password").length) % UINT_RANGE) entry arg calls
    (state_value Key.password) h2 hb hd)
  rw [line_end_eq] at r2
  have hl : (ascii "password").length = 8 := by decide
  have r3 := Reach.trans r1 r2
  simp only [hl] at r3
  exact r3

section arms2
variable {σ : Type} (cb : Handlers σ) (data line column : Nat)
  (entry : authinfo_parse_entry_t) (arg : σ) (calls : List Call)

theorem keyword_arm_default (tc : Nat) :
    keyword_arm cb (ascii "default") tc
        ⟨data, line, column, entry, false, WAITING_NEXT_PAIR, arg, calls⟩ =
      if entry.host.isSome then
        ⟨data, line, column, { entry with host := some [] },
          (cb.error_callback AUTHINFO_PET_DUPLICATED_KEYWORD line tc arg).1, WAITING_NEXT_PAIR,
          (cb.error_callback AUTHINFO_PET_DUPLICATED_KEYWORD line tc arg).2,
          calls ++ [Call.error AUTHINFO_PET_DUPLICATED_KEYWORD line tc
            (cb.error_callback AUTHINFO_PET_DUPLICATED_KEYWORD line tc arg).1]⟩
      else ⟨data, line, column, { entry with host := some [] }, false, WAITING_NEXT_PAIR, arg,
        calls⟩ := by
  unfold keyword_arm
  cases hh : entry.host.isSome <;> simp [hh, authinfo_report_error]

theorem keyword_arm_bad {t : List Nat} (tc : Nat) (h : keyword t = none)
    (hd : t ≠ ascii "default") :
    keyword_arm cb t tc ⟨data, line, column, entry, false, WAITING_NEXT_PAIR, arg, calls⟩ =
      ⟨data, line, column, entry, (cb.error_callback AUTHINFO_PET_BAD_KEYWORD line tc arg).1,
        WAITING_NEXT_PAIR, (cb.error_callback AUTHINFO_PET_BAD_KEYWORD line tc arg).2,
        calls ++ [Call.error AUTHINFO_PET_BAD_KEYWORD line tc
          (cb.error_callback AUTHINFO_PET_BAD_KEYWORD line tc arg).1]⟩ := by
  unfold keyword at h
  unfold keyword_arm
  simp only [hd, if_false]
  split_ifs at h
  simp [*, authinfo_report_error]

end arms2

theorem keyword_host_cases {t : List Nat} (h : keyword t = some Key.host) :
    t = ascii "machine" ∨ t = ascii "host" := by
  unfold keyword at h
  by_contra hc
  simp only [not_or] at hc
  simp only [hc.1, hc.2, or_self, if_false] at h
  split_ifs at h <;> simp at h

theorem no_host_state_of_key {k : Key} (h : k ≠ Key.host) : NoHostState k.state := by
  cases k <;> simp [Key.state, NoHostState] at h ⊢

theorem value_of_no_host_state {st : parse_state_t} (h : NoHostState st)
    (hw : st ≠ WAITING_NEXT_PAIR) : ValueState st := by
  rcases h with h | h | h | h | h
  · exact absurd h hw
  · exact Or.inr (Or.inl h)
  · exact Or.inr (Or.inr (Or.inl h))
  · exact Or.inr (Or.inr (Or.inr (Or.inl h)))
  · exact Or.inr (Or.inr (Or.inr (Or.inr h)))

/-- One token read on a line that has given no host, the token being none of
`machine`, `host`, `default`: the host stays absent, the state stays in the
states of such a line, and every call made is an error other than missing-host
on this line; the stop flag is raised only by a call that asked for it. -/
theorem body_token_nohost {σ : Type} (cb : Handlers σ) {mem ws t rest : List Nat} {data : Nat}
    (line column : Nat) (entry : authinfo_parse_entry_t) (arg : σ) (calls : List Call)
    {st : parse_state_t} (hst : NoHostState st) (hhost : entry.host = none)
    (h : mem.drop data = ws ++ (t ++ rest)) (hws : Blank ws) (ht : TokenBytes t) (hne : t ≠ [])
    (hr : StartsDelim rest)
    (hno : t ≠ ascii "machine" ∧ t ≠ ascii "host" ∧ t ≠ ascii "default") :
    ∃ (column1 : Nat) (entry1 : authinfo_parse_entry_t) (stop1 : Bool) (st1 : parse_state_t)
      (arg1 : σ) (new : List Call),
      loop_body cb mem ⟨data, line, column, entry, false, st, arg, calls⟩ =
        Exec.ok ⟨data + ws.length + t.length, line, column1, entry1, stop1, st1, arg1,
          calls ++ new⟩ ∧
      NoHostState st1 ∧ entry1.host = none ∧ ErrsOn cb line new ∧
      (stop1 = true → ∃ ty col, Call.error ty line col true ∈ new) := by
  have herr : ∀ ty, ty ≠ AUTHINFO_PET_MISSING_HOST →
      ErrsOn cb line [Call.error ty line column (cb.error_callback ty line column arg).1] := by
    intro ty hty c hc
    simp only [List.mem_singleton] at hc
    exact ⟨ty, column, arg, hc, hty⟩
  have hnil : ErrsOn cb line [] := by intro c hc; simp at hc
  have hflag : ∀ ty, (cb.error_callback ty line column arg).1 = true →
      ∃ ty1 col, Call.error ty1 line col true ∈
        [Call.error ty line column (cb.error_callback ty line column arg).1] := by
    intro ty hb
    exact ⟨ty, column, by simp [hb]⟩
  by_cases hw : st = WAITING_NEXT_PAIR
  · subst hw
    by_cases hl : t.length < TOKEN_SIZE_MAX
    · rw [body_keyword cb line column entry arg calls h hws ht hne hr hl]
      cases hk : keyword t with
      | none =>
        rw [keyword_arm_bad cb _ _ _ _ _ _ _ hk hno.2.2]
        exact ⟨_, _, _, _, _, _, rfl, Or.inl rfl, hhost, herr _ (by decide), hflag _⟩
      | some k =>
        have hkh : k ≠ Key.host := by
          intro hkk
          rcases keyword_host_cases (hkk ▸ hk) with h1 | h1
          · exact hno.1 h1
          · exact hno.2.1 h1
        rw [keyword_arm_key cb _ _ _ _ _ _ _ hk]
        cases hg : k.given entry
        · simp only [Bool.false_eq_true, if_false]
          refine ⟨(column + ws.length + t.length) % UINT_RANGE, entry, false, k.state, arg, [],
            ?_, no_host_state_of_key hkh, hhost, hnil, ?_⟩
          · simp
          · intro hf; simp at hf
        · simp only [if_true]
          exact ⟨_, _, _, _, _, _, rfl, no_host_state_of_key hkh, hhost, herr _ (by decide),
            hflag _⟩
    · rw [body_keyword_long cb line column entry arg calls h hws ht hr (Nat.not_lt.mp hl)]
      refine ⟨(column + ws.length + t.length) % UINT_RANGE, entry, false, WAITING_NEXT_PAIR,
        (cb.error_callback AUTHINFO_PET_BAD_KEYWORD line column arg).2,
        [Call.error AUTHINFO_PET_BAD_KEYWORD line column
          (cb.error_callback AUTHINFO_PET_BAD_KEYWORD line column arg).1], rfl, Or.inl rfl, hhost,
        herr _ (by decide), ?_⟩
      intro hf; simp at hf
  · have hv := value_of_no_host_state hst hw
    by_cases hl : t.length < TOKEN_SIZE_MAX
    · rw [body_value cb line column entry arg calls hv h hws ht hne hr hl]
      rcases hst with h1 | h1 | h1 | h1 | h1
      · exact absurd h1 hw
      all_goals subst h1
      · by_cases hp : entry.protocol = none
        · refine ⟨(column + ws.length + t.length) % UINT_RANGE,
            { entry with protocol := some t }, false, WAITING_NEXT_PAIR, arg, [], ?_, Or.inl rfl,
            hhost, hnil, ?_⟩
          · simp [value_arm, hp]
          · intro hf; simp at hf
        · refine ⟨(column + ws.length + t.length) % UINT_RANGE, entry, false,
            WAITING_NEXT_PAIR, arg, [], ?_, Or.inl rfl, hhost, hnil, ?_⟩
          · simp [value_arm, hp]
          · intro hf; simp at hf
      · by_cases hp : entry.user = none
        · refine ⟨(column + ws.length + t.length) % UINT_RANGE,
            { entry with user := some t }, false, WAITING_NEXT_PAIR, arg, [], ?_, Or.inl rfl,
            hhost, hnil, ?_⟩
          · simp [value_arm, hp]
          · intro hf; simp at hf
        · refine ⟨(column + ws.length + t.length) % UINT_RANGE, entry, false,
            WAITING_NEXT_PAIR, arg, [], ?_, Or.inl rfl, hhost, hnil, ?_⟩
          · simp [value_arm, hp]
          · intro hf; simp at hf
      · by_cases hp : entry.password = none
        · refine ⟨(column + ws.length + t.length) % UINT_RANGE,
            { entry with password := some t }, false, WAITING_NEXT_PAIR, arg, [], ?_, Or.inl rfl,
            hhost, hnil, ?_⟩
          · simp [value_arm, hp]
          · intro hf; simp at hf
        · refine ⟨(column + ws.length + t.length) % UINT_RANGE, entry, false,
            WAITING_NEXT_PAIR, arg, [], ?_, Or.inl rfl, hhost, hnil, ?_⟩
          · simp [value_arm, hp]
          · intro hf; simp at hf
      · by_cases hy : t = ascii "yes"
        · refine ⟨(column + ws.length + t.length) % UINT_RANGE,
            { entry with force := true }, false, WAITING_NEXT_PAIR, arg, [], ?_, Or.inl rfl,
            hhost, hnil, ?_⟩
          · simp [value_arm, hy]
          · intro hf; simp at hf
        · refine ⟨(column + ws.length + t.length) % UINT_RANGE, entry, false,
            WAITING_NEXT_PAIR, (cb.error_callback AUTHINFO_PET_BAD_VALUE line column arg).2,
            [Call.error AUTHINFO_PET_BAD_VALUE line column
              (cb.error_callback AUTHINFO_PET_BAD_VALUE line column arg).1], ?_, Or.inl rfl, hhost,
            herr AUTHINFO_PET_BAD_VALUE (by decide), ?_⟩
          · simp [value_arm, hy, authinfo_report_error]
          · intro hf; simp at hf
    · rw [body_value_long cb line column entry arg calls hv h hws ht hr (Nat.not_lt.mp hl)]
      exact ⟨_, _, _, _, _, _, rfl, Or.inl rfl, hhost, herr _ (by decide), hflag _⟩

theorem starts_delim_trail {trail : List Nat} (hb : Blank trail) :
    StartsDelim (trail ++ [10, 0]) := by
  cases trail with
  | nil => simp [StartsDelim]
  | cons c cs => exact StartsDelim.of_blank hb (by simp)

/-- A line that ends while a value is awaited, on the last line of the buffer:
a missing-value error, then the entry is reported and the loop ends. -/
theorem reach_last_value {σ : Type} (cb : Handlers σ) {mem trail : List Nat} {data : Nat}
    (line column : Nat) (entry : authinfo_parse_entry_t) (arg : σ) (calls : List Call)
    {st : parse_state_t} (hst : ValueState st)
    (h : mem.drop data = trail ++ [10, 0]) (hb : Blank trail) :
    ∃ s1 : Locals σ,
      Reach cb mem 2 ⟨data, line, column, entry, false, st, arg, calls⟩ s1 ∧
      s1.stop = true ∧
      s1.calls = calls ++ [Call.error AUTHINFO_PET_MISSING_VALUE line column
          (cb.error_callback AUTHINFO_PET_MISSING_VALUE line column arg).1] ++
        [report_call entry line (report_result cb entry line
          (cb.error_callback AUTHINFO_PET_MISSING_VALUE line column arg).2).1] := by
  have r1 := Reach.step rfl (body_eol_value cb line column entry arg calls hst h hb (Or.inl rfl))
  rw [line_end_eq] at r1
  have h3 : mem.drop (data + trail.length) = [10] ++ [0] := drop_add_of_drop_eq h
  have h2 : mem.drop (data + trail.length + 1) = [0] := by
    simpa using drop_add_of_drop_eq h3
  obtain ⟨s1, r2, hs, hc, -⟩ := reach_end cb ((line + 1) % UINT_RANGE) 0 entry
    (report_result cb entry line
      (cb.error_callback AUTHINFO_PET_MISSING_VALUE line column arg).2).1
    (report_result cb entry line
      (cb.error_callback AUTHINFO_PET_MISSING_VALUE line column arg).2).2 _ h2
  exact ⟨s1, Reach.trans r1 r2, hs, hc⟩

theorem starts_delim_render_toks {xs : List Tok} {trail : List Nat}
    (hwf : ∀ y ∈ xs, y.wf ∧ y.no_host) (hs : ∀ y ∈ xs, y.sp ≠ []) (hb : Blank trail) :
    StartsDelim (render_toks xs ++ (trail ++ [10, 0])) := by
  cases xs with
  | nil => simpa [render_toks] using starts_delim_trail hb
  | cons y ys =>
    have h1 : Blank y.sp := (hwf y (by simp)).1.1
    have h2 : y.sp ≠ [] := hs y (by simp)
    simp only [render_toks, List.append_assoc]
    exact StartsDelim.of_blank h1 h2

/-- The rest of a line that has given no host and holds none of `machine`,
`host`, `default`, on the last line of the buffer: the loop ends after errors
other than missing-host, followed by one missing-host error at column 0 unless
one of the error calls asked to stop. -/
theorem reach_tokens_nohost {σ : Type} (cb : Handlers σ) {mem trail : List Nat} (line : Nat)
    (hb : Blank trail) (xs : List Tok) :
    ∀ (data column : Nat) (entry : authinfo_parse_entry_t) (st : parse_state_t) (arg : σ)
      (calls : List Call), NoHostState st → entry.host = none →
      mem.drop data = render_toks xs ++ (trail ++ [10, 0]) →
      (∀ y ∈ xs, y.wf ∧ y.no_host) → (∀ y ∈ xs.tail, y.sp ≠ []) →
      ∃ (k : Nat) (s1 : Locals σ), k ≤ xs.length + 2 ∧
        Reach cb mem k ⟨data, line, column, entry, false, st, arg, calls⟩ s1 ∧ s1.stop = true ∧
        ∃ errs b, ErrsOn cb line errs ∧
          (s1.calls = calls ++ errs ++ [Call.error AUTHINFO_PET_MISSING_HOST line 0 b] ∨
            (s1.calls = calls ++ errs ∧ ∃ ty col, Call.error ty line col true ∈ errs)) := by
  induction xs with
  | nil =>
    intro data column entry st arg calls hst hhost h _ _
    have h1 : mem.drop data = trail ++ [10, 0] := by simpa [render_toks] using h
    by_cases hw : st = WAITING_NEXT_PAIR
    · subst hw
      obtain ⟨s1, r, hs, hc⟩ := reach_last_pair cb line column entry arg calls h1 hb
      refine ⟨2, s1, by simp, r, hs, [], (report_result cb entry line arg).1, ?_, Or.inl ?_⟩
      · intro c hc; simp at hc
      · simpa [report_call, hhost] using hc
    · obtain ⟨s1, r, hs, hc⟩ := reach_last_value cb line column entry arg calls
        (value_of_no_host_state hst hw) h1 hb
      refine ⟨2, s1, by simp, r, hs,
        [Call.error AUTHINFO_PET_MISSING_VALUE line column
          (cb.error_callback AUTHINFO_PET_MISSING_VALUE line column arg).1],
        (report_result cb entry line
          (cb.error_callback AUTHINFO_PET_MISSING_VALUE line column arg).2).1, ?_, Or.inl ?_⟩
      · intro c hc
        simp only [List.mem_singleton] at hc
        exact ⟨_, _, arg, hc, by decide⟩
      · simpa [report_call, hhost] using hc
  | cons x xs ih =>
    intro data column entry st arg calls hst hhost h hwf hsp
    have hx := hwf x (by simp)
    have hwf2 : ∀ y ∈ xs, y.wf ∧ y.no_host := fun y hy => hwf y (by simp [hy])
    have hsp2 : ∀ y ∈ xs, y.sp ≠ [] := hsp
    have h1 : mem.drop data = x.sp ++ (x.tok ++ (render_toks xs ++ (trail ++ [10, 0]))) := by
      simpa [render_toks] using h
    obtain ⟨column1, entry1, stop1, st1, arg1, new, hbody, hst1, hhost1, hnew, hflag⟩ :=
      body_token_nohost cb line column entry arg calls hst hhost h1 hx.1.1 hx.1.2.1 hx.1.2.2
        (starts_delim_render_toks hwf2 hsp2 hb) hx.2
    have r1 := Reach.step rfl hbody
    cases hs1 : stop1 with
    | true =>
      subst hs1
      exact ⟨1, _, by simp, r1, rfl, new, false, hnew, Or.inr ⟨rfl, hflag rfl⟩⟩
    | false =>
      subst hs1
      obtain ⟨k, s1, hk, r2, hstop, errs, b, herrs, hcalls⟩ :=
        ih (data + x.sp.length + x.tok.length) column1 entry1 st1 arg1 (calls ++ new) hst1 hhost1
          (drop_add_of_drop_eq (drop_add_of_drop_eq h1)) hwf2
          (fun y hy => hsp2 y (List.mem_of_mem_tail hy))
      refine ⟨1 + k, s1, by simp; omega, Reach.trans r1 r2, hstop, new ++ errs, b, ?_, ?_⟩
      · intro c hc
        rcases List.mem_append.mp hc with hc | hc
        · exact hnew c hc
        · exact herrs c hc
      · rcases hcalls with hc | ⟨hc, ty, col, hm⟩
        · exact Or.inl (by simpa [List.append_assoc] using hc)
        · exact Or.inr ⟨by simpa [List.append_assoc] using hc, ty, col,
            List.mem_append.mpr (Or.inr hm)⟩

theorem render_toks_length_ge {xs : List Tok} (h : ∀ y ∈ xs, y.wf ∧ y.no_host) :
    xs.length ≤ (render_toks xs).length := by
  induction xs with
  | nil => simp
  | cons x xs ih =>
    have hx : 0 < x.tok.length := List.length_pos.mpr (h x (by simp)).1.2.2
    have := ih (fun y hy => h y (by simp [hy]))
    simp [render_toks]
    omega

theorem assign_host_of_ne {k : Key} (v : List Nat) (e : authinfo_parse_entry_t)
    (h : k ≠ Key.host) : (k.assign v e).host = e.host := by
  cases k <;> simp only [Key.assign] <;> first | exact absurd rfl h | (split <;> rfl)

theorem entry_of_host {ps : List Pair} :
    ∀ {e : authinfo_parse_entry_t} {h : List Nat}, Clean e ps → e.host = some h →
      (entry_of e ps).host = some h := by
  induction ps with
  | nil => intro e h _ hh; simpa [entry_of] using hh
  | cons p ps ih =>
    intro e h hc hh
    obtain ⟨-, hf, hc2⟩ := hc
    have hstep : (p.apply e).host = some h := by
      cases hk : keyword p.kw with
      | none => simp [Pair.fresh, hk] at hf
      | some k =>
        have hg : k.given e = false := by simpa [Pair.fresh, hk] using hf
        have hne : k ≠ Key.host := by
          intro hkk; subst hkk; simp [Key.given, hh] at hg
        simp only [Pair.apply, hk]
        rw [assign_host_of_ne _ _ hne, hh]
    exact ih hc2 hstep

/-! ## What an iteration adds to the log -/

theorem LogStep.none (calls : List Call) (stop : Bool) : LogStep calls calls stop :=
  ⟨[], by simp, Or.inl (by simp)⟩

theorem LogStep.error (calls : List Call) (stop : Bool) (t : authinfo_parse_error_type_t)
    (l col : Nat) (b : Bool) : LogStep calls (calls ++ [Call.error t l col b]) stop :=
  ⟨[Call.error t l col b], by simp [Call.is_error], Or.inl rfl⟩

theorem keyword_arm_log {σ : Type} (cb : Handlers σ) (t : List Nat) (tc : Nat) (s : Locals σ) :
    LogStep s.calls (keyword_arm cb t tc s).calls (keyword_arm cb t tc s).stop := by
  unfold keyword_arm authinfo_report_error
  dsimp only
  split_ifs <;> first | exact LogStep.none _ _ | exact LogStep.error _ _ _ _ _ _ | simp_all

theorem value_arm_log {σ : Type} (cb : Handlers σ) (t : List Nat) (tc : Nat) (s : Locals σ)
    (stop : Bool) : LogStep s.calls (value_arm cb t tc s).calls stop := by
  unfold value_arm authinfo_report_error
  split <;> first | exact LogStep.none _ _ | (split <;>
    first | exact LogStep.none _ _ | exact LogStep.error _ _ _ _ _ _)

theorem report_entry_log {σ : Type} (cb : Handlers σ) (l : Nat) (s : Locals σ) :
    LogStep s.calls (authinfo_report_entry cb l s).2.calls (authinfo_report_entry cb l s).1 := by
  unfold authinfo_report_entry authinfo_report_error
  split
  · exact LogStep.error _ _ _ _ _ _
  · next hh => exact ⟨[], by simp, Or.inr ⟨s.entry, hh, by simp⟩⟩

theorem dispatch_log {σ : Type} (cb : Handlers σ) (mem : List Nat) (tc : Nat) (s s1 : Locals σ)
    (h : dispatch cb mem tc s = Exec.ok s1) : LogStep s.calls s1.calls s1.stop := by
  unfold dispatch at h
  split at h <;> try dsimp only at h
  · split at h
    · simp at h
    · simp only [Exec.ok.injEq] at h; subst h; exact LogStep.none _ _
    · split at h
      · simp at h
      · simp at h
      · simp only [Exec.ok.injEq] at h; subst h; exact LogStep.none _ _
      · simp only [Exec.ok.injEq] at h; subst h; exact LogStep.none _ _
  · split at h
    · simp at h
    · simp only [Exec.ok.injEq] at h; subst h; exact report_entry_log cb _ _
  · split at h
    · simp at h
    · simp only [Exec.ok.injEq] at h; subst h; exact keyword_arm_log cb _ _ _
    · simp only [Exec.ok.injEq] at h; subst h
      exact LogStep.error _ _ _ _ _ _
  · split at h
    · simp at h
    · simp only [Exec.ok.injEq] at h; subst h; exact value_arm_log cb _ _ _ _
    · simp only [Exec.ok.injEq] at h; subst h
      exact LogStep.error _ _ _ _ _ _

theorem LogStep.after_error {old new : List Call} {stop : Bool}
    (t : authinfo_parse_error_type_t) (l col : Nat) (b : Bool)
    (h : LogStep (old ++ [Call.error t l col b]) new stop) : LogStep old new stop := by
  obtain ⟨errs, herrs, h⟩ := h
  refine ⟨Call.error t l col b :: errs, ?_, ?_⟩
  · intro c hc
    rcases List.mem_cons.mp hc with hc | hc
    · subst hc; rfl
    · exact herrs c hc
  · rcases h with h | ⟨e, he, h⟩
    · exact Or.inl (by simpa using h)
    · exact Or.inr ⟨e, he, by simpa using h⟩

theorem body_log {σ : Type} (cb : Handlers σ) (mem : List Nat) (s s1 : Locals σ)
    (h : loop_body cb mem s = Exec.ok s1) : LogStep s.calls s1.calls s1.stop := by
  unfold loop_body at h
  dsimp only at h
  split at h
  · simp at h
  · split at h
    · simp at h
    · have h1 := dispatch_log cb mem _ _ _ h
      exact h1
    · split at h
      · split at h
        · simp at h
        · simp only [Exec.ok.injEq] at h; subst h; exact LogStep.none _ _
        · split at h
          · simp at h
          · simp only [Exec.ok.injEq] at h; subst h; exact LogStep.none _ _
      · have h1 := dispatch_log cb mem _ _ _ h
        exact h1
      · have h1 := dispatch_log cb mem _ _ _ h
        exact LogStep.after_error _ _ _ _ h1

theorem append_singleton_eq_split {α : Type} {l pre post : List α} {x y : α}
    (h : l ++ [x] = pre ++ y :: post) (hy : y ∉ l) : post = [] ∧ x = y := by
  rcases List.eq_nil_or_concat post with hp | ⟨ps, p, hp⟩
  · subst hp
    have := List.append_inj' h rfl
    exact ⟨rfl, by simpa using this.2⟩
  · exfalso
    subst hp
    have h2 : l ++ [x] = (pre ++ y :: ps) ++ [p] := by simpa using h
    have := (List.append_inj' h2 rfl).1
    exact hy (by simp [this])

theorem stops_at_entry_step {old new : List Call} {stop : Bool}
    (hold : StopsAtEntry old false) (h : LogStep old new stop) : StopsAtEntry new stop := by
  intro pre e post hnew
  have hno : Call.entry e true ∉ old := by
    intro hm
    obtain ⟨a, b, hab⟩ := List.append_of_mem hm
    exact absurd (hold a e b hab).2 (by simp)
  obtain ⟨errs, herrs, h⟩ := h
  have hno2 : Call.entry e true ∉ old ++ errs := by
    intro hm
    rcases List.mem_append.mp hm with hm | hm
    · exact hno hm
    · have := herrs _ hm
      simp [Call.is_error] at this
  rcases h with h | ⟨e1, -, h⟩
  · exfalso
    apply hno2
    rw [← h, hnew]
    simp
  · rw [h] at hnew
    obtain ⟨hp, hx⟩ := append_singleton_eq_split hnew hno2
    simp only [Call.entry.injEq] at hx
    exact ⟨hp, hx.2⟩

theorem run_stops_at_entry {σ : Type} (cb : Handlers σ) (mem : List Nat) (n : Nat) :
    ∀ s : Locals σ, StopsAtEntry s.calls s.stop →
      StopsAtEntry (run cb mem n s).2.calls (run cb mem n s).2.stop := by
  induction n with
  | zero => intro s hs; unfold run; split <;> exact hs
  | succ n ih =>
    intro s hs
    unfold run
    split
    · exact hs
    · next hstop =>
      split
      · exact hs
      · exact hs
      · next s1 hbody =>
        have hf : s.stop = false := by simpa using hstop
        exact ih s1 (stops_at_entry_step (hf ▸ hs) (body_log cb mem s s1 hbody))

theorem hosts_present_step {old new : List Call} {stop : Bool}
    (hold : HostsPresent old) (h : LogStep old new stop) : HostsPresent new := by
  intro e b hm
  obtain ⟨errs, herrs, h⟩ := h
  have hnot : Call.entry e b ∉ errs := by
    intro hm2
    have := herrs _ hm2
    simp [Call.is_error] at this
  rcases h with h | ⟨e1, he1, h⟩
  · rw [h] at hm
    rcases List.mem_append.mp hm with hm | hm
    · exact hold e b hm
    · exact absurd hm hnot
  · rw [h] at hm
    rcases List.mem_append.mp hm with hm | hm
    · rcases List.mem_append.mp hm with hm | hm
      · exact hold e b hm
      · exact absurd hm hnot
    · simp only [List.mem_singleton, Call.entry.injEq] at hm
      rw [hm.1]; exact he1

theorem run_hosts_present {σ : Type} (cb : Handlers σ) (mem : List Nat) (n : Nat) :
    ∀ s : Locals σ, HostsPresent s.calls → HostsPresent (run cb mem n s).2.calls := by
  induction n with
  | zero => intro s hs; unfold run; split <;> exact hs
  | succ n ih =>
    intro s hs
    unfold run
    split
    · exact hs
    · split
      · exact hs
      · exact hs
      · next s1 hbody => exact ih s1 (hosts_present_step hs (body_log cb mem s s1 hbody))

theorem run_finished_of_stop {σ : Type} (cb : Handlers σ) (mem : List Nat) (n : Nat) :
    ∀ s : Locals σ, (run cb mem n s).2.stop = true → (run cb mem n s).1 = Outcome.finished := by
  induction n with
  | zero =>
    intro s h
    unfold run at h ⊢
    split
    · rfl
    · next hs => simp [hs] at h
  | succ n ih =>
    intro s h
    unfold run at h ⊢
    split
    · rfl
    · next hs =>
      simp only [hs, if_false] at h
      split
      · next hb => simp [hb, hs] at h
      · next hb => simp [hb, hs] at h
      · next s1 hb =>
        simp only [hb] at h
        exact ih s1 h

theorem assign_text_of_ne {k c : Key} (v : List Nat) (e : authinfo_parse_entry_t)
    (h : k ≠ c) : Key.text (k.assign v e) c = Key.text e c := by
  cases k <;> cases c <;> simp only [Key.assign, Key.text] <;>
    first | exact absurd rfl h | rfl | (split <;> rfl)

theorem given_assign_of_given {k c : Key} (v : List Nat) {e : authinfo_parse_entry_t}
    (h : c.given e = true) : c.given (k.assign v e) = true := by
  cases e with
  | mk host protocol user password force =>
    cases k <;> cases c <;> simp only [Key.assign, Key.given] at h ⊢ <;>
      first | exact h | (split <;> simp_all)

/-- A field that is already given is not changed by further well-formed pairs
that repeat no field. -/
theorem entry_of_text {qs : List Pair} {c : Key} :
    ∀ {e : authinfo_parse_entry_t}, Clean e qs → c.given e = true →
      Key.text (entry_of e qs) c = Key.text e c := by
  induction qs with
  | nil => intro e _ _; rfl
  | cons q qs ih =>
    intro e hc hg
    obtain ⟨-, hf, hc2⟩ := hc
    cases hk : keyword q.kw with
    | none => simp [Pair.fresh, hk] at hf
    | some k =>
      have hgk : k.given e = false := by simpa [Pair.fresh, hk] using hf
      have hne : k ≠ c := by
        intro hkc; subst hkc; rw [hg] at hgk; simp at hgk
      have h1 : q.apply e = k.assign q.val e := by simp [Pair.apply, hk]
      have h2 : entry_of e (q :: qs) = entry_of (q.apply e) qs := rfl
      rw [h2, ih hc2 (h1 ▸ given_assign_of_given q.val hg), h1, assign_text_of_ne _ _ hne]

/-! ## The scans in general -/

theorem strcspn_scan_takeWhile (reject s : List Nat) (h : ∃ c ∈ s, c = 0 ∨ c ∈ reject) :
    strcspn_scan reject s =
      some (s.takeWhile (fun c => decide (¬(c = 0 ∨ c ∈ reject)))).length := by
  induction s with
  | nil => obtain ⟨c, hc, -⟩ := h; simp at hc
  | cons d ds ih =>
    by_cases hd : d = 0 ∨ d ∈ reject
    · simp [strcspn_scan, hd, List.takeWhile]
    · have h2 : ∃ c ∈ ds, c = 0 ∨ c ∈ reject := by
        obtain ⟨c, hc, hcc⟩ := h
        rcases List.mem_cons.mp hc with hc | hc
        · subst hc; exact absurd hcc hd
        · exact ⟨c, hc, hcc⟩
      simp [strcspn_scan, hd, List.takeWhile, ih h2]

theorem take_length_takeWhile {α : Type} (p : α → Bool) (s : List α) :
    s.take (s.takeWhile p).length = s.takeWhile p := by
  induction s with
  | nil => simp
  | cons d ds ih =>
    by_cases hd : p d
    · simp [List.takeWhile, hd, ih]
    · simp [List.takeWhile, hd]

theorem strcspn_scan_some {reject s : List Nat} {n : Nat} (h : strcspn_scan reject s = some n) :
    ∃ a d r, s = a ++ d :: r ∧ a.length = n ∧ (∀ c ∈ a, c ≠ 0 ∧ c ∉ reject) ∧
      (d = 0 ∨ d ∈ reject) := by
  induction s generalizing n with
  | nil => simp [strcspn_scan] at h
  | cons c cs ih =>
    unfold strcspn_scan at h
    by_cases hc : c = 0 ∨ c ∈ reject
    · simp only [hc, if_true, Option.some.injEq] at h
      exact ⟨[], c, cs, rfl, by simpa using h, by simp, hc⟩
    · simp only [hc, if_false] at h
      cases hm : strcspn_scan reject cs with
      | none => simp [hm] at h
      | some m =>
        simp only [hm, Option.some.injEq] at h
        obtain ⟨a, d, r, hs, hl, ha, hd⟩ := ih hm
        refine ⟨c :: a, d, r, by simp [hs], by simp [hl, h], ?_, hd⟩
        intro x hx
        rcases List.mem_cons.mp hx with hx | hx
        · subst hx; exact ⟨fun h0 => hc (Or.inl h0), fun h1 => hc (Or.inr h1)⟩
        · exact ha x hx

theorem strcspn_scan_split {reject a r : List Nat} {d : Nat}
    (ha : ∀ c ∈ a, c ≠ 0 ∧ c ∉ reject) (hd : d = 0 ∨ d ∈ reject) :
    strcspn_scan reject (a ++ d :: r) = some a.length := by
  induction a with
  | nil => simp [strcspn_scan, hd]
  | cons c cs ih =>
    have hc := ha c (by simp)
    have hcs : ∀ x ∈ cs, x ≠ 0 ∧ x ∉ reject := fun x hx => ha x (by simp [hx])
    simp [strcspn_scan, ih hcs, hc.1, hc.2]

theorem strspn_scan_some {accept s : List Nat} {n : Nat} (h : strspn_scan accept s = some n) :
    ∃ a d r, s = a ++ d :: r ∧ a.length = n ∧ (∀ c ∈ a, c ≠ 0 ∧ c ∈ accept) ∧
      ¬(d ≠ 0 ∧ d ∈ accept) := by
  induction s generalizing n with
  | nil => simp [strspn_scan] at h
  | cons c cs ih =>
    unfold strspn_scan at h
    by_cases hc : c ≠ 0 ∧ c ∈ accept
    · rw [if_pos hc] at h
      cases hm : strspn_scan accept cs with
      | none => simp [hm] at h
      | some m =>
        simp only [hm, Option.some.injEq] at h
        obtain ⟨a, d, r, hs, hl, ha, hd⟩ := ih hm
        refine ⟨c :: a, d, r, by simp [hs], by simp [hl, h], ?_, hd⟩
        intro x hx
        rcases List.mem_cons.mp hx with hx | hx
        · subst hx; exact hc
        · exact ha x hx
    · rw [if_neg hc] at h
      simp only [Option.some.injEq] at h
      exact ⟨[], c, cs, rfl, by simpa using h, by simp, hc⟩

theorem skip_spaces_some {mem : List Nat} {p col p1 col1 : Nat}
    (h : authinfo_skip_spaces mem p col = some (p1, col1)) :
    ∃ a d r, mem.drop p = a ++ d :: r ∧ Blank a ∧ d ≠ 32 ∧ d ≠ 9 ∧ p1 = p + a.length ∧
      col1 = (col + a.length) % UINT_RANGE := by
  unfold authinfo_skip_spaces strspn at h
  cases hm : strspn_scan [32, 9] (mem.drop p) with
  | none => simp [hm] at h
  | some m =>
    simp only [hm, Option.some.injEq, Prod.mk.injEq] at h
    obtain ⟨a, d, r, hs, hl, ha, hd⟩ := strspn_scan_some hm
    refine ⟨a, d, r, hs, ?_, ?_, ?_, by omega, by rw [hl]; exact h.2.symm⟩
    · intro c hc; simpa using (ha c hc).2
    · intro h32; subst h32; exact hd ⟨by decide, by simp⟩
    · intro h9; subst h9; exact hd ⟨by decide, by simp⟩

theorem next_token_some {mem : List Nat} {p col p1 col1 : Nat} {tok : Option (List Nat)}
    (h : authinfo_next_token mem p col = some (p1, col1, tok)) :
    ∃ a d r, mem.drop p = a ++ d :: r ∧ TokenBytes a ∧ (d = 0 ∨ d = 32 ∨ d = 9 ∨ d = 10) ∧
      p1 = p + a.length ∧ col1 = (col + a.length) % UINT_RANGE ∧
      tok = if a.length ≥ TOKEN_SIZE_MAX then none else some a := by
  unfold authinfo_next_token strcspn at h
  cases hm : strcspn_scan [32, 9, 10] (mem.drop p) with
  | none => simp [hm] at h
  | some m =>
    simp only [hm, Option.some.injEq, Prod.mk.injEq] at h
    obtain ⟨a, d, r, hs, hl, ha, hd⟩ := strcspn_scan_some hm
    refine ⟨a, d, r, hs, ?_, by simpa using hd, by omega, by rw [hl]; exact h.2.1.symm, ?_⟩
    · intro c hc
      have := ha c hc
      simpa using this
    · rw [← h.2.2, hl, hs, ← hl, List.take_left]

theorem skip_line_some {mem : List Nat} {p line p1 line1 col1 : Nat}
    (h : authinfo_skip_line mem p line = some (p1, line1, col1)) :
    ∃ a d r, mem.drop p = a ++ d :: r ∧ (∀ c ∈ a, c ≠ 0 ∧ c ≠ 10) ∧ (d = 0 ∨ d = 10) ∧
      p1 = p + a.length + 1 ∧ line1 = (line + 1) % UINT_RANGE ∧ col1 = 0 := by
  unfold authinfo_skip_line strcspn at h
  cases hm : strcspn_scan [10] (mem.drop p) with
  | none => simp [hm] at h
  | some m =>
    simp only [hm, Option.some.injEq, Prod.mk.injEq] at h
    obtain ⟨a, d, r, hs, hl, ha, hd⟩ := strcspn_scan_some hm
    refine ⟨a, d, r, hs, ?_, by simpa using hd, by omega, h.2.1.symm, h.2.2.symm⟩
    intro c hc
    simpa using ha c hc

theorem skip_line_split {mem a r : List Nat} {p d : Nat} (line : Nat)
    (h : mem.drop p = a ++ d :: r) (ha : ∀ c ∈ a, c ≠ 0 ∧ c ≠ 10) (hd : d = 0 ∨ d = 10) :
    authinfo_skip_line mem p line = some (p + (a.length + 1), (line + 1) % UINT_RANGE, 0) := by
  have hs : strcspn_scan [10] (a ++ d :: r) = some a.length :=
    strcspn_scan_split (by intro c hc; simpa using ha c hc) (by simpa using hd)
  simp [authinfo_skip_line, strcspn, h, hs]

theorem length_of_drop_eq {mem a : List Nat} {p : Nat} (h : mem.drop p = a) :
    p + a.length = mem.length ∨ (a = [] ∧ mem.length ≤ p) := by
  by_cases hp : p ≤ mem.length
  · left
    have := congrArg List.length h
    simp at this
    omega
  · right
    have hp2 : mem.length ≤ p := by omega
    exact ⟨by rw [← h, List.drop_eq_nil_of_le hp2], hp2⟩

theorem lt_length_of_drop_cons {mem a r : List Nat} {p d : Nat} (h : mem.drop p = a ++ d :: r) :
    p + a.length + r.length + 1 = mem.length := by
  rcases length_of_drop_eq h with h1 | ⟨h1, -⟩
  · simp at h1; omega
  · simp at h1

/-! ## Where an iteration moves the cursor -/

theorem LineSkips.lt {mem : List Nat} {p l p1 l1 : Nat} (h : LineSkips mem p l p1 l1) :
    p < p1 ∧ p1 ≤ mem.length := by
  induction h with
  | one p l b r e h hb he =>
    have := lt_length_of_drop_cons h
    omega
  | more p l p1 l1 b r e h hb he hrest ih => omega

section arms3
variable {σ : Type} (cb : Handlers σ)

theorem report_error_fields (t : authinfo_parse_error_type_t) (l c : Nat) (s : Locals σ) :
    (authinfo_report_error cb t l c s).2.data = s.data ∧
    (authinfo_report_error cb t l c s).2.line = s.line ∧
    (authinfo_report_error cb t l c s).2.column = s.column ∧
    (authinfo_report_error cb t l c s).2.state = s.state ∧
    (authinfo_report_error cb t l c s).2.entry = s.entry ∧
    (authinfo_report_error cb t l c s).2.stop = s.stop := ⟨rfl, rfl, rfl, rfl, rfl, rfl⟩

theorem report_entry_fields (l : Nat) (s : Locals σ) :
    (authinfo_report_entry cb l s).2.data = s.data ∧
    (authinfo_report_entry cb l s).2.line = s.line ∧
    (authinfo_report_entry cb l s).2.column = s.column ∧
    (authinfo_report_entry cb l s).2.state = s.state ∧
    (authinfo_report_entry cb l s).2.entry = s.entry := by
  unfold authinfo_report_entry authinfo_report_error
  split <;> exact ⟨rfl, rfl, rfl, rfl, rfl⟩

theorem keyword_arm_fields (t : List Nat) (tc : Nat) (s : Locals σ)
    (hs : s.state = WAITING_NEXT_PAIR) :
    (keyword_arm cb t tc s).data = s.data ∧ (keyword_arm cb t tc s).line = s.line ∧
    (keyword_arm cb t tc s).column = s.column ∧ (keyword_arm cb t tc s).state ≠ LINE_START := by
  unfold keyword_arm authinfo_report_error
  dsimp only
  split_ifs <;> simp_all

theorem value_arm_fields (t : List Nat) (tc : Nat) (s : Locals σ) :
    (value_arm cb t tc s).data = s.data ∧ (value_arm cb t tc s).line = s.line ∧
    (value_arm cb t tc s).column = s.column := by
  unfold value_arm authinfo_report_error
  split <;> first | exact ⟨rfl, rfl, rfl⟩ | (split <;> exact ⟨rfl, rfl, rfl⟩)

end arms3

theorem skip_macdef_loop_some {mem : List Nat} (n : Nat) :
    ∀ {p l p1 l1 c1 : Nat}, skip_macdef_loop mem n p l = Exec.ok (p1, l1, c1) →
      LineSkips mem p l p1 l1 ∧ c1 = 0 ∧ load mem p1 = some 10 := by
  induction n with
  | zero => intro p l p1 l1 c1 h; simp [skip_macdef_loop] at h
  | succ n ih =>
    intro p l p1 l1 c1 h
    unfold skip_macdef_loop at h
    rcases h1 : authinfo_skip_line mem p l with _ | ⟨p2, l2, c2⟩
    · simp [h1] at h
    · simp only [h1] at h
      obtain ⟨b, e, r, hdrop, hb, he, hp2, hl2, hc2⟩ := skip_line_some h1
      rcases h2 : load mem p2 with _ | c
      · simp [h2] at h
      · simp only [h2] at h
        by_cases hc : c ≠ 10
        · rw [if_pos hc] at h
          obtain ⟨hs, hc1, hld⟩ := ih h
          subst hp2 hl2
          exact ⟨LineSkips.more p l p1 l1 b r e hdrop hb he hs, hc1, hld⟩
        · rw [if_neg hc] at h
          simp only [Exec.ok.injEq, Prod.mk.injEq] at h
          obtain ⟨h3, h4, h5⟩ := h
          subst hp2 hl2 h3 h4
          have hc10 : c = 10 := by simpa using hc
          exact ⟨LineSkips.one p l b r e hdrop hb he, by omega, by rw [h2, hc10]⟩

theorem skip_macdef_loop_no_timeout {mem : List Nat} (n : Nat) :
    ∀ (p l : Nat), mem.length ≤ p + n → 0 < n → skip_macdef_loop mem n p l ≠ Exec.timeout := by
  induction n with
  | zero => intro p l _ h; omega
  | succ n ih =>
    intro p l hlen _
    unfold skip_macdef_loop
    rcases h1 : authinfo_skip_line mem p l with _ | ⟨p2, l2, c2⟩
    · simp
    · obtain ⟨b, e, r, hdrop, hb, he, hp2, hl2, hc2⟩ := skip_line_some h1
      rcases h2 : load mem p2 with _ | c
      · simp [h2]
      · simp only [h2]
        split_ifs with hc
        · have hlt : p2 < mem.length := by
            unfold load at h2
            by_contra hge
            rw [List.drop_eq_nil_of_le (by omega)] at h2
            simp at h2
          exact ih p2 l2 (by omega) (by omega)
        · simp

theorem skip_macdef_loop_mono {mem : List Nat} (n k : Nat) :
    ∀ (p l : Nat), skip_macdef_loop mem n p l ≠ Exec.timeout →
      skip_macdef_loop mem (n + k) p l = skip_macdef_loop mem n p l := by
  induction n with
  | zero => intro p l h; simp [skip_macdef_loop] at h
  | succ n ih =>
    intro p l h
    rw [Nat.add_right_comm]
    unfold skip_macdef_loop at h ⊢
    rcases h1 : authinfo_skip_line mem p l with _ | ⟨p2, l2, c2⟩
    · rfl
    · simp only [h1] at h ⊢
      rcases h2 : load mem p2 with _ | c
      · rfl
      · simp only [h2] at h ⊢
        split_ifs at h ⊢ with hc
        · exact ih p2 l2 h
        · rfl

theorem skip_macdef_some {mem : List Nat} {p l c p1 l1 c1 : Nat}
    (h : authinfo_skip_macdef mem p l c = Exec.ok (some (p1, l1, c1))) :
    ∃ w rest, mem.drop p = w ++ rest ∧ (∀ x ∈ w, x ≠ 0 ∧ x ≠ 10) ∧
      LineSkips mem (p + w.length) l p1 l1 ∧ c1 = 0 := by
  unfold authinfo_skip_macdef at h
  rcases h1 : authinfo_next_token mem p c with _ | ⟨q, cq, tok⟩
  · simp [h1] at h
  · simp only [h1] at h
    obtain ⟨a, d, r, hdrop, ha, hd, hq, -, -⟩ := next_token_some h1
    split_ifs at h with htok
    · rcases h2 : skip_macdef_loop mem mem.length q l with ⟨p2, l2, c2⟩ | _ | _
      · simp only [h2, Exec.ok.injEq, Option.some.injEq, Prod.mk.injEq] at h
        obtain ⟨hs, hc, -⟩ := skip_macdef_loop_some _ h2
        obtain ⟨h3, h4, h5⟩ := h
        subst h3 h4 h5 hq
        exact ⟨a, d :: r, hdrop, fun x hx => ⟨(ha x hx).1, (ha x hx).2.2.2⟩, hs, hc⟩
      · simp [h2] at h
      · simp [h2] at h
    · simp at h

theorem dispatch_effect {σ : Type} (cb : Handlers σ) (mem : List Nat) (tc : Nat)
    (s s1 : Locals σ) (h : dispatch cb mem tc s = Exec.ok s1) : DispatchEffect mem s s1 := by
  unfold dispatch at h
  split at h <;> try dsimp only at h
  · next hst =>
    refine Or.inl ⟨hst, ?_⟩
    rcases h1 : authinfo_skip_comment mem s.data s.line with _ | _ | ⟨p1, l1, c1⟩
    · simp [h1] at h
    · simp only [h1] at h
      rcases h2 : authinfo_skip_macdef mem s.data s.line s.column with (_ | ⟨p1, l1, c1⟩) | _ | _
      · simp only [h2, Exec.ok.injEq] at h
        subst h
        exact Or.inr ⟨rfl, rfl, rfl, rfl, rfl⟩
      · simp only [h2, Exec.ok.injEq] at h
        subst h
        obtain ⟨w, rest, hd, hw, hs, hc⟩ := skip_macdef_some h2
        exact Or.inl ⟨w, rest, hd, hw, hs, hc, hst, rfl⟩
      · simp [h2] at h
      · simp [h2] at h
    · simp only [h1, Exec.ok.injEq] at h
      subst h
      unfold authinfo_skip_comment at h1
      rcases h3 : load mem s.data with _ | c
      · simp [h3] at h1
      · simp only [h3] at h1
        split_ifs at h1
        · rcases h4 : authinfo_skip_line mem s.data s.line with _ | ⟨p2, l2, c2⟩
          · simp [h4] at h1
          · simp only [h4, Option.some.injEq, Prod.mk.injEq] at h1
            obtain ⟨b, e, r, hdrop, hb, he, hp2, hl2, hc2⟩ := skip_line_some h4
            obtain ⟨h5, h6, h7⟩ := h1
            subst h5 h6 h7 hp2 hl2
            refine Or.inl ⟨[], mem.drop s.data, by simp, by simp, ?_, hc2, hst, rfl⟩
            simpa using LineSkips.one s.data s.line b r e hdrop hb he
        · simp at h1
  · next hst =>
    refine Or.inr (Or.inl ⟨hst, ?_⟩)
    obtain ⟨hd, hl, -, -, -⟩ := report_entry_fields cb s.line s
    rw [hd, hl] at h
    rcases h4 : authinfo_skip_line mem s.data s.line with _ | ⟨p2, l2, c2⟩
    · simp [h4] at h
    · simp only [h4, Exec.ok.injEq] at h
      subst h
      obtain ⟨b, e, r, hdrop, hb, he, hp2, hl2, hc2⟩ := skip_line_some h4
      subst hp2 hl2
      exact ⟨LineSkips.one s.data s.line b r e hdrop hb he, hc2, rfl⟩
  · next hst =>
    refine Or.inr (Or.inr ⟨by simp [hst], by simp [hst], ?_⟩)
    rcases h1 : authinfo_next_token mem s.data s.column with _ | ⟨q, cq, tok⟩
    · simp [h1] at h
    · obtain ⟨a, d, r, hdrop, ha, hd, hq, hcq, htok⟩ := next_token_some h1
      rcases tok with _ | tok
      · simp only [h1, Exec.ok.injEq] at h
        subst h
        exact ⟨a, d, r, hdrop, ha, hd, by simp [authinfo_report_error, hst], hq, rfl, hcq⟩
      · simp only [h1, Exec.ok.injEq] at h
        subst h
        obtain ⟨h5, h6, h7, h8⟩ := keyword_arm_fields cb tok tc
          { s with data := q, column := cq } hst
        exact ⟨a, d, r, hdrop, ha, hd, h8, h5.trans hq, h6, h7.trans hcq⟩
  · next hst1 hst2 hst3 =>
    refine Or.inr (Or.inr ⟨hst1, hst2, ?_⟩)
    rcases h1 : authinfo_next_token mem s.data s.column with _ | ⟨q, cq, tok⟩
    · simp [h1] at h
    · obtain ⟨a, d, r, hdrop, ha, hd, hq, hcq, htok⟩ := next_token_some h1
      rcases tok with _ | tok
      · simp only [h1, Exec.ok.injEq] at h
        subst h
        exact ⟨a, d, r, hdrop, ha, hd, by simp, hq, rfl, hcq⟩
      · simp only [h1, Exec.ok.injEq] at h
        subst h
        obtain ⟨h5, h6, h7⟩ := value_arm_fields cb tok tc { s with data := q, column := cq }
        exact ⟨a, d, r, hdrop, ha, hd, by simp, h5.trans hq, h6, h7.trans hcq⟩

theorem eol_some {mem : List Nat} {p : Nat} {b : Bool} (h : authinfo_eol mem p = some b) :
    ∃ d r, mem.drop p = d :: r ∧ (b = true ↔ d = 10 ∨ d = 0) := by
  unfold authinfo_eol load at h
  rcases hd : mem.drop p with _ | ⟨d, r⟩
  · simp [hd] at h
  · simp only [hd, List.head?_cons, Option.some.injEq] at h
    exact ⟨d, r, rfl, by rw [← h]; simp⟩

theorem eof_some {mem : List Nat} {p : Nat} {b : Bool} (h : authinfo_eof mem p = some b) :
    ∃ d r, mem.drop p = d :: r ∧ (b = true ↔ d = 0) := by
  unfold authinfo_eof load at h
  rcases hd : mem.drop p with _ | ⟨d, r⟩
  · simp [hd] at h
  · simp only [hd, List.head?_cons, Option.some.injEq] at h
    exact ⟨d, r, rfl, by rw [← h]; simp⟩

theorem body_effect {σ : Type} (cb : Handlers σ) (mem : List Nat) (s s1 : Locals σ)
    (h : loop_body cb mem s = Exec.ok s1) : Effect mem s s1 := by
  unfold loop_body at h
  dsimp only at h
  rcases h1 : authinfo_skip_spaces mem s.data s.column with _ | ⟨p, col⟩
  · simp [h1] at h
  · simp only [h1] at h
    obtain ⟨a, d, r, hdrop, ha, hd32, hd9, hp, hcol⟩ := skip_spaces_some h1
    have hdrop2 : mem.drop p = d :: r := by rw [hp]; exact drop_add_of_drop_eq hdrop
    refine ⟨a, d, r, hdrop, ha, hd32, hd9, ?_⟩
    rcases h2 : authinfo_eol mem p with _ | b
    · simp [h2] at h
    · obtain ⟨d1, r1, hd1, hb⟩ := eol_some h2
      rw [hdrop2] at hd1
      simp only [List.cons.injEq] at hd1
      obtain ⟨hdd, hrr⟩ := hd1
      subst hdd hrr
      simp only [h2] at h
      cases b with
      | false =>
        have hne : ¬(d = 10 ∨ d = 0) := by
          intro hc; have := hb.mpr hc; simp at this
        simp only at h
        rcases dispatch_effect cb mem _ _ _ h with ⟨hst, hcase⟩ | ⟨hst, hs, hc, hst1⟩ |
          ⟨hst, hst2, t, e, r1, hdt, ht, he, hst1, hdata, hline, hcolumn⟩
        · rcases hcase with ⟨w, rest, hw, hwb, hs, hc, hst1, -⟩ | ⟨hst1, hdata, hline, hcolumn, hstop⟩
          · refine Or.inr (Or.inl ⟨w, rest, ?_, hwb, ?_, hc, hst1⟩)
            · exact hdrop2.symm.trans hw
            · rw [← hp]; exact hs
          · exact Or.inr (Or.inr (Or.inl ⟨hst, fun h0 => hne (Or.inr h0),
              fun h0 => hne (Or.inl h0), hst1, hdata.trans hp, hline, hcolumn.trans hcol, hstop⟩))
        · refine Or.inr (Or.inl ⟨[], d :: r, by simp, by simp, ?_, hc, hst1⟩)
          rw [← hp]; simpa using hs
        · have hdt2 : d :: r = t ++ e :: r1 := hdrop2.symm.trans hdt
          have htne : t ≠ [] := by
            intro ht0
            subst ht0
            simp only [List.nil_append, List.cons.injEq] at hdt2
            rw [← hdt2.1] at he
            rcases he with he | he | he | he
            · exact hne (Or.inr he)
            · exact hd32 he
            · exact hd9 he
            · exact hne (Or.inl he)
          refine Or.inr (Or.inr (Or.inr ⟨t, e, r1, hdt2, ht, htne, hst, hst1, ?_, hline, ?_⟩))
          · rw [hdata]; show p + t.length = _; rw [hp]
          · rw [hcolumn]; show (col + t.length) % UINT_RANGE = _
            rw [hcol, Nat.mod_add_mod]
      | true =>
        have hde : d = 10 ∨ d = 0 := hb.mp rfl
        have hskip : authinfo_skip_line mem p s.line =
            some (p + ((([] : List Nat)).length + 1), (s.line + 1) % UINT_RANGE, 0) :=
          skip_line_split s.line (by simpa using hdrop2) (by simp) hde.symm
        have hone : LineSkips mem (s.data + a.length + ([] : List Nat).length) s.line
            (p + 1) ((s.line + 1) % UINT_RANGE) := by
          have := LineSkips.one p s.line [] r d (by simpa using hdrop2) (by simp) hde.symm
          simpa [hp] using this
        simp only at h
        split at h
        · next hst =>
          have hst0 : s.state = LINE_START := hst
          rcases h3 : authinfo_eof mem p with _ | b3
          · simp [h3] at h
          · obtain ⟨d3, r3, hd3, hb3⟩ := eof_some h3
            rw [hdrop2] at hd3
            simp only [List.cons.injEq] at hd3
            obtain ⟨hdd, -⟩ := hd3
            subst hdd
            simp only [h3] at h
            cases b3 with
            | true =>
              simp only [Exec.ok.injEq] at h
              subst h
              exact Or.inl ⟨hb3.mp rfl, hst0, rfl, hp, rfl, hcol, hst0⟩
            | false =>
              simp only [hskip, Exec.ok.injEq] at h
              subst h
              exact Or.inr (Or.inl ⟨[], d :: r, by simp, by simp, by simpa using hone, rfl, hst0⟩)
        · next hst =>
          rcases dispatch_effect cb mem _ _ _ h with ⟨hstx, -⟩ | ⟨-, hs, hc, hst1⟩ |
            ⟨-, hstx, -⟩
          · simp at hstx
          · refine Or.inr (Or.inl ⟨[], d :: r, by simp, by simp, ?_, hc, hst1⟩)
            rw [← hp]; simpa using hs
          · simp at hstx
        · next hst1 hst2 =>
          rcases dispatch_effect cb mem _ _ _ h with ⟨hstx, -⟩ | ⟨-, hs, hc, hst1⟩ |
            ⟨-, hstx, -⟩
          · simp [authinfo_report_error] at hstx
          · refine Or.inr (Or.inl ⟨[], d :: r, by simp, by simp, ?_, hc, hst1⟩)
            rw [← hp]; simpa [authinfo_report_error] using hs
          · simp [authinfo_report_error] at hstx

/-! ## The loop never uses up its bound -/

theorem skip_macdef_no_timeout (mem : List Nat) (p l c : Nat) :
    authinfo_skip_macdef mem p l c ≠ Exec.timeout := by
  unfold authinfo_skip_macdef
  rcases h1 : authinfo_next_token mem p c with _ | ⟨q, cq, tok⟩
  · simp
  · simp only
    obtain ⟨a, d, r, hdrop, -⟩ := next_token_some h1
    have hpos : 0 < mem.length := by
      rcases Nat.eq_zero_or_pos mem.length with h0 | h0
      · have hnil : mem = [] := List.length_eq_zero.mp h0
        subst hnil
        simp at hdrop
      · exact h0
    split_ifs
    · have hno := skip_macdef_loop_no_timeout mem.length q l (Nat.le_add_left _ _) hpos
      rcases h2 : skip_macdef_loop mem mem.length q l with r | _ | _
      · simp
      · simp
      · exact absurd h2 hno
    · simp

theorem dispatch_no_timeout {σ : Type} (cb : Handlers σ) (mem : List Nat) (tc : Nat)
    (s : Locals σ) : dispatch cb mem tc s ≠ Exec.timeout := by
  unfold dispatch
  split
  · dsimp only
    split
    · simp
    · simp
    · have hno := skip_macdef_no_timeout mem s.data s.line s.column
      split
      · simp
      · next h => exact absurd h hno
      · simp
      · simp
  · dsimp only
    split <;> simp
  · split <;> simp
  · split <;> simp

theorem body_no_timeout {σ : Type} (cb : Handlers σ) (mem : List Nat) (s : Locals σ) :
    loop_body cb mem s ≠ Exec.timeout := by
  unfold loop_body
  dsimp only
  split
  · simp
  · split
    · simp
    · exact dispatch_no_timeout cb mem _ _
    · split
      · split
        · simp
        · simp
        · split <;> simp
      · exact dispatch_no_timeout cb mem _ _
      · exact dispatch_no_timeout cb mem _ _

theorem body_progress {σ : Type} (cb : Handlers σ) (mem : List Nat) (s s1 : Locals σ)
    (h : loop_body cb mem s = Exec.ok s1) : s1.stop = true ∨ budget mem s1 < budget mem s := by
  obtain ⟨a, d, r, hdrop, -, -, -, hcase⟩ := body_effect cb mem s s1 h
  have hlen := congrArg List.length hdrop
  simp only [List.length_drop, List.length_append, List.length_cons] at hlen
  rcases hcase with ⟨-, -, hstop, -⟩ | ⟨w, rest, -, -, hs, -, hst1⟩ |
    ⟨hst, -, -, hst1, hdata, -⟩ | ⟨t, e, r1, hdt, -, htne, hst, hst1, hdata, -⟩
  · exact Or.inl hstop
  · right
    have hlt := hs.lt
    unfold budget
    rw [if_pos hst1]
    split_ifs <;> omega
  · right
    unfold budget
    rw [if_pos hst, hst1, hdata]
    simp
    omega
  · right
    have hlen2 := congrArg List.length hdt
    simp only [List.length_append, List.length_cons] at hlen2
    have htpos : 0 < t.length := List.length_pos.mpr htne
    unfold budget
    rw [if_neg hst, if_neg hst1, hdata]
    omega

theorem run_not_exhausted {σ : Type} (cb : Handlers σ) (mem : List Nat) (n : Nat) :
    ∀ s : Locals σ, budget mem s < n → (run cb mem n s).1 ≠ Outcome.exhausted := by
  induction n with
  | zero => intro s h; omega
  | succ n ih =>
    intro s h
    unfold run
    split_ifs with hstop
    · simp
    · rcases hb : loop_body cb mem s with s1 | _ | _
      · simp only
        rcases body_progress cb mem s s1 hb with h1 | h1
        · rw [run_of_stop cb mem n s1 h1]; simp
        · exact ih s1 (by omega)
      · simp
      · exact absurd hb (body_no_timeout cb mem s)

theorem run_mono {σ : Type} (cb : Handlers σ) (mem : List Nat) (n k : Nat) :
    ∀ s : Locals σ, (run cb mem n s).1 ≠ Outcome.exhausted →
      run cb mem (n + k) s = run cb mem n s := by
  induction n with
  | zero =>
    intro s h
    unfold run at h
    split_ifs at h with hstop
    · rw [run_of_stop cb mem _ s hstop, run_of_stop cb mem _ s hstop]
    · simp at h
  | succ n ih =>
    intro s h
    rw [Nat.add_right_comm]
    unfold run at h ⊢
    split_ifs at h ⊢ with hstop
    · rfl
    · rcases hb : loop_body cb mem s with s1 | _ | _
      · simp only [hb] at h ⊢
        exact ih s1 h
      · rfl
      · rfl

theorem parse_not_exhausted {σ : Type} (cb : Handlers σ) (mem : List Nat) (arg : σ) :
    (authinfo_parse cb mem arg).1 ≠ Outcome.exhausted := by
  unfold authinfo_parse
  apply run_not_exhausted
  unfold budget init
  simp

theorem parse_eq_run {σ : Type} (cb : Handlers σ) (mem : List Nat) (arg : σ) (n : Nat)
    (h : 2 * mem.length + 2 ≤ n) : run cb mem n (init arg) = authinfo_parse cb mem arg := by
  obtain ⟨k, hk⟩ := Nat.exists_eq_add_of_le h
  rw [hk]
  exact run_mono cb mem _ k _ (parse_not_exhausted cb mem arg)

/-! ## The same text further down in a buffer -/

theorem drop_shift (P mem : List Nat) (p : Nat) :
    (P ++ mem).drop (p + P.length) = mem.drop p := by
  rw [Nat.add_comm]
  simp

theorem line_shift (l k : Nat) :
    ((l + k) % UINT_RANGE + 1) % UINT_RANGE = ((l + 1) % UINT_RANGE + k) % UINT_RANGE := by
  rw [Nat.mod_add_mod, Nat.mod_add_mod, Nat.add_right_comm]

theorem load_shift (P mem : List Nat) (p : Nat) : load (P ++ mem) (p + P.length) = load mem p := by
  unfold load
  rw [drop_shift]

theorem skip_spaces_shift (P mem : List Nat) (p col : Nat) :
    authinfo_skip_spaces (P ++ mem) (p + P.length) col =
      (authinfo_skip_spaces mem p col).map (fun r => (r.1 + P.length, r.2)) := by
  unfold authinfo_skip_spaces strspn
  rw [drop_shift]
  cases strspn_scan [32, 9] (mem.drop p) <;> simp [Nat.add_right_comm]

theorem eol_shift (P mem : List Nat) (p : Nat) :
    authinfo_eol (P ++ mem) (p + P.length) = authinfo_eol mem p := by
  unfold authinfo_eol
  rw [load_shift]

theorem eof_shift (P mem : List Nat) (p : Nat) :
    authinfo_eof (P ++ mem) (p + P.length) = authinfo_eof mem p := by
  unfold authinfo_eof
  rw [load_shift]

theorem skip_line_shift (P mem : List Nat) (p l k : Nat) :
    authinfo_skip_line (P ++ mem) (p + P.length) ((l + k) % UINT_RANGE) =
      (authinfo_skip_line mem p l).map (shift_pos P.length k) := by
  unfold authinfo_skip_line strcspn
  rw [drop_shift]
  cases strcspn_scan [10] (mem.drop p) with
  | none => simp
  | some m =>
    simp only [Option.map_some', shift_pos, Option.some.injEq, Prod.mk.injEq, and_true]
    exact ⟨by omega, line_shift l k⟩

theorem skip_comment_shift (P mem : List Nat) (p l k : Nat) :
    authinfo_skip_comment (P ++ mem) (p + P.length) ((l + k) % UINT_RANGE) =
      (authinfo_skip_comment mem p l).map (Option.map (shift_pos P.length k)) := by
  unfold authinfo_skip_comment
  rw [load_shift, skip_line_shift]
  cases load mem p with
  | none => simp
  | some c =>
    simp only
    split_ifs
    · cases authinfo_skip_line mem p l <;> simp
    · simp

theorem next_token_shift (P mem : List Nat) (p col : Nat) :
    authinfo_next_token (P ++ mem) (p + P.length) col =
      (authinfo_next_token mem p col).map (fun r => (r.1 + P.length, r.2.1, r.2.2)) := by
  unfold authinfo_next_token strcspn
  rw [drop_shift]
  cases strcspn_scan [32, 9, 10] (mem.drop p) <;> simp [Nat.add_right_comm]

theorem skip_macdef_loop_shift (P mem : List Nat) (k m : Nat) :
    ∀ p l, skip_macdef_loop (P ++ mem) m (p + P.length) ((l + k) % UINT_RANGE) =
      Exec.map (shift_pos P.length k) (skip_macdef_loop mem m p l) := by
  induction m with
  | zero => intro p l; simp [skip_macdef_loop, Exec.map]
  | succ m ih =>
    intro p l
    unfold skip_macdef_loop
    rw [skip_line_shift]
    rcases h1 : authinfo_skip_line mem p l with _ | ⟨p2, l2, c2⟩
    · simp [Exec.map]
    · simp only [Option.map_some', shift_pos]
      rw [load_shift]
      rcases h2 : load mem p2 with _ | c
      · simp [Exec.map]
      · simp only
        split_ifs with hc
        · exact ih p2 l2
        · simp [Exec.map, shift_pos]

theorem skip_macdef_shift (P mem : List Nat) (p l k col : Nat) :
    authinfo_skip_macdef (P ++ mem) (p + P.length) ((l + k) % UINT_RANGE) col =
      Exec.map (Option.map (shift_pos P.length k)) (authinfo_skip_macdef mem p l col) := by
  unfold authinfo_skip_macdef
  rw [next_token_shift]
  rcases h1 : authinfo_next_token mem p col with _ | ⟨q, cq, tok⟩
  · simp [Exec.map]
  · simp only [Option.map_some']
    obtain ⟨a, d, r, hdrop, -⟩ := next_token_some h1
    have hpos : 0 < mem.length := by
      rcases Nat.eq_zero_or_pos mem.length with h0 | h0
      · have hnil : mem = [] := List.length_eq_zero.mp h0
        subst hnil
        simp at hdrop
      · exact h0
    split_ifs
    · have hno := skip_macdef_loop_no_timeout mem.length q l (Nat.le_add_left _ _) hpos
      have h2 := skip_macdef_loop_shift P mem k mem.length q l
      have h3 : skip_macdef_loop (P ++ mem) (P ++ mem).length (q + P.length)
          ((l + k) % UINT_RANGE) =
          skip_macdef_loop (P ++ mem) mem.length (q + P.length) ((l + k) % UINT_RANGE) := by
        rw [List.length_append, Nat.add_comm P.length]
        apply skip_macdef_loop_mono
        rw [h2]
        rcases h4 : skip_macdef_loop mem mem.length q l with r | _ | _
        · simp [Exec.map]
        · simp [Exec.map]
        · exact absurd h4 hno
      rw [h3, h2]
      rcases skip_macdef_loop mem mem.length q l with r | _ | _ <;> simp [Exec.map]
    · simp [Exec.map]
section sim

variable {σ τ : Type} {A : σ → τ → Prop} {n k : Nat} {pre : List Call} {cb1 : Handlers σ}
  {cb2 : Handlers τ}

theorem sim_report_error (hc : Compat A k cb1 cb2) {s1 : Locals σ} {s2 : Locals τ}
    (h : Sim A n k pre s1 s2) (t : authinfo_parse_error_type_t) (l c : Nat) :
    (authinfo_report_error cb1 t ((l + k) % UINT_RANGE) c s1).1 =
        (authinfo_report_error cb2 t l c s2).1 ∧
      Sim A n k pre (authinfo_report_error cb1 t ((l + k) % UINT_RANGE) c s1).2
        (authinfo_report_error cb2 t l c s2).2 := by
  obtain ⟨h1, h2, h3, h4, h5, h6, h7, h8⟩ := h
  obtain ⟨-, he⟩ := hc _ _ h7
  obtain ⟨hs, ha⟩ := he t l c
  refine ⟨hs, h1, h2, h3, h4, h5, h6, ha, ?_⟩
  simp [authinfo_report_error, h8, Call.shift, hs]

theorem sim_report_entry (hc : Compat A k cb1 cb2) {s1 : Locals σ} {s2 : Locals τ}
    (h : Sim A n k pre s1 s2) (he : s1.entry = s2.entry) (l : Nat) :
    (authinfo_report_entry cb1 ((l + k) % UINT_RANGE) s1).1 =
        (authinfo_report_entry cb2 l s2).1 ∧
      Sim A n k pre (authinfo_report_entry cb1 ((l + k) % UINT_RANGE) s1).2
        (authinfo_report_entry cb2 l s2).2 := by
  unfold authinfo_report_entry
  rw [he]
  split_ifs with hh
  · exact sim_report_error hc h _ l 0
  · obtain ⟨h1, h2, h3, h4, h5, h6, h7, h8⟩ := h
    obtain ⟨hen, -⟩ := hc _ _ h7
    obtain ⟨hs, ha⟩ := hen s2.entry
    refine ⟨hs, h1, h2, h3, h4, h5, fun _ => rfl, ha, ?_⟩
    simp [h8, Call.shift, hs]

theorem sim_keyword_arm (hc : Compat A k cb1 cb2) {s1 : Locals σ} {s2 : Locals τ}
    (h : Sim A n k pre s1 s2) (he : s1.entry = s2.entry) (tok : List Nat) (tc : Nat) :
    Sim A n k pre (keyword_arm cb1 tok tc s1) (keyword_arm cb2 tok tc s2) ∧
      (keyword_arm cb1 tok tc s1).entry = (keyword_arm cb2 tok tc s2).entry := by
  obtain ⟨d1, l1, c1, e1, b1, st1, a1, calls1⟩ := s1
  obtain ⟨d2, l2, c2, e2, b2, st2, a2, calls2⟩ := s2
  simp only [Sim] at h
  obtain ⟨rfl, rfl, rfl, rfl, rfl, -, h7, rfl⟩ := h
  simp only at he
  subst he
  obtain ⟨-, her⟩ := hc _ _ h7
  have he1 := fun t l c => (her t l c).1
  have he2 := fun t l c => (her t l c).2
  unfold keyword_arm
  dsimp only
  split_ifs <;> simp_all [Sim, authinfo_report_error, Call.shift]

theorem sim_value_arm (hc : Compat A k cb1 cb2) {s1 : Locals σ} {s2 : Locals τ}
    (h : Sim A n k pre s1 s2) (he : s1.entry = s2.entry) (tok : List Nat) (tc : Nat) :
    Sim A n k pre (value_arm cb1 tok tc s1) (value_arm cb2 tok tc s2) ∧
      (value_arm cb1 tok tc s1).entry = (value_arm cb2 tok tc s2).entry := by
  obtain ⟨d1, l1, c1, e1, b1, st1, a1, calls1⟩ := s1
  obtain ⟨d2, l2, c2, e2, b2, st2, a2, calls2⟩ := s2
  simp only [Sim] at h
  obtain ⟨rfl, rfl, rfl, rfl, rfl, -, h7, rfl⟩ := h
  simp only at he
  subst he
  obtain ⟨-, her⟩ := hc _ _ h7
  have he1 := fun t l c => (her t l c).1
  have he2 := fun t l c => (her t l c).2
  unfold value_arm
  cases st1 <;> dsimp only <;>
    first
    | (split_ifs <;> simp_all [Sim, authinfo_report_error, Call.shift])
    | simp_all [Sim, authinfo_report_error, Call.shift]

end sim

section sim2

variable {σ τ : Type} {A : σ → τ → Prop} {k : Nat} {pre : List Call} {cb1 : Handlers σ}
  {cb2 : Handlers τ}

theorem sim_value_state (hc : Compat A k cb1 cb2) (P mem : List Nat) {s1 : Locals σ}
    {s2 : Locals τ} (h : Sim A P.length k pre s1 s2) (he : s1.entry = s2.entry) (tc : Nat) :
    ExecRel (Sim A P.length k pre)
      (match authinfo_next_token (P ++ mem) s1.data s1.column with
        | none => Exec.fault
        | some (str, column, some token) =>
          Exec.ok { value_arm cb1 token tc { s1 with data := str, column := column } with
                    state := WAITING_NEXT_PAIR }
        | some (str, column, none) =>
          let e := authinfo_report_error cb1 AUTHINFO_PET_VALUE_TOO_LONG s1.line tc
            { s1 with data := str, column := column }
          Exec.ok { e.2 with stop := e.1, state := WAITING_NEXT_PAIR })
      (match authinfo_next_token mem s2.data s2.column with
        | none => Exec.fault
        | some (str, column, some token) =>
          Exec.ok { value_arm cb2 token tc { s2 with data := str, column := column } with
                    state := WAITING_NEXT_PAIR }
        | some (str, column, none) =>
          let e := authinfo_report_error cb2 AUTHINFO_PET_VALUE_TOO_LONG s2.line tc
            { s2 with data := str, column := column }
          Exec.ok { e.2 with stop := e.1, state := WAITING_NEXT_PAIR }) := by
  obtain ⟨d1, l1, c1, e1, b1, st1, a1, calls1⟩ := s1
  obtain ⟨d2, l2, c2, e2, b2, st2, a2, calls2⟩ := s2
  simp only [Sim] at h
  obtain ⟨rfl, rfl, rfl, rfl, rfl, h6, h7, rfl⟩ := h
  simp only at he
  subst he
  dsimp only
  rw [next_token_shift]
  rcases authinfo_next_token mem d2 c1 with _ | ⟨q, c, _ | tok⟩
  · simp [ExecRel]
  · simp only [Option.map_some', ExecRel]
    have hs : Sim A P.length k pre
        ⟨q + P.length, (l2 + k) % UINT_RANGE, c, e1, b1, st1, a1,
          pre ++ calls2.map (Call.shift k)⟩
        ⟨q, l2, c, e1, b1, st1, a2, calls2⟩ := ⟨rfl, rfl, rfl, rfl, rfl, fun _ => rfl, h7, rfl⟩
    obtain ⟨rs, r1, r2, r3, r4, r5, r6, r7, r8⟩ := sim_report_error hc hs
      AUTHINFO_PET_VALUE_TOO_LONG l2 tc
    exact ⟨r1, r2, r3, rs, rfl, fun _ => rfl, r7, r8⟩
  · simp only [Option.map_some', ExecRel]
    have hs : Sim A P.length k pre
        ⟨q + P.length, (l2 + k) % UINT_RANGE, c, e1, b1, st1, a1,
          pre ++ calls2.map (Call.shift k)⟩
        ⟨q, l2, c, e1, b1, st1, a2, calls2⟩ := ⟨rfl, rfl, rfl, rfl, rfl, fun _ => rfl, h7, rfl⟩
    obtain ⟨⟨r1, r2, r3, r4, r5, r6, r7, r8⟩, re⟩ := sim_value_arm hc hs rfl tok tc
    exact ⟨r1, r2, r3, r4, rfl, fun _ => re, r7, r8⟩

theorem sim_dispatch (hc : Compat A k cb1 cb2) (P mem : List Nat) {s1 : Locals σ}
    {s2 : Locals τ} (h : Sim A P.length k pre s1 s2) (tc : Nat) :
    ExecRel (Sim A P.length k pre) (dispatch cb1 (P ++ mem) tc s1) (dispatch cb2 mem tc s2) := by
  have h0 := h
  obtain ⟨d1, l1, c1, e1, b1, st1, a1, calls1⟩ := s1
  obtain ⟨d2, l2, c2, e2, b2, st2, a2, calls2⟩ := s2
  simp only [Sim] at h
  obtain ⟨rfl, rfl, rfl, rfl, rfl, h6, h7, rfl⟩ := h
  cases st1
  · -- LINE_START
    unfold dispatch
    dsimp only
    rw [skip_comment_shift]
    rcases authinfo_skip_comment mem d2 l2 with _ | _ | ⟨q, l, c⟩
    · simp [ExecRel]
    · simp only [Option.map_some', Option.map_none']
      rw [skip_macdef_shift]
      rcases authinfo_skip_macdef mem d2 l2 c1 with (_ | ⟨q, l, c⟩) | _ | _
      · simp only [Exec.map, Option.map_none', ExecRel]
        exact ⟨rfl, rfl, rfl, rfl, rfl, fun _ => rfl, h7, rfl⟩
      · simp only [Exec.map, Option.map_some', shift_pos, ExecRel]
        exact ⟨rfl, rfl, rfl, rfl, rfl, fun _ => rfl, h7, rfl⟩
      · simp [Exec.map, ExecRel]
      · simp [Exec.map, ExecRel]
    · simp only [Option.map_some', shift_pos, ExecRel]
      exact ⟨rfl, rfl, rfl, rfl, rfl, fun _ => rfl, h7, rfl⟩
  · -- WAITING_NEXT_PAIR
    have he : e1 = e2 := h6 (by simp)
    subst he
    unfold dispatch
    dsimp only
    rw [next_token_shift]
    rcases authinfo_next_token mem d2 c1 with _ | ⟨q, c, _ | tok⟩
    · simp [ExecRel]
    · simp only [Option.map_some', ExecRel]
      have hs : Sim A P.length k pre
          ⟨q + P.length, (l2 + k) % UINT_RANGE, c, e1, b1, WAITING_NEXT_PAIR, a1,
            pre ++ calls2.map (Call.shift k)⟩
          ⟨q, l2, c, e1, b1, WAITING_NEXT_PAIR, a2, calls2⟩ :=
        ⟨rfl, rfl, rfl, rfl, rfl, fun _ => rfl, h7, rfl⟩
      exact (sim_report_error hc hs AUTHINFO_PET_BAD_KEYWORD l2 tc).2
    · simp only [Option.map_some', ExecRel]
      have hs : Sim A P.length k pre
          ⟨q + P.length, (l2 + k) % UINT_RANGE, c, e1, b1, WAITING_NEXT_PAIR, a1,
            pre ++ calls2.map (Call.shift k)⟩
          ⟨q, l2, c, e1, b1, WAITING_NEXT_PAIR, a2, calls2⟩ :=
        ⟨rfl, rfl, rfl, rfl, rfl, fun _ => rfl, h7, rfl⟩
      exact (sim_keyword_arm hc hs rfl tok tc).1
  all_goals
    first
    | (have he : e1 = e2 := h6 (by simp)
       subst he
       unfold dispatch
       dsimp only
       obtain ⟨rs, r1, r2, r3, r4, r5, r6, r7, r8⟩ := sim_report_entry hc h0 rfl l2
       rw [r1, r2, skip_line_shift]
       rcases authinfo_skip_line mem (authinfo_report_entry cb2 l2
         (⟨d2, l2, c1, e1, b1, LINE_END, a2, calls2⟩ : Locals τ)).2.data
         (authinfo_report_entry cb2 l2
           (⟨d2, l2, c1, e1, b1, LINE_END, a2, calls2⟩ : Locals τ)).2.line with _ | ⟨q, l, c⟩
       · simp [ExecRel]
       · simp only [Option.map_some', shift_pos, ExecRel]
         exact ⟨rfl, rfl, rfl, rs, rfl, fun hx => absurd rfl hx, r7, r8⟩)
    | (have he : e1 = e2 := h6 (by simp)
       unfold dispatch
       exact sim_value_state hc P mem h0 he tc)

end sim2

section sim3

variable {σ τ : Type} {A : σ → τ → Prop} {k : Nat} {pre : List Call} {cb1 : Handlers σ}
  {cb2 : Handlers τ}

theorem sim_body (hc : Compat A k cb1 cb2) (P mem : List Nat) {s1 : Locals σ}
    {s2 : Locals τ} (h : Sim A P.length k pre s1 s2) :
    ExecRel (Sim A P.length k pre) (loop_body cb1 (P ++ mem) s1) (loop_body cb2 mem s2) := by
  obtain ⟨d1, l1, c1, e1, b1, st1, a1, calls1⟩ := s1
  obtain ⟨d2, l2, c2, e2, b2, st2, a2, calls2⟩ := s2
  simp only [Sim] at h
  obtain ⟨rfl, rfl, rfl, rfl, rfl, h6, h7, rfl⟩ := h
  unfold loop_body
  dsimp only
  rw [skip_spaces_shift]
  rcases authinfo_skip_spaces mem d2 c1 with _ | ⟨p, col⟩
  · simp [ExecRel]
  · simp only [Option.map_some']
    rw [eol_shift]
    rcases authinfo_eol mem p with _ | _ | _
    · simp [ExecRel]
    · exact sim_dispatch hc P mem ⟨rfl, rfl, rfl, rfl, rfl, h6, h7, rfl⟩ c1
    · cases st1
      · -- LINE_START
        dsimp only
        rw [eof_shift]
        rcases authinfo_eof mem p with _ | _ | _
        · simp [ExecRel]
        · dsimp only
          rw [skip_line_shift]
          rcases authinfo_skip_line mem p l2 with _ | ⟨q, l, c⟩
          · simp [ExecRel]
          · simp only [Option.map_some', shift_pos, ExecRel]
            exact ⟨rfl, rfl, rfl, rfl, rfl, fun hx => absurd rfl hx, h7, rfl⟩
        · simp only [ExecRel]
          exact ⟨rfl, rfl, rfl, rfl, rfl, fun hx => absurd rfl hx, h7, rfl⟩
      · -- WAITING_NEXT_PAIR
        have he : e1 = e2 := h6 (by simp)
        exact sim_dispatch hc P mem ⟨rfl, rfl, rfl, rfl, rfl, fun _ => he, h7, rfl⟩ c1
      all_goals
        have he : e1 = e2 := h6 (by simp)
        dsimp only
        have hs : Sim A P.length k pre
            ⟨p + P.length, (l2 + k) % UINT_RANGE, col, e1, b1, LINE_END, a1,
              pre ++ calls2.map (Call.shift k)⟩
            ⟨p, l2, col, e2, b1, LINE_END, a2, calls2⟩ :=
          ⟨rfl, rfl, rfl, rfl, rfl, fun _ => he, h7, rfl⟩
        obtain ⟨rs, r1, r2, r3, r4, r5, r6, r7, r8⟩ := sim_report_error hc hs
          AUTHINFO_PET_MISSING_VALUE l2 c1
        have hd : Sim A P.length k pre
            { (authinfo_report_error cb1 AUTHINFO_PET_MISSING_VALUE ((l2 + k) % UINT_RANGE) c1
                (⟨p + P.length, (l2 + k) % UINT_RANGE, col, e1, b1, LINE_END, a1,
                  pre ++ calls2.map (Call.shift k)⟩ : Locals σ)).2 with
              stop := (authinfo_report_error cb1 AUTHINFO_PET_MISSING_VALUE
                ((l2 + k) % UINT_RANGE) c1
                (⟨p + P.length, (l2 + k) % UINT_RANGE, col, e1, b1, LINE_END, a1,
                  pre ++ calls2.map (Call.shift k)⟩ : Locals σ)).1 }
            { (authinfo_report_error cb2 AUTHINFO_PET_MISSING_VALUE l2 c1
                (⟨p, l2, col, e2, b1, LINE_END, a2, calls2⟩ : Locals τ)).2 with
              stop := (authinfo_report_error cb2 AUTHINFO_PET_MISSING_VALUE l2 c1
                (⟨p, l2, col, e2, b1, LINE_END, a2, calls2⟩ : Locals τ)).1 } :=
          ⟨r1, r2, r3, rs, r5, r6, r7, r8⟩
        exact sim_dispatch hc P mem hd c1

theorem sim_run (hc : Compat A k cb1 cb2) (P mem : List Nat) (m : Nat) :
    ∀ {s1 : Locals σ} {s2 : Locals τ}, Sim A P.length k pre s1 s2 →
      (run cb1 (P ++ mem) m s1).1 = (run cb2 mem m s2).1 ∧
        Sim A P.length k pre (run cb1 (P ++ mem) m s1).2 (run cb2 mem m s2).2 := by
  induction m with
  | zero =>
    intro s1 s2 h
    have hstop : s1.stop = s2.stop := h.2.2.2.1
    unfold run
    rw [hstop]
    split_ifs <;> exact ⟨rfl, h⟩
  | succ m ih =>
    intro s1 s2 h
    have hstop : s1.stop = s2.stop := h.2.2.2.1
    have hb := sim_body hc P mem h
    unfold run
    rw [hstop]
    split_ifs
    · exact ⟨rfl, h⟩
    · rcases h1 : loop_body cb1 (P ++ mem) s1 with t1 | _ | _ <;>
        rcases h2 : loop_body cb2 mem s2 with t2 | _ | _ <;>
        simp only [h1, h2, ExecRel] at hb
      · exact ih hb
      · exact ⟨rfl, h⟩
      · exact ⟨rfl, h⟩

end sim3
theorem parse_after_prefix {σ τ : Type} {A : σ → τ → Prop} {k : Nat} {pre : List Call}
    {cb1 : Handlers σ} {cb2 : Handlers τ} (hc : Compat A k cb1 cb2) (P mem : List Nat)
    {arg1 : σ} {arg2 : τ} {j : Nat} {s1 : Locals σ}
    (hreach : Reach cb1 (P ++ mem) j (init arg1) s1)
    (hsim : Sim A P.length k pre s1 (init arg2)) :
    (authinfo_parse cb1 (P ++ mem) arg1).1 = (authinfo_parse cb2 mem arg2).1 ∧
      Sim A P.length k pre (authinfo_parse cb1 (P ++ mem) arg1).2
        (authinfo_parse cb2 mem arg2).2 := by
  have e1 := parse_eq_run cb1 (P ++ mem) arg1 (j + (2 * (P ++ mem).length + 2)) (by omega)
  have e2 := parse_eq_run cb2 mem arg2 (2 * (P ++ mem).length + 2)
    (by simp only [List.length_append]; omega)
  rw [hreach] at e1
  rw [← e1, ← e2]
  exact sim_run hc P mem _ hsim

theorem body_comment {σ : Type} (cb : Handlers σ) {mem ws t rest : List Nat} {data e : Nat}
    (line column : Nat) (entry : authinfo_parse_entry_t) (arg : σ) (calls : List Call)
    (h : mem.drop data = ws ++ (35 :: t ++ e :: rest)) (hws : Blank ws)
    (ht : ∀ c ∈ t, c ≠ 0 ∧ c ≠ 10) (he : e = 0 ∨ e = 10) :
    loop_body cb mem ⟨data, line, column, entry, false, LINE_START, arg, calls⟩ =
      Exec.ok ⟨data + ws.length + (t.length + 2), (line + 1) % UINT_RANGE, 0, empty_entry, false,
        LINE_START, arg, calls⟩ := by
  have h2 : mem.drop (data + ws.length) = (35 :: t) ++ e :: rest := by
    simpa using drop_add_of_drop_eq h
  have hskip := skip_line_split line h2 (by
    intro c hc
    rcases List.mem_cons.mp hc with hc | hc
    · subst hc; decide
    · exact ht c hc) he
  have hload : load mem (data + ws.length) = some 35 := by simp [load, h2]
  simp [loop_body, skip_spaces_at column h hws (by simp [StartsSolid]), authinfo_eol, hload,
    dispatch, authinfo_skip_comment, hskip, empty_entry]

theorem line_add (l a b : Nat) :
    ((l + a) % UINT_RANGE + b) % UINT_RANGE = (l + (a + b)) % UINT_RANGE := by
  rw [Nat.mod_add_mod, Nat.add_assoc]

theorem unlines_length_ge (ls : List (List Nat)) : ls.length ≤ (unlines ls).length := by
  induction ls with
  | nil => simp [unlines]
  | cons l ls ih => simp only [unlines, List.length_cons, List.length_append]; omega

theorem unlines_append (xs ys : List (List Nat)) :
    unlines (xs ++ ys) = unlines xs ++ unlines ys := by
  induction xs with
  | nil => simp [unlines]
  | cons l ls ih => simp [unlines, ih]

theorem skip_macdef_loop_block {mem : List Nat} (ls : List (List Nat)) :
    ∀ (m p l : Nat) (tail rest : List Nat), ls.length < m →
      mem.drop p = tail ++ 10 :: (unlines ls ++ 10 :: rest) →
      (∀ c ∈ tail, c ≠ 0 ∧ c ≠ 10) → (∀ x ∈ ls, BodyLine x) →
      skip_macdef_loop mem m p l =
        Exec.ok (p + (tail.length + 1 + (unlines ls).length),
          (l + (ls.length + 1)) % UINT_RANGE, 0) := by
  induction ls with
  | nil =>
    intro m p l tail rest hm h ht _
    obtain ⟨m, rfl⟩ := Nat.exists_eq_add_of_lt hm
    have hskip := skip_line_split l h ht (Or.inr rfl)
    have h2 : mem.drop (p + (tail.length + 1)) = 10 :: rest := by
      have := drop_add_of_drop_eq (by simpa using h : mem.drop p = (tail ++ [10]) ++ (10 :: rest))
      simpa using this
    have hload : load mem (p + (tail.length + 1)) = some 10 := by simp [load, h2]
    rw [show ([] : List (List Nat)).length + m + 1 = m + 1 by simp]
    simp [skip_macdef_loop, hskip, hload, unlines]
  | cons x xs ih =>
    intro m p l tail rest hm h ht hls
    obtain ⟨m, rfl⟩ := Nat.exists_eq_add_of_lt hm
    have hx := hls x (by simp)
    obtain ⟨c, x1, rfl⟩ := List.exists_cons_of_ne_nil hx.1
    have hskip := skip_line_split l h ht (Or.inr rfl)
    have h2 : mem.drop (p + (tail.length + 1)) =
        (c :: x1) ++ 10 :: (unlines xs ++ 10 :: rest) := by
      have := drop_add_of_drop_eq (by simpa [unlines] using h :
        mem.drop p = (tail ++ [10]) ++ ((c :: x1) ++ 10 :: (unlines xs ++ 10 :: rest)))
      simpa using this
    have hload : load mem (p + (tail.length + 1)) = some c := by simp [load, h2]
    have hc : c ≠ 10 := (hx.2 c (by simp)).2
    have hrec := ih (xs.length + 1 + m) (p + (tail.length + 1)) ((l + 1) % UINT_RANGE) (c :: x1)
      rest (by omega) h2 hx.2 (fun y hy => hls y (by simp [hy]))
    rw [show ((c :: x1) :: xs).length + m + 1 = (xs.length + 1 + m) + 1 by
      simp only [List.length_cons]]
    unfold skip_macdef_loop
    simp only [hskip, hload, hc, ne_eq, not_false_eq_true, if_true]
    rw [hrec, line_add]
    simp only [unlines, List.length_cons, List.length_append]
    congr 2
    · omega
    · congr 2; omega

theorem body_macdef {σ : Type} (cb : Handlers σ) {mem ws tail rest : List Nat} {data : Nat}
    (ls : List (List Nat)) (line column : Nat) (entry : authinfo_parse_entry_t) (arg : σ)
    (calls : List Call)
    (h : mem.drop data =
      ws ++ (ascii "macdef" ++ (tail ++ 10 :: (unlines ls ++ 10 :: rest))))
    (hws : Blank ws) (htail : ∀ c ∈ tail, c ≠ 0 ∧ c ≠ 10)
    (hsep : tail = [] ∨ StartsDelim tail) (hls : ∀ x ∈ ls, BodyLine x) :
    loop_body cb mem ⟨data, line, column, entry, false, LINE_START, arg, calls⟩ =
      Exec.ok ⟨data + ws.length + (6 + tail.length + 1 + (unlines ls).length),
        (line + (ls.length + 1)) % UINT_RANGE, 0, empty_entry, false, LINE_START, arg, calls⟩ := by
  have hm : TokenBytes (ascii "macdef") ∧ ascii "macdef" ≠ [] ∧
      (ascii "macdef").head? ≠ some 35 ∧ (ascii "macdef").length = 6 ∧
      ¬ (ascii "macdef").length ≥ TOKEN_SIZE_MAX := by decide
  obtain ⟨hm1, hm2, hm3, hm4, hm5⟩ := hm
  have hdel : StartsDelim (tail ++ 10 :: (unlines ls ++ 10 :: rest)) := by
    rcases hsep with hsep | hsep
    · subst hsep; simp [StartsDelim]
    · rcases tail with _ | ⟨d, tl⟩
      · simp [StartsDelim] at hsep
      · simpa [StartsDelim] using hsep
  have h2 : mem.drop (data + ws.length) =
      ascii "macdef" ++ (tail ++ 10 :: (unlines ls ++ 10 :: rest)) := drop_add_of_drop_eq h
  have h3 : mem.drop (data + ws.length + (ascii "macdef").length) =
      tail ++ 10 :: (unlines ls ++ 10 :: rest) := drop_add_of_drop_eq h2
  have hlen : ls.length < mem.length := by
    have h4 := congrArg List.length h3
    have h5 := unlines_length_ge ls
    simp only [List.length_drop, List.length_append, List.length_cons] at h4
    omega
  have hloop := skip_macdef_loop_block ls mem.length
    (data + ws.length + (ascii "macdef").length) line tail rest hlen h3 htail hls
  have htok := next_token_at ((column + ws.length) % UINT_RANGE) h2 hm1 hdel
  have hmac : authinfo_skip_macdef mem (data + ws.length) line
      ((column + ws.length) % UINT_RANGE) =
      Exec.ok (some (data + ws.length + (ascii "macdef").length +
        (tail.length + 1 + (unlines ls).length), (line + (ls.length + 1)) % UINT_RANGE, 0)) := by
    unfold authinfo_skip_macdef
    rw [htok]
    simp only [if_neg hm5, if_true]
    rw [hloop]
  have hsolid : StartsSolid (ascii "macdef" ++ (tail ++ 10 :: (unlines ls ++ 10 :: rest))) := by
    simp [ascii, StartsSolid]
  have hcom := skip_comment_at_token line h2 hm2 hm3
  have heol := eol_at_token h2 hm1 hm2
  simp only [loop_body, skip_spaces_at column h hws hsolid, heol, dispatch, hcom, hmac,
    empty_entry, hm4]
  simp [Nat.add_assoc]

theorem compat_shift {σ : Type} (cb : Handlers σ) (k : Nat) :
    Compat (fun a b : σ => a = b) k cb (cb.shift k) := by
  intro a b hab
  subst hab
  exact ⟨fun e => ⟨rfl, rfl⟩, fun t l c => ⟨rfl, rfl⟩⟩

theorem shift_of_line_blind {σ : Type} (cb : Handlers σ) (k : Nat)
    (h : ∀ ty l l2 c a, cb.error_callback ty l c a = cb.error_callback ty l2 c a) :
    cb.shift k = cb := by
  obtain ⟨f, g⟩ := cb
  simp only [Handlers.shift, Handlers.mk.injEq, true_and]
  funext ty l c a
  exact h ty _ l c a

theorem parse_below {σ : Type} (cb : Handlers σ) (P R : List Nat) (arg : σ) (k j d l : Nat)
    (e : authinfo_parse_entry_t)
    (hreach : Reach cb (P ++ cstr R) j (init arg) ⟨d, l, 0, e, false, LINE_START, arg, []⟩)
    (hd : d = P.length) (hl : l = (1 + k) % UINT_RANGE) :
    (authinfo_parse cb (P ++ cstr R) arg).2.calls =
        (authinfo_parse (cb.shift k) (cstr R) arg).2.calls.map (Call.shift k) ∧
      (authinfo_parse cb (P ++ cstr R) arg).1 = (authinfo_parse (cb.shift k) (cstr R) arg).1 ∧
      (authinfo_parse cb (P ++ cstr R) arg).2.arg =
        (authinfo_parse (cb.shift k) (cstr R) arg).2.arg ∧
      ((∀ ty l l2 c a, cb.error_callback ty l c a = cb.error_callback ty l2 c a) →
        (authinfo_parse cb (P ++ cstr R) arg).2.calls =
          (authinfo_parse cb (cstr R) arg).2.calls.map (Call.shift k)) := by
  subst hd hl
  have hsim : Sim (fun a b : σ => a = b) P.length k []
      ⟨P.length, (1 + k) % UINT_RANGE, 0, e, false, LINE_START, arg, []⟩ (init arg) :=
    ⟨by simp [init], rfl, rfl, rfl, rfl, fun hx => absurd rfl hx, rfl, rfl⟩
  obtain ⟨h1, -, -, -, -, -, -, h7, h8⟩ :=
    parse_after_prefix (compat_shift cb k) P (cstr R) hreach hsim
  have hcalls : (authinfo_parse cb (P ++ cstr R) arg).2.calls =
      (authinfo_parse (cb.shift k) (cstr R) arg).2.calls.map (Call.shift k) := by
    simpa using h8
  refine ⟨hcalls, h1, h7, fun hb => ?_⟩
  rw [hcalls, shift_of_line_blind cb k hb]

theorem skip_macdef_block {mem tail rest : List Nat} {p : Nat} (ls : List (List Nat))
    (line col : Nat)
    (h : mem.drop p = ascii "macdef" ++ (tail ++ 10 :: (unlines ls ++ 10 :: rest)))
    (htail : ∀ c ∈ tail, c ≠ 0 ∧ c ≠ 10) (hsep : tail = [] ∨ StartsDelim tail)
    (hls : ∀ x ∈ ls, BodyLine x) :
    authinfo_skip_macdef mem p line col =
      Exec.ok (some (p + (6 + tail.length + 1 + (unlines ls).length),
        (line + (ls.length + 1)) % UINT_RANGE, 0)) := by
  have hm : TokenBytes (ascii "macdef") ∧ (ascii "macdef").length = 6 ∧
      ¬ (ascii "macdef").length ≥ TOKEN_SIZE_MAX := by decide
  obtain ⟨hm1, hm4, hm5⟩ := hm
  have hdel : StartsDelim (tail ++ 10 :: (unlines ls ++ 10 :: rest)) := by
    rcases hsep with hsep | hsep
    · subst hsep; simp [StartsDelim]
    · rcases tail with _ | ⟨d, tl⟩
      · simp [StartsDelim] at hsep
      · simpa [StartsDelim] using hsep
  have h3 : mem.drop (p + (ascii "macdef").length) =
      tail ++ 10 :: (unlines ls ++ 10 :: rest) := drop_add_of_drop_eq h
  have hlen : ls.length < mem.length := by
    have h4 := congrArg List.length h3
    have h5 := unlines_length_ge ls
    simp only [List.length_drop, List.length_append, List.length_cons] at h4
    omega
  have hloop := skip_macdef_loop_block ls mem.length (p + (ascii "macdef").length) line tail rest
    hlen h3 htail hls
  have htok := next_token_at col h hm1 hdel
  unfold authinfo_skip_macdef
  rw [htok]
  simp only [if_neg hm5, if_true]
  rw [hloop, hm4]
  simp [Nat.add_assoc]

/-! ## The position counters -/

theorem take_add_of_drop_eq {mem a rest : List Nat} {p : Nat} (h : mem.drop p = a ++ rest) :
    mem.take (p + a.length) = mem.take p ++ a := by
  rw [List.take_add, h]
  simp

theorem positioned_within {mem a rest : List Nat} {p l c : Nat} (h : mem.drop p = a ++ rest)
    (ha : ∀ x ∈ a, x ≠ 10) (hp : Positioned mem p l c) :
    Positioned mem (p + a.length) l ((c + a.length) % UINT_RANGE) := by
  obtain ⟨hl, hc⟩ := hp
  unfold Positioned line_at column_at at *
  rw [take_add_of_drop_eq h]
  constructor
  · rw [hl, List.count_append, List.count_eq_zero_of_not_mem (fun h10 => ha 10 h10 rfl)]
    rfl
  · rw [hc, List.reverse_append, List.takeWhile_append_of_pos (by
      intro x hx
      simpa using ha x (List.mem_reverse.mp hx))]
    simp only [List.length_append, List.length_reverse, Nat.mod_add_mod]
    rw [Nat.add_comm]

theorem positioned_newline {mem a rest : List Nat} {p l c : Nat}
    (h : mem.drop p = a ++ 10 :: rest) (ha : ∀ x ∈ a, x ≠ 10) (hp : Positioned mem p l c) :
    Positioned mem (p + a.length + 1) ((l + 1) % UINT_RANGE) 0 := by
  obtain ⟨hl, -⟩ := hp
  have h2 : mem.drop p = (a ++ [10]) ++ rest := by simpa using h
  have h3 := take_add_of_drop_eq h2
  simp only [List.length_append, List.length_cons, List.length_nil] at h3
  unfold Positioned line_at column_at at *
  rw [← Nat.add_assoc] at h3
  rw [h3]
  constructor
  · rw [hl, List.count_append, List.count_append,
      List.count_eq_zero_of_not_mem (fun h10 => ha 10 h10 rfl)]
    simp only [List.count_singleton_self, Nat.add_zero, Nat.mod_add_mod]
    rw [Nat.add_assoc]
  · simp

theorem nul_position {text r : List Nat} {q : Nat} (htext : ∀ c ∈ text, c ≠ 0)
    (h : (cstr text).drop q = 0 :: r) : q = text.length := by
  unfold cstr at h
  rcases Nat.lt_trichotomy q text.length with hq | hq | hq
  · exfalso
    rw [List.drop_append_of_le_length (Nat.le_of_lt hq)] at h
    have hne : text.drop q ≠ [] := by
      intro h0
      have := congrArg List.length h0
      simp at this
      omega
    obtain ⟨x, xs, hx⟩ := List.exists_cons_of_ne_nil hne
    rw [hx] at h
    simp only [List.cons_append, List.cons.injEq] at h
    have hmem : x ∈ text := List.mem_of_mem_drop (by rw [hx]; simp)
    exact htext x hmem h.1
  · exact hq
  · exfalso
    have := congrArg List.length h
    simp at this
    omega

theorem positioned_line_skips {text : List Nat} (htext : ∀ c ∈ text, c ≠ 0) {p l p1 l1 : Nat}
    (h : LineSkips (cstr text) p l p1 l1) (hin : p1 ≤ text.length) :
    ∀ c, Positioned (cstr text) p l c → Positioned (cstr text) p1 l1 0 := by
  induction h with
  | one p l b r e h hb he =>
    intro c hp
    rcases he with he | he
    · subst he
      have h2 : (cstr text).drop (p + b.length) = 0 :: r := by
        simpa using drop_add_of_drop_eq h
      have := nul_position htext h2
      omega
    · subst he
      exact positioned_newline h (fun x hx => (hb x hx).2) hp
  | more p l p1 l1 b r e h hb he hrest ih =>
    intro c hp
    have hlt := hrest.lt
    rcases he with he | he
    · subst he
      have h2 : (cstr text).drop (p + b.length) = 0 :: r := by
        simpa using drop_add_of_drop_eq h
      have := nul_position htext h2
      omega
    · subst he
      exact ih hin 0 (positioned_newline h (fun x hx => (hb x hx).2) hp)

theorem body_positioned {σ : Type} (cb : Handlers σ) {text : List Nat}
    (htext : ∀ c ∈ text, c ≠ 0) (s s1 : Locals σ)
    (h : loop_body cb (cstr text) s = Exec.ok s1)
    (hp : Positioned (cstr text) s.data s.line s.column) (hin : s1.data ≤ text.length) :
    Positioned (cstr text) s1.data s1.line s1.column := by
  obtain ⟨a, d, r, hdrop, ha, -, -, hcase⟩ := body_effect cb (cstr text) s s1 h
  have ha10 : ∀ x ∈ a, x ≠ 10 := by
    intro x hx
    rcases ha x hx with h1 | h1 <;> subst h1 <;> decide
  have hpa := positioned_within hdrop ha10 hp
  rcases hcase with ⟨-, -, -, hdata, hline, hcol, -⟩ | ⟨w, rest, hw, hwb, hs, hc, -⟩ |
    ⟨-, -, -, -, hdata, hline, hcol, -⟩ | ⟨t, e, r1, hdt, ht, -, -, -, hdata, hline, hcol⟩
  · rw [hdata, hline, hcol]; exact hpa
  · have h2 : (cstr text).drop (s.data + a.length) = w ++ rest := by
      rw [← hw]; exact drop_add_of_drop_eq hdrop
    have hpw := positioned_within h2 (fun x hx => (hwb x hx).2) hpa
    rw [hc]
    exact positioned_line_skips htext hs hin _ hpw
  · rw [hdata, hline, hcol]; exact hpa
  · have h2 : (cstr text).drop (s.data + a.length) = t ++ e :: r1 := by
      rw [← hdt]; exact drop_add_of_drop_eq hdrop
    have hpw := positioned_within h2 (fun x hx => (ht x hx).2.2.2) hpa
    rw [hdata, hline, hcol]
    rw [Nat.mod_add_mod] at hpw
    exact hpw

theorem visits_positioned {σ : Type} (cb : Handlers σ) (arg : σ) {text : List Nat}
    (htext : ∀ c ∈ text, c ≠ 0) (s : Locals σ) (h : Visits cb (cstr text) (init arg) s) :
    s.data ≤ text.length → Positioned (cstr text) s.data s.line s.column := by
  induction h with
  | start => intro _; simp [init, Positioned, line_at, column_at, UINT_RANGE]
  | next s s1 _ hstop hbody ih =>
    intro hin
    have hle : s.data ≤ text.length := by
      obtain ⟨a, d, r, hdrop, -⟩ := body_effect cb (cstr text) s s1 hbody
      have := lt_length_of_drop_cons (by simpa using hdrop :
        (cstr text).drop s.data = a ++ d :: r)
      simp [cstr] at this
      omega
    exact body_positioned cb htext s s1 hbody (ih hle) hin

theorem visits_run {σ : Type} (cb : Handlers σ) (mem : List Nat) (s0 : Locals σ) (n : Nat) :
    ∀ s, Visits cb mem s0 s → Visits cb mem s0 (run cb mem n s).2 := by
  induction n with
  | zero => intro s h; unfold run; split_ifs <;> exact h
  | succ n ih =>
    intro s h
    unfold run
    split_ifs with hstop
    · exact h
    · rcases hb : loop_body cb mem s with s1 | _ | _
      · exact ih s1 (Visits.next s s1 h (by simpa using hstop) hb)
      · exact h
      · exact h
theorem line_step_none (line : Nat) (old : List Call) : LineStep line old old :=
  ⟨[], by simp, by simp⟩

theorem line_step_error (line : Nat) (old : List Call) (t : authinfo_parse_error_type_t)
    (col : Nat) (b : Bool) : LineStep line old (old ++ [Call.error t line col b]) :=
  ⟨[Call.error t line col b], rfl, by
    intro t l c b h
    simp only [List.mem_singleton, Call.error.injEq] at h
    exact h.2.1⟩

theorem line_step_entry (line : Nat) (old : List Call) (e : authinfo_parse_entry_t) (b : Bool) :
    LineStep line old (old ++ [Call.entry e b]) :=
  ⟨[Call.entry e b], rfl, by simp⟩

theorem line_step_trans {line : Nat} {a b c : List Call} (h1 : LineStep line a b)
    (h2 : LineStep line b c) : LineStep line a c := by
  obtain ⟨x, rfl, hx⟩ := h1
  obtain ⟨y, rfl, hy⟩ := h2
  refine ⟨x ++ y, by simp, ?_⟩
  intro t l c b h
  rcases List.mem_append.mp h with h | h
  · exact hx t l c b h
  · exact hy t l c b h

theorem report_error_lines {σ : Type} (cb : Handlers σ) (t : authinfo_parse_error_type_t)
    (l c : Nat) (s : Locals σ) : LineStep l s.calls (authinfo_report_error cb t l c s).2.calls :=
  line_step_error _ _ _ _ _

theorem report_entry_lines {σ : Type} (cb : Handlers σ) (l : Nat) (s : Locals σ) :
    LineStep l s.calls (authinfo_report_entry cb l s).2.calls := by
  unfold authinfo_report_entry
  split_ifs
  · exact report_error_lines cb _ l 0 s
  · exact line_step_entry _ _ _ _

theorem keyword_arm_lines {σ : Type} (cb : Handlers σ) (t : List Nat) (tc : Nat)
    (s : Locals σ) : LineStep s.line s.calls (keyword_arm cb t tc s).calls := by
  unfold keyword_arm authinfo_report_error
  dsimp only
  split_ifs <;> first | exact line_step_none _ _ | exact line_step_error _ _ _ _ _ | simp_all

theorem value_arm_lines {σ : Type} (cb : Handlers σ) (t : List Nat) (tc : Nat) (s : Locals σ) :
    LineStep s.line s.calls (value_arm cb t tc s).calls := by
  unfold value_arm authinfo_report_error
  split <;> first | exact line_step_none _ _ | (split <;>
    first | exact line_step_none _ _ | exact line_step_error _ _ _ _ _)

theorem dispatch_lines {σ : Type} (cb : Handlers σ) (mem : List Nat) (tc : Nat)
    (s s1 : Locals σ) (h : dispatch cb mem tc s = Exec.ok s1) :
    LineStep s.line s.calls s1.calls := by
  unfold dispatch at h
  split at h <;> try dsimp only at h
  · split at h
    · simp at h
    · simp only [Exec.ok.injEq] at h; subst h; exact line_step_none _ _
    · split at h
      · simp at h
      · simp at h
      · simp only [Exec.ok.injEq] at h; subst h; exact line_step_none _ _
      · simp only [Exec.ok.injEq] at h; subst h; exact line_step_none _ _
  · split at h
    · simp at h
    · simp only [Exec.ok.injEq] at h; subst h; exact report_entry_lines cb _ _
  · split at h
    · simp at h
    · simp only [Exec.ok.injEq] at h; subst h; exact keyword_arm_lines cb _ _ _
    · simp only [Exec.ok.injEq] at h; subst h
      exact line_step_error _ _ _ _ _
  · split at h
    · simp at h
    · simp only [Exec.ok.injEq] at h; subst h; exact value_arm_lines cb _ _ _
    · simp only [Exec.ok.injEq] at h; subst h
      exact line_step_error _ _ _ _ _

theorem body_lines {σ : Type} (cb : Handlers σ) (mem : List Nat) (s s1 : Locals σ)
    (h : loop_body cb mem s = Exec.ok s1) : LineStep s.line s.calls s1.calls := by
  unfold loop_body at h
  dsimp only at h
  split at h
  · simp at h
  · split at h
    · simp at h
    · have h1 := dispatch_lines cb mem _ _ _ h
      exact h1
    · split at h
      · split at h
        · simp at h
        · simp only [Exec.ok.injEq] at h; subst h; exact line_step_none _ _
        · split at h
          · simp at h
          · simp only [Exec.ok.injEq] at h; subst h; exact line_step_none _ _
      · have h1 := dispatch_lines cb mem _ _ _ h
        exact h1
      · have h1 := dispatch_lines cb mem _ _ _ h
        exact line_step_trans (line_step_error _ _ _ _ _) h1
theorem skip_macdef_inside {mem : List Nat} {p l c p1 l1 c1 : Nat}
    (h : authinfo_skip_macdef mem p l c = Exec.ok (some (p1, l1, c1))) : p1 < mem.length := by
  unfold authinfo_skip_macdef at h
  rcases h1 : authinfo_next_token mem p c with _ | ⟨q, cq, tok⟩
  · simp [h1] at h
  · simp only [h1] at h
    split_ifs at h
    · rcases h2 : skip_macdef_loop mem mem.length q l with r | _ | _
      · simp only [h2, Exec.ok.injEq, Option.some.injEq] at h
        subst h
        have h3 := (skip_macdef_loop_some mem.length h2).2.2
        unfold load at h3
        by_contra hge
        rw [List.drop_of_length_le (by omega)] at h3
        simp at h3
      · simp [h2] at h
      · simp [h2] at h
    · simp at h

theorem line_at_le (mem : List Nat) (p : Nat) : line_at mem p ≤ 1 + p := by
  unfold line_at
  have h1 := List.count_le_length 10 (mem.take p)
  have h2 := List.length_take_le p mem
  omega

theorem column_at_le (mem : List Nat) (p : Nat) : column_at mem p ≤ p := by
  unfold column_at
  have h1 := ((List.takeWhile_sublist (fun c => decide (c ≠ 10))
    (l := (mem.take p).reverse)).length_le)
  have h2 := List.length_take_le p mem
  simp only [List.length_reverse] at h1
  omega

/-! ## One line at a time -/

theorem blank_split (x : List Nat) :
    ∃ ws y, x = ws ++ y ∧ Blank ws ∧ (y = [] ∨ StartsSolid y) ∧
      y = x.dropWhile (fun c => decide (c = 32 ∨ c = 9)) := by
  induction x with
  | nil => exact ⟨[], [], rfl, by simp [Blank], Or.inl rfl, rfl⟩
  | cons c cs ih =>
    by_cases hc : c = 32 ∨ c = 9
    · obtain ⟨ws, y, h1, h2, h3, h4⟩ := ih
      refine ⟨c :: ws, y, by simp [h1], ?_, h3, ?_⟩
      · intro d hd
        rcases List.mem_cons.mp hd with hd | hd
        · subst hd; exact hc
        · exact h2 d hd
      · rw [List.dropWhile_cons_of_pos (by simpa using hc)]
        exact h4
    · refine ⟨[], c :: cs, rfl, by simp [Blank], Or.inr ?_, ?_⟩
      · simp only [StartsSolid]
        exact ⟨fun h => hc (Or.inl h), fun h => hc (Or.inr h)⟩
      · rw [List.dropWhile_cons_of_neg (by simpa using hc)]

theorem token_split (y : List Nat) :
    ∃ t y2, y = t ++ y2 ∧ TokenBytes t ∧ t = token_run y ∧ (y2 = [] ∨ StartsDelim y2) := by
  induction y with
  | nil => exact ⟨[], [], rfl, by simp [TokenBytes], rfl, Or.inl rfl⟩
  | cons c cs ih =>
    by_cases hc : c = 0 ∨ c = 32 ∨ c = 9 ∨ c = 10
    · refine ⟨[], c :: cs, rfl, by simp [TokenBytes], ?_, Or.inr (by simpa [StartsDelim] using hc)⟩
      unfold token_run
      rw [List.takeWhile_cons_of_neg (by simp; tauto)]
    · obtain ⟨t, y2, h1, h2, h3, h4⟩ := ih
      refine ⟨c :: t, y2, by simp [h1], ?_, ?_, h4⟩
      · intro d hd
        rcases List.mem_cons.mp hd with hd | hd
        · subst hd
          simp only [not_or] at hc
          exact ⟨hc.1, hc.2.1, hc.2.2.1, hc.2.2.2⟩
        · exact h2 d hd
      · unfold token_run at h3 ⊢
        rw [List.takeWhile_cons_of_pos (by simp; tauto), ← h3]

theorem report_error_never {σ : Type} {cb : Handlers σ} (hns : NeverStops cb)
    (t : authinfo_parse_error_type_t) (l c : Nat) (s : Locals σ) :
    (authinfo_report_error cb t l c s).1 = false := hns.2 t l c s.arg

theorem report_entry_never {σ : Type} {cb : Handlers σ} (hns : NeverStops cb) (l : Nat) (s : Locals σ) :
    (authinfo_report_entry cb l s).1 = false := by
  unfold authinfo_report_entry
  split_ifs
  · exact report_error_never hns _ l 0 s
  · exact hns.1 _ _

theorem keyword_arm_never {σ : Type} {cb : Handlers σ} (hns : NeverStops cb) (t : List Nat)
    (tc : Nat) (s : Locals σ) (hstop : s.stop = false) (hs : s.state = WAITING_NEXT_PAIR) :
    (keyword_arm cb t tc s).stop = false ∧ (keyword_arm cb t tc s).state ≠ LINE_END := by
  have h2 := hns.2
  unfold keyword_arm authinfo_report_error
  dsimp only
  split_ifs <;> simp_all

theorem value_arm_stop {σ : Type} (cb : Handlers σ) (t : List Nat) (tc : Nat) (s : Locals σ) :
    (value_arm cb t tc s).stop = s.stop := by
  unfold value_arm authinfo_report_error
  split <;> first | rfl | (split <;> rfl)
theorem body_in_line {σ : Type} {cb : Handlers σ} (hns : NeverStops cb) (L : List Nat)
    (hL : ∀ c ∈ L, c ≠ 10 ∧ c ≠ 0) (s : Locals σ) (hstop : s.stop = false)
    (hd : s.data ≤ L.length) (hst : s.state ≠ LINE_END)
    (hstart : s.state = LINE_START → first_token (L.drop s.data) ≠ ascii "macdef") :
    ∃ s1, (∀ r, loop_body cb (L ++ 10 :: r) s = Exec.ok s1) ∧ s1.stop = false ∧
      ((s1.data ≤ L.length ∧ s1.state ≠ LINE_START ∧ s1.state ≠ LINE_END ∧ s1.line = s.line) ∨
        (s1.data = L.length + 1 ∧ s1.state = LINE_START ∧
          s1.line = (s.line + 1) % UINT_RANGE ∧ s1.column = 0)) := by
  obtain ⟨data, line, column, entry, stop, st, arg, calls⟩ := s
  simp only at hstop hd hst hstart
  subst hstop
  obtain ⟨ws, y, hx, hws, hy, hy2⟩ := blank_split (L.drop data)
  have hlen : data + ws.length + y.length = L.length := by
    have := congrArg List.length hx
    simp only [List.length_drop, List.length_append] at this
    omega
  have hmem : ∀ r, (L ++ 10 :: r).drop data = ws ++ (y ++ 10 :: r) := by
    intro r
    rw [List.drop_append_of_le_length hd, hx]
    simp
  have hyL : ∀ c ∈ y, c ≠ 10 ∧ c ≠ 0 := fun c hc =>
    hL c (List.mem_of_mem_drop (by rw [hx]; simp [hc]))
  rcases hy with hy | hy
  · subst hy
    have hmem0 : ∀ r, (L ++ 10 :: r).drop data = ws ++ 10 :: r := by simpa using hmem
    simp only [List.length_nil, Nat.add_zero] at hlen
    by_cases h1 : st = LINE_START
    · subst h1
      exact ⟨_, fun r => body_empty_line cb line column entry arg calls (hmem0 r) hws, rfl,
        Or.inr ⟨by simp only; omega, rfl, rfl, rfl⟩⟩
    by_cases h2 : st = WAITING_NEXT_PAIR
    · subst h2
      exact ⟨_, fun r => body_eol_pair cb line column entry arg calls (hmem0 r) hws (Or.inl rfl),
        report_entry_never hns _ _, Or.inr ⟨by simp only [line_end]; omega, rfl, rfl, rfl⟩⟩
    have hv : ValueState st := by
      cases st
      · exact absurd rfl h1
      · exact absurd rfl h2
      all_goals first | exact absurd rfl hst | simp [ValueState]
    exact ⟨_, fun r => body_eol_value cb line column entry arg calls hv (hmem0 r) hws
      (Or.inl rfl), report_entry_never hns _ _,
      Or.inr ⟨by simp only [line_end]; omega, rfl, rfl, rfl⟩⟩
  · obtain ⟨t, y2, hyt, ht, htr, hy2d⟩ := token_split y
    have htne : t ≠ [] := by
      intro h0
      subst h0
      simp only [List.nil_append] at hyt
      subst hyt
      rcases y with _ | ⟨d, y1⟩
      · simp [StartsSolid] at hy
      · have hdL := hyL d (by simp)
        simp only [StartsSolid] at hy
        rcases hy2d with h3 | h3
        · simp at h3
        · simp only [StartsDelim] at h3
          rcases h3 with h3 | h3 | h3 | h3
          · exact hdL.2 h3
          · exact hy.1 h3
          · exact hy.2 h3
          · exact hdL.1 h3
    have hdel : ∀ r, StartsDelim (y2 ++ 10 :: r) := by
      intro r
      rcases hy2d with h3 | h3
      · subst h3; simp [StartsDelim]
      · rcases y2 with _ | ⟨e, y3⟩
        · simp [StartsDelim] at h3
        · simpa [StartsDelim] using h3
    have hmem2 : ∀ r, (L ++ 10 :: r).drop data = ws ++ (t ++ (y2 ++ 10 :: r)) := by
      intro r
      rw [hmem r, hyt]
      simp
    have hlen2 : data + ws.length + t.length ≤ L.length := by
      have := congrArg List.length hyt
      simp only [List.length_append] at this
      omega
    by_cases h1 : st = LINE_START
    · subst h1
      by_cases hc : t.head? = some 35
      · rcases y with _ | ⟨d, y1⟩
        · simp [StartsSolid] at hy
        · have hd35 : d = 35 := by
            rcases t with _ | ⟨e, t1⟩
            · exact absurd rfl htne
            · simp only [List.cons_append, List.cons.injEq] at hyt
              simp only [List.head?_cons, Option.some.injEq] at hc
              rw [hyt.1, hc]
          subst hd35
          have hmem3 : ∀ r, (L ++ 10 :: r).drop data = ws ++ (35 :: y1 ++ 10 :: r) := by
            intro r
            rw [hmem r]
          have hy1 : ∀ c ∈ y1, c ≠ 0 ∧ c ≠ 10 := fun c hc =>
            ⟨(hyL c (by simp [hc])).2, (hyL c (by simp [hc])).1⟩
          simp only [List.length_cons] at hlen
          exact ⟨_, fun r => body_comment cb line column entry arg calls (hmem3 r) hws hy1
            (Or.inr rfl), rfl, Or.inr ⟨by simp only; omega, rfl, rfl, rfl⟩⟩
      · have hm : t ≠ ascii "macdef" := by
          have := hstart rfl
          unfold first_token at this
          rw [← hy2, ← htr] at this
          exact this
        exact ⟨_, fun r => body_line_start cb line column entry arg calls (hmem2 r) hws ht htne
          (hdel r) hc hm, rfl, Or.inl ⟨by simp only; omega, by simp, by simp, rfl⟩⟩
    by_cases h2 : st = WAITING_NEXT_PAIR
    · subst h2
      by_cases hl : t.length < TOKEN_SIZE_MAX
      · have hk := keyword_arm_never hns t column
          (⟨data + ws.length + t.length, line, (column + ws.length + t.length) % UINT_RANGE,
            entry, false, WAITING_NEXT_PAIR, arg, calls⟩ : Locals σ) rfl rfl
        have hf := keyword_arm_fields cb t column
          (⟨data + ws.length + t.length, line, (column + ws.length + t.length) % UINT_RANGE,
            entry, false, WAITING_NEXT_PAIR, arg, calls⟩ : Locals σ) rfl
        exact ⟨_, fun r => body_keyword cb line column entry arg calls (hmem2 r) hws ht htne
          (hdel r) hl, hk.1, Or.inl ⟨by rw [hf.1]; exact hlen2, hf.2.2.2, hk.2, hf.2.1⟩⟩
      · exact ⟨_, fun r => body_keyword_long cb line column entry arg calls (hmem2 r) hws ht
          (hdel r) (Nat.le_of_not_lt hl), rfl,
          Or.inl ⟨hlen2, by simp [authinfo_report_error], by simp [authinfo_report_error], rfl⟩⟩
    have hv : ValueState st := by
      cases st
      · exact absurd rfl h1
      · exact absurd rfl h2
      all_goals first | exact absurd rfl hst | simp [ValueState]
    by_cases hl : t.length < TOKEN_SIZE_MAX
    · have hf := value_arm_fields cb t column
        (⟨data + ws.length + t.length, line, (column + ws.length + t.length) % UINT_RANGE,
          entry, false, st, arg, calls⟩ : Locals σ)
      have hs := value_arm_stop cb t column
        (⟨data + ws.length + t.length, line, (column + ws.length + t.length) % UINT_RANGE,
          entry, false, st, arg, calls⟩ : Locals σ)
      exact ⟨_, fun r => body_value cb line column entry arg calls hv (hmem2 r) hws ht htne
        (hdel r) hl, hs, Or.inl ⟨by simp only; rw [hf.1]; exact hlen2, by simp, by simp,
          hf.2.1⟩⟩
    · exact ⟨_, fun r => body_value_long cb line column entry arg calls hv (hmem2 r) hws ht
        (hdel r) (Nat.le_of_not_lt hl), hns.2 _ _ _ _, Or.inl ⟨hlen2, by simp, by simp, rfl⟩⟩
theorem reach_line_end {σ : Type} {cb : Handlers σ} (hns : NeverStops cb) (L : List Nat)
    (hL : ∀ c ∈ L, c ≠ 10 ∧ c ≠ 0) (n : Nat) :
    ∀ s : Locals σ, budget (L ++ [10]) s < n → s.stop = false → s.data ≤ L.length →
      s.state ≠ LINE_END →
      (s.state = LINE_START → first_token (L.drop s.data) ≠ ascii "macdef") →
      ∃ j sL, (∀ r, Reach cb (L ++ 10 :: r) j s sL) ∧ sL.stop = false ∧
        sL.data = L.length + 1 ∧ sL.state = LINE_START ∧
        sL.line = (s.line + 1) % UINT_RANGE ∧ sL.column = 0 := by
  induction n with
  | zero => intro s hb; omega
  | succ n ih =>
    intro s hb hstop hd hst hstart
    obtain ⟨s1, hbody, hstop1, hcase⟩ := body_in_line hns L hL s hstop hd hst hstart
    rcases hcase with ⟨hd1, hs1, hs1e, hl1⟩ | ⟨hd1, hs1, hl1, hc1⟩
    · rcases body_progress cb (L ++ [10]) s s1 (hbody []) with h | h
      · rw [hstop1] at h; cases h
      · obtain ⟨j, sL, hreach, h1, h2, h3, h4, h5⟩ :=
          ih s1 (by omega) hstop1 hd1 hs1e (fun h => absurd h hs1)
        exact ⟨1 + j, sL, fun r => Reach.trans (Reach.step hstop (hbody r)) (hreach r), h1, h2,
          h3, by rw [h4, hl1], h5⟩
    · exact ⟨1, s1, fun r => Reach.step hstop (hbody r), hstop1, hd1, hs1, hl1, hc1⟩

theorem compat_never {σ : Type} {cb : Handlers σ} (hns : NeverStops cb) (k : Nat) :
    Compat (fun _ _ : σ => True) k cb cb := by
  intro a b _
  exact ⟨fun e => ⟨by rw [hns.1, hns.1], trivial⟩,
    fun t l c => ⟨by rw [hns.2, hns.2], trivial⟩⟩

theorem shift_entry_mem {k : Nat} {e : authinfo_parse_entry_t} {b : Bool} {cs : List Call}
    (h : Call.entry e b ∈ cs.map (Call.shift k)) : Call.entry e b ∈ cs := by
  obtain ⟨c, hc, hce⟩ := List.mem_map.mp h
  cases c with
  | entry e1 b1 =>
    simp only [Call.shift, Call.entry.injEq] at hce
    obtain ⟨rfl, rfl⟩ := hce
    exact hc
  | error t l col b1 => simp [Call.shift] at hce

/-! ## Line numbers never exceed the length of the buffer -/

theorem line_skips_le {mem : List Nat} {p l p1 l1 : Nat} (h : LineSkips mem p l p1 l1) :
    l ≤ 1 + p → l1 ≤ 1 + p1 := by
  induction h with
  | one p l b r e h hb he =>
    intro hl
    have := Nat.mod_le (l + 1) UINT_RANGE
    omega
  | more p l p1 l1 b r e h hb he hrest ih =>
    intro hl
    have := Nat.mod_le (l + 1) UINT_RANGE
    exact ih (by omega)

theorem body_line_le {σ : Type} (cb : Handlers σ) (mem : List Nat) (s s1 : Locals σ)
    (h : loop_body cb mem s = Exec.ok s1) (hl : s.line ≤ 1 + s.data) :
    s.data < mem.length ∧ s1.line ≤ 1 + s1.data := by
  obtain ⟨a, d, r, hdrop, -, -, -, hcase⟩ := body_effect cb mem s s1 h
  have hlt := lt_length_of_drop_cons hdrop
  refine ⟨by omega, ?_⟩
  rcases hcase with ⟨-, -, -, hdata, hline, -⟩ | ⟨w, rest, -, -, hs, -, -⟩ |
    ⟨-, -, -, -, hdata, hline, -⟩ | ⟨t, e, r1, -, -, -, -, -, hdata, hline, -⟩
  · omega
  · exact line_skips_le hs (by omega)
  · omega
  · omega

theorem visits_lines_le {σ : Type} (cb : Handlers σ) (mem : List Nat) (arg : σ) (s : Locals σ)
    (h : Visits cb mem (init arg) s) :
    s.line ≤ 1 + s.data ∧ ∀ t l c b, Call.error t l c b ∈ s.calls → l ≤ mem.length := by
  induction h with
  | start => simp [init]
  | next s s1 _ hstop hbody ih =>
    obtain ⟨h1, h2⟩ := body_line_le cb mem s s1 hbody ih.1
    refine ⟨h2, ?_⟩
    obtain ⟨added, hcalls, hadded⟩ := body_lines cb mem s s1 hbody
    intro t l c b hmem
    rw [hcalls] at hmem
    rcases List.mem_append.mp hmem with hm | hm
    · exact ih.2 t l c b hm
    · rw [hadded t l c b hm]
      omega

theorem parse_lines_le {σ : Type} (cb : Handlers σ) (mem : List Nat) (arg : σ) :
    ∀ t l c b, Call.error t l c b ∈ (authinfo_parse cb mem arg).2.calls → l ≤ mem.length :=
  (visits_lines_le cb mem arg _ (visits_run cb mem (init arg) _ _ Visits.start)).2

theorem shift_eq_advance {k : Nat} {cs : List Call}
    (h : ∀ t l c b, Call.error t l c b ∈ cs → l + k < UINT_RANGE) :
    cs.map (Call.shift k) = cs.map (Call.advance k) := by
  apply List.map_congr_left
  intro x hx
  cases x with
  | entry e b => rfl
  | error t l c b =>
    simp only [Call.shift, Call.advance]
    rw [Nat.mod_eq_of_lt (h t l c b hx)]

theorem parse_shift_eq_advance {σ : Type} (cb : Handlers σ) (R : List Nat) (arg : σ) (k : Nat)
    (h : R.length + 1 + k < UINT_RANGE) :
    (authinfo_parse cb (cstr R) arg).2.calls.map (Call.shift k) =
      (authinfo_parse cb (cstr R) arg).2.calls.map (Call.advance k) := by
  apply shift_eq_advance
  intro t l c b hmem
  have := parse_lines_le cb (cstr R) arg t l c b hmem
  simp only [cstr, List.length_append, List.length_cons, List.length_nil] at this
  omega

theorem visits_data_le {σ : Type} (cb : Handlers σ) (mem : List Nat) (arg : σ) (s : Locals σ)
    (h : Visits cb mem (init arg) s) : s.data ≤ mem.length := by
  induction h with
  | start => simp [init]
  | next s s1 _ hstop hbody ih =>
    obtain ⟨a, d, r, hdrop, -, -, -, hcase⟩ := body_effect cb mem s s1 hbody
    have hlt := lt_length_of_drop_cons hdrop
    rcases hcase with ⟨-, -, -, hdata, -⟩ | ⟨w, rest, -, -, hs, -, -⟩ |
      ⟨-, -, -, -, hdata, -⟩ | ⟨t, e, r1, hdt, -, -, -, -, hdata, -⟩
    · omega
    · exact hs.lt.2
    · omega
    · have h2 := congrArg List.length hdrop
      have h3 := congrArg List.length hdt
      simp only [List.length_drop, List.length_append, List.length_cons] at h2 h3
      omega

/-! ## The counters when the error handler is invoked -/

theorem probe_step_none (mem : List Nat) (old : List Call) (pr : List Probe) :
    ProbeStep mem old old pr pr :=
  ⟨[], [], by simp, by simp, rfl, by simp⟩

theorem probe_step_error (mem : List Nat) (old : List Call) (pr : List Probe)
    (t : authinfo_parse_error_type_t) (l c : Nat) (b : Bool) (p col : Nat)
    (hp : Positioned mem p l col) :
    ProbeStep mem old (old ++ [Call.error t l c b])
      pr (pr ++ [⟨Call.error t l c b, p, l, col⟩]) := by
  refine ⟨[Call.error t l c b], [⟨Call.error t l c b, p, l, col⟩], rfl, rfl, ?_, ?_⟩
  · simp [Call.is_error]
  · intro x hx
    simp only [List.mem_singleton] at hx
    subst hx
    exact ⟨hp, t, c, b, rfl⟩

theorem probe_step_entry (mem : List Nat) (old : List Call) (pr : List Probe)
    (e : authinfo_parse_entry_t) (b : Bool) :
    ProbeStep mem old (old ++ [Call.entry e b]) pr pr :=
  ⟨[Call.entry e b], [], rfl, by simp, by simp [Call.is_error], by simp⟩

theorem probe_step_trans {mem : List Nat} {a b c : List Call} {p q r : List Probe}
    (h1 : ProbeStep mem a b p q) (h2 : ProbeStep mem b c q r) : ProbeStep mem a c p r := by
  obtain ⟨x, xs, rfl, rfl, hx, hxs⟩ := h1
  obtain ⟨y, ys, rfl, rfl, hy, hys⟩ := h2
  refine ⟨x ++ y, xs ++ ys, by simp, by simp, by simp [hx, hy], ?_⟩
  intro z hz
  rcases List.mem_append.mp hz with hz | hz
  · exact hxs z hz
  · exact hys z hz

theorem report_error_probed_spec {σ : Type} (cb : Handlers σ) (mem : List Nat)
    (t : authinfo_parse_error_type_t) (c : Nat) (s : Locals σ) (pr : List Probe)
    (hp : Positioned mem s.data s.line s.column) :
    ProbeStep mem s.calls (authinfo_report_error cb t s.line c s).2.calls pr
      (report_error_probed cb t s.line c s pr).2.2 :=
  probe_step_error mem s.calls pr t s.line c _ s.data s.column hp

theorem report_entry_probed_spec {σ : Type} (cb : Handlers σ) (mem : List Nat) (s : Locals σ)
    (pr : List Probe) :
    (report_entry_probed cb s.line s pr).1 = (authinfo_report_entry cb s.line s).1 ∧
      (report_entry_probed cb s.line s pr).2.1 = (authinfo_report_entry cb s.line s).2 ∧
      (Positioned mem s.data s.line s.column →
        ProbeStep mem s.calls (authinfo_report_entry cb s.line s).2.calls pr
          (report_entry_probed cb s.line s pr).2.2) := by
  unfold report_entry_probed authinfo_report_entry
  split_ifs
  · exact ⟨rfl, rfl, fun hp => report_error_probed_spec cb mem _ 0 s pr hp⟩
  · exact ⟨rfl, rfl, fun _ => probe_step_entry mem s.calls pr _ _⟩

theorem keyword_arm_probed_spec {σ : Type} (cb : Handlers σ) (mem : List Nat) (t : List Nat)
    (tc : Nat) (s : Locals σ) (pr : List Probe) :
    (keyword_arm_probed cb t tc s pr).1 = keyword_arm cb t tc s ∧
      (Positioned mem s.data s.line s.column →
        ProbeStep mem s.calls (keyword_arm cb t tc s).calls pr
          (keyword_arm_probed cb t tc s pr).2) := by
  obtain ⟨d, l, c, e, b, st, a, calls⟩ := s
  unfold keyword_arm_probed keyword_arm
  dsimp only
  split_ifs <;>
    first
    | exact ⟨rfl, fun _ => probe_step_none mem _ _⟩
    | exact ⟨rfl, fun hp => probe_step_error mem _ _ _ _ _ _ _ _ hp⟩
    | (exfalso; simp_all)

theorem value_arm_probed_spec {σ : Type} (cb : Handlers σ) (mem : List Nat) (t : List Nat)
    (tc : Nat) (s : Locals σ) (pr : List Probe) :
    (value_arm_probed cb t tc s pr).1 = value_arm cb t tc s ∧
      (Positioned mem s.data s.line s.column →
        ProbeStep mem s.calls (value_arm cb t tc s).calls pr
          (value_arm_probed cb t tc s pr).2) := by
  obtain ⟨d, l, c, e, b, st, a, calls⟩ := s
  unfold value_arm_probed value_arm
  cases st <;> dsimp only <;>
    first
    | exact ⟨rfl, fun _ => probe_step_none mem _ _⟩
    | (split_ifs <;>
        first
        | exact ⟨rfl, fun _ => probe_step_none mem _ _⟩
        | exact ⟨rfl, fun hp => probe_step_error mem _ _ _ _ _ _ _ _ hp⟩)

theorem positioned_next_token {mem : List Nat} {p l c q cq : Nat} {tok : Option (List Nat)}
    (h : authinfo_next_token mem p c = some (q, cq, tok)) (hp : Positioned mem p l c) :
    Positioned mem q l cq := by
  obtain ⟨a, d, r, hdrop, ha, -, rfl, rfl, -⟩ := next_token_some h
  exact positioned_within hdrop (fun x hx => (ha x hx).2.2.2) hp

theorem positioned_skip_spaces {mem : List Nat} {p l c q cq : Nat}
    (h : authinfo_skip_spaces mem p c = some (q, cq)) (hp : Positioned mem p l c) :
    Positioned mem q l cq := by
  obtain ⟨a, d, r, hdrop, ha, -, -, rfl, rfl⟩ := skip_spaces_some h
  refine positioned_within hdrop ?_ hp
  intro x hx
  rcases ha x hx with h1 | h1 <;> subst h1 <;> decide

theorem dispatch_probed_spec {σ : Type} (cb : Handlers σ) (mem : List Nat) (tc : Nat)
    (s : Locals σ) (pr : List Probe) :
    ExecRel (fun a b => a.1 = b ∧ (Positioned mem s.data s.line s.column →
        ProbeStep mem s.calls b.calls pr a.2))
      (dispatch_probed cb mem tc s pr) (dispatch cb mem tc s) := by
  obtain ⟨d, l, c, e, b, st, a, calls⟩ := s
  cases st
  · -- LINE_START
    unfold dispatch_probed dispatch
    dsimp only
    rcases authinfo_skip_comment mem d l with _ | _ | ⟨q, lq, cq⟩
    · simp [ExecRel]
    · dsimp only
      rcases authinfo_skip_macdef mem d l c with (_ | ⟨q, lq, cq⟩) | _ | _
      · exact ⟨rfl, fun _ => probe_step_none mem _ _⟩
      · exact ⟨rfl, fun _ => probe_step_none mem _ _⟩
      · simp [ExecRel]
      · simp [ExecRel]
    · exact ⟨rfl, fun _ => probe_step_none mem _ _⟩
  · -- WAITING_NEXT_PAIR
    unfold dispatch_probed dispatch
    dsimp only
    rcases h1 : authinfo_next_token mem d c with _ | ⟨q, cq, _ | tok⟩
    · simp [ExecRel]
    · dsimp only [ExecRel]
      exact ⟨rfl, fun hp => probe_step_error mem _ _ _ _ _ _ _ _ (positioned_next_token h1 hp)⟩
    · dsimp only [ExecRel]
      have hk := keyword_arm_probed_spec cb mem tok tc
        (⟨q, l, cq, e, b, WAITING_NEXT_PAIR, a, calls⟩ : Locals σ) pr
      exact ⟨hk.1, fun hp => hk.2 (positioned_next_token h1 hp)⟩
  all_goals
    first
    | (unfold dispatch_probed dispatch
       dsimp only
       have hr := report_entry_probed_spec cb mem
         (⟨d, l, c, e, b, LINE_END, a, calls⟩ : Locals σ) pr
       obtain ⟨r1, r2, r3⟩ := hr
       rw [r2]
       rcases authinfo_skip_line mem
         (authinfo_report_entry cb l (⟨d, l, c, e, b, LINE_END, a, calls⟩ : Locals σ)).2.data
         (authinfo_report_entry cb l (⟨d, l, c, e, b, LINE_END, a, calls⟩ : Locals σ)).2.line
         with _ | ⟨q, lq, cq⟩
       · simp [ExecRel]
       · dsimp only [ExecRel]
         rw [r1]
         exact ⟨rfl, r3⟩)
    | (unfold dispatch_probed dispatch
       dsimp only
       rcases h1 : authinfo_next_token mem d c with _ | ⟨q, cq, _ | tok⟩
       · simp [ExecRel]
       · dsimp only [ExecRel]
         exact ⟨rfl, fun hp =>
           probe_step_error mem _ _ _ _ _ _ _ _ (positioned_next_token h1 hp)⟩
       · dsimp only [ExecRel]
         have hk := fun st : parse_state_t => value_arm_probed_spec cb mem tok tc
           (⟨q, l, cq, e, b, st, a, calls⟩ : Locals σ) pr
         refine ⟨?_, fun hp => (hk _).2 (positioned_next_token h1 hp)⟩
         rw [(hk _).1])

theorem exec_rel_mono {α β : Type} {R R2 : α → β → Prop} (h : ∀ a b, R a b → R2 a b)
    {x : Exec α} {y : Exec β} (hx : ExecRel R x y) : ExecRel R2 x y := by
  cases x <;> cases y <;> simp only [ExecRel] at hx ⊢
  exact h _ _ hx

theorem loop_body_probed_spec {σ : Type} (cb : Handlers σ) (mem : List Nat) (s : Locals σ)
    (pr : List Probe) :
    ExecRel (fun a b => a.1 = b ∧ (Positioned mem s.data s.line s.column →
        ProbeStep mem s.calls b.calls pr a.2))
      (loop_body_probed cb mem s pr) (loop_body cb mem s) := by
  obtain ⟨d, l, c, e, b, st, a, calls⟩ := s
  unfold loop_body_probed loop_body
  dsimp only
  rcases h1 : authinfo_skip_spaces mem d c with _ | ⟨p, col⟩
  · simp [ExecRel]
  · dsimp only
    rcases authinfo_eol mem p with _ | _ | _
    · simp [ExecRel]
    · dsimp only
      refine exec_rel_mono ?_ (dispatch_probed_spec cb mem c
        (⟨p, l, col, e, b, st, a, calls⟩ : Locals σ) pr)
      intro x y hxy
      exact ⟨hxy.1, fun hp => hxy.2 (positioned_skip_spaces h1 hp)⟩
    · dsimp only
      cases st
      · -- LINE_START
        dsimp only
        rcases authinfo_eof mem p with _ | _ | _
        · simp [ExecRel]
        · dsimp only
          rcases authinfo_skip_line mem p l with _ | ⟨q, lq, cq⟩
          · simp [ExecRel]
          · exact ⟨rfl, fun _ => probe_step_none mem _ _⟩
        · exact ⟨rfl, fun _ => probe_step_none mem _ _⟩
      · -- WAITING_NEXT_PAIR
        dsimp only
        refine exec_rel_mono ?_ (dispatch_probed_spec cb mem c
          (⟨p, l, col, e, b, LINE_END, a, calls⟩ : Locals σ) pr)
        intro x y hxy
        exact ⟨hxy.1, fun hp => hxy.2 (positioned_skip_spaces h1 hp)⟩
      all_goals
        dsimp only
        refine exec_rel_mono ?_ (dispatch_probed_spec cb mem c _ _)
        intro x y hxy
        refine ⟨hxy.1, fun hp => ?_⟩
        have hq := positioned_skip_spaces h1 hp
        exact probe_step_trans (probe_step_error mem calls pr _ l c _ p col hq) (hxy.2 hq)

theorem loop_body_erase {σ : Type} (cb : Handlers σ) (mem : List Nat) (s : Locals σ)
    (pr : List Probe) :
    Exec.map Prod.fst (loop_body_probed cb mem s pr) = loop_body cb mem s := by
  have h := loop_body_probed_spec cb mem s pr
  rcases h1 : loop_body_probed cb mem s pr with x | _ | _ <;>
    rcases h2 : loop_body cb mem s with y | _ | _ <;>
    simp only [h1, h2, ExecRel] at h <;> simp only [Exec.map]
  rw [h.1]

theorem positioned_exact {text : List Nat} {p l c : Nat} (hlen : text.length + 1 < UINT_RANGE)
    (hp : Positioned (cstr text) p l c) :
    l = line_at (cstr text) p ∧ c = column_at (cstr text) p := by
  obtain ⟨h1, h2⟩ := hp
  have h3 : line_at (cstr text) p ≤ 1 + text.length := by
    unfold line_at
    have h4 := (List.take_sublist p (cstr text)).count_le 10
    have h5 : List.count 10 (cstr text) ≤ text.length := by
      unfold cstr
      rw [List.count_append]
      have := List.count_le_length 10 text
      simp
      exact this
    omega
  have h6 : column_at (cstr text) p ≤ text.length + 1 := by
    unfold column_at
    have h7 := ((List.takeWhile_sublist (fun c => decide (c ≠ 10))
      (l := ((cstr text).take p).reverse)).length_le)
    have h8 := (List.take_sublist p (cstr text)).length_le
    have h9 : (cstr text).length = text.length + 1 := by simp [cstr]
    simp only [List.length_reverse] at h7
    omega
  rw [Nat.mod_eq_of_lt (by omega)] at h1 h2
  exact ⟨h1, h2⟩

theorem body_probes {σ : Type} (cb : Handlers σ) (arg : σ) {text : List Nat}
    (htext : ∀ c ∈ text, c ≠ 0) (s s1 : Locals σ) (hv : Visits cb (cstr text) (init arg) s)
    (hbody : loop_body cb (cstr text) s = Exec.ok s1) :
    ∃ ps, loop_body_probed cb (cstr text) s [] = Exec.ok (s1, ps) ∧
      (∃ added, s1.calls = s.calls ++ added ∧
        added.filter Call.is_error = ps.map Probe.call) ∧
      ∀ x ∈ ps, Positioned (cstr text) x.data x.line x.column ∧
        ∃ t c b, x.call = Call.error t x.line c b := by
  have hle : s.data ≤ text.length := by
    obtain ⟨a, d, r, hdrop, -⟩ := body_effect cb (cstr text) s s1 hbody
    have := lt_length_of_drop_cons (by simpa using hdrop :
      (cstr text).drop s.data = a ++ d :: r)
    simp [cstr] at this
    omega
  have hp := visits_positioned cb arg htext s hv hle
  have h := loop_body_probed_spec cb (cstr text) s []
  rw [hbody] at h
  rcases h1 : loop_body_probed cb (cstr text) s [] with x | _ | _ <;>
    simp only [h1, ExecRel] at h
  obtain ⟨hx, hstep⟩ := h
  obtain ⟨added, ps, h2, h3, h4, h5⟩ := hstep hp
  obtain ⟨x1, x2⟩ := x
  simp only at hx h3
  subst hx
  simp only [List.nil_append] at h3
  subst h3
  exact ⟨x2, rfl, ⟨added, h2, h4⟩, h5⟩

/-! ## The flags in the log are the answers of the handlers -/

theorem answer_step_none {σ : Type} (cb : Handlers σ) (old : List Call) :
    AnswerStep cb old old :=
  ⟨[], by simp, by simp⟩

theorem answer_step_error {σ : Type} (cb : Handlers σ) (old : List Call)
    (t : authinfo_parse_error_type_t) (l c : Nat) (a : σ) :
    AnswerStep cb old (old ++ [Call.error t l c (cb.error_callback t l c a).1]) :=
  ⟨[_], rfl, by
    intro x hx
    simp only [List.mem_singleton] at hx
    subst hx
    exact ⟨a, rfl⟩⟩

theorem answer_step_entry {σ : Type} (cb : Handlers σ) (old : List Call)
    (e : authinfo_parse_entry_t) (a : σ) :
    AnswerStep cb old (old ++ [Call.entry e (cb.entry_callback e a).1]) :=
  ⟨[_], rfl, by
    intro x hx
    simp only [List.mem_singleton] at hx
    subst hx
    exact ⟨a, rfl⟩⟩

theorem answer_step_trans {σ : Type} {cb : Handlers σ} {a b c : List Call}
    (h1 : AnswerStep cb a b) (h2 : AnswerStep cb b c) : AnswerStep cb a c := by
  obtain ⟨x, rfl, hx⟩ := h1
  obtain ⟨y, rfl, hy⟩ := h2
  refine ⟨x ++ y, by simp, ?_⟩
  intro z hz
  rcases List.mem_append.mp hz with hz | hz
  · exact hx z hz
  · exact hy z hz

theorem report_error_answers {σ : Type} (cb : Handlers σ) (t : authinfo_parse_error_type_t)
    (l c : Nat) (s : Locals σ) :
    AnswerStep cb s.calls (authinfo_report_error cb t l c s).2.calls :=
  answer_step_error cb _ _ _ _ _

theorem report_entry_answers {σ : Type} (cb : Handlers σ) (l : Nat) (s : Locals σ) :
    AnswerStep cb s.calls (authinfo_report_entry cb l s).2.calls := by
  unfold authinfo_report_entry
  split_ifs
  · exact report_error_answers cb _ l 0 s
  · exact answer_step_entry cb _ _ _

theorem keyword_arm_answers {σ : Type} (cb : Handlers σ) (t : List Nat) (tc : Nat)
    (s : Locals σ) : AnswerStep cb s.calls (keyword_arm cb t tc s).calls := by
  unfold keyword_arm authinfo_report_error
  dsimp only
  split_ifs <;>
    first | exact answer_step_none _ _ | exact answer_step_error _ _ _ _ _ _ | simp_all

theorem value_arm_answers {σ : Type} (cb : Handlers σ) (t : List Nat) (tc : Nat)
    (s : Locals σ) : AnswerStep cb s.calls (value_arm cb t tc s).calls := by
  unfold value_arm authinfo_report_error
  split <;> first | exact answer_step_none _ _ | (split <;>
    first | exact answer_step_none _ _ | exact answer_step_error _ _ _ _ _ _)

theorem dispatch_answers {σ : Type} (cb : Handlers σ) (mem : List Nat) (tc : Nat)
    (s s1 : Locals σ) (h : dispatch cb mem tc s = Exec.ok s1) :
    AnswerStep cb s.calls s1.calls := by
  unfold dispatch at h
  split at h <;> try dsimp only at h
  · split at h
    · simp at h
    · simp only [Exec.ok.injEq] at h; subst h; exact answer_step_none _ _
    · split at h
      · simp at h
      · simp at h
      · simp only [Exec.ok.injEq] at h; subst h; exact answer_step_none _ _
      · simp only [Exec.ok.injEq] at h; subst h; exact answer_step_none _ _
  · split at h
    · simp at h
    · simp only [Exec.ok.injEq] at h; subst h; exact report_entry_answers cb _ _
  · split at h
    · simp at h
    · simp only [Exec.ok.injEq] at h; subst h; exact keyword_arm_answers cb _ _ _
    · simp only [Exec.ok.injEq] at h; subst h
      exact answer_step_error _ _ _ _ _ _
  · split at h
    · simp at h
    · simp only [Exec.ok.injEq] at h; subst h; exact value_arm_answers cb _ _ _
    · simp only [Exec.ok.injEq] at h; subst h
      exact answer_step_error _ _ _ _ _ _

theorem body_answers {σ : Type} (cb : Handlers σ) (mem : List Nat) (s s1 : Locals σ)
    (h : loop_body cb mem s = Exec.ok s1) : AnswerStep cb s.calls s1.calls := by
  unfold loop_body at h
  dsimp only at h
  split at h
  · simp at h
  · split at h
    · simp at h
    · have h1 := dispatch_answers cb mem _ _ _ h
      exact h1
    · split at h
      · split at h
        · simp at h
        · simp only [Exec.ok.injEq] at h; subst h; exact answer_step_none _ _
        · split at h
          · simp at h
          · simp only [Exec.ok.injEq] at h; subst h; exact answer_step_none _ _
      · have h1 := dispatch_answers cb mem _ _ _ h
        exact h1
      · have h1 := dispatch_answers cb mem _ _ _ h
        exact answer_step_trans (answer_step_error _ _ _ _ _ _) h1

theorem parse_answers {σ : Type} (cb : Handlers σ) (mem : List Nat) (arg : σ) :
    ∀ c ∈ (authinfo_parse cb mem arg).2.calls, Answered cb c := by
  have hv := visits_run cb mem (init arg) (2 * mem.length + 2) (init arg) Visits.start
  have key : ∀ s, Visits cb mem (init arg) s → ∀ c ∈ s.calls, Answered cb c := by
    intro s h
    induction h with
    | start => simp [init]
    | next s s1 _ hstop hbody ih =>
      obtain ⟨added, h1, h2⟩ := body_answers cb mem s s1 hbody
      intro c hc
      rw [h1] at hc
      rcases List.mem_append.mp hc with hc | hc
      · exact ih c hc
      · exact h2 c hc
  exact key _ hv

/-! ## Two parses for any handlers -/

/-- The parse of a line of well-formed pairs that give no password, followed by
the keyword `password` and no value, for any handlers. -/
theorem parse_password_missing {σ : Type} (cb : Handlers σ) (arg : σ) (ps : List Pair)
    (sp trail term : List Nat) (hc : Clean empty_entry ps) (hs : Spaced ps)
    (hpw : (entry_of empty_entry ps).password = none)
    (hsp : Blank sp ∧ (ps ≠ [] → sp ≠ [])) (hb : Blank trail) (ht : term = [10] ∨ term = []) :
    (authinfo_parse cb (cstr (render ps ++ sp ++ ascii "password" ++ trail ++ term)) arg).2.calls =
      [Call.error AUTHINFO_PET_MISSING_VALUE 1
          (((render ps).length + sp.length + 8) % UINT_RANGE)
          (cb.error_callback AUTHINFO_PET_MISSING_VALUE 1
            (((render ps).length + sp.length + 8) % UINT_RANGE) arg).1,
       report_call (entry_of empty_entry ps) 1
          (report_result cb (entry_of empty_entry ps) 1
            (cb.error_callback AUTHINFO_PET_MISSING_VALUE 1
              (((render ps).length + sp.length + 8) % UINT_RANGE) arg).2).1] ∧
    (authinfo_parse cb (cstr (render ps ++ sp ++ ascii "password" ++ trail ++ term)) arg).1 =
      (if term = [10] ∨ (report_result cb (entry_of empty_entry ps) 1
            (cb.error_callback AUTHINFO_PET_MISSING_VALUE 1
              (((render ps).length + sp.length + 8) % UINT_RANGE) arg).2).1 = true
        then Outcome.finished else Outcome.overrun) := by
  obtain ⟨hsp, hsne⟩ := hsp
  set mem := cstr (render ps ++ sp ++ ascii "password" ++ trail ++ term) with hmem
  set e := entry_of empty_entry ps with he
  set col := ((render ps).length + sp.length + 8) % UINT_RANGE with hcol
  obtain ⟨d, rest, hd, hterm, hrest⟩ : ∃ d rest, (d = 10 ∨ d = 0) ∧ term ++ [0] = d :: rest ∧
      (rest = [0] ∧ term = [10] ∨ rest = [] ∧ term = []) := by
    rcases ht with ht | ht <;> subst ht
    · exact ⟨10, [0], Or.inl rfl, rfl, Or.inl ⟨rfl, rfl⟩⟩
    · exact ⟨0, [], Or.inr rfl, rfl, Or.inr ⟨rfl, rfl⟩⟩
  have h0 : mem.drop 0 = render ps ++ (sp ++ (ascii "password" ++ (trail ++ d :: rest))) := by
    simp [hmem, cstr, ← hterm]
  have hmlen : mem.length =
      (render ps).length + sp.length + 8 + trail.length + 1 + rest.length := by
    have : mem = (render ps ++ (sp ++ (ascii "password" ++ (trail ++ d :: rest)))) := by
      simpa using h0
    have hl : (ascii "password").length = 8 := by decide
    rw [this]; simp [hl]; omega
  have hk : keyword (ascii "password") = some Key.password := by decide
  obtain ⟨htk, hnek, -, -, hnc, hnm⟩ := keyword_token hk
  have hdel : StartsDelim (trail ++ d :: rest) := by
    cases trail with
    | nil => rcases hd with hd | hd <;> simp [StartsDelim, hd]
    | cons c cs => exact StartsDelim.of_blank hb (by simp)
  have main : ∃ k, k ≤ 2 * ps.length + 3 ∧ Reach cb mem k (init arg)
      ⟨(render ps).length + sp.length + 8 + trail.length + 1, (1 + 1) % UINT_RANGE, 0, e,
        (report_result cb e 1 (cb.error_callback AUTHINFO_PET_MISSING_VALUE 1 col arg).2).1,
        LINE_START,
        (report_result cb e 1 (cb.error_callback AUTHINFO_PET_MISSING_VALUE 1 col arg).2).2,
        [] ++ [Call.error AUTHINFO_PET_MISSING_VALUE 1 col
            (cb.error_callback AUTHINFO_PET_MISSING_VALUE 1 col arg).1] ++
          [report_call e 1 (report_result cb e 1
            (cb.error_callback AUTHINFO_PET_MISSING_VALUE 1 col arg).2).1]⟩ := by
    cases ps with
    | nil =>
      have h1 : mem.drop 0 = sp ++ (ascii "password" ++ (trail ++ d :: rest)) := by
        simpa [render] using h0
      have r1 := Reach.step rfl (body_line_start cb 1 0 empty_entry arg [] h1 hsp htk hnek hdel
        hnc hnm)
      have h2 : mem.drop (0 + sp.length) = [] ++ (ascii "password" ++ (trail ++ d :: rest)) :=
        drop_add_of_drop_eq h1
      have r2 := reach_password_eol cb 1 ((0 + sp.length) % UINT_RANGE) empty_entry arg [] h2
        (by simp [Blank]) hb hd rfl
      have ec : ((0 + sp.length) % UINT_RANGE + ([] : List Nat).length + 8) % UINT_RANGE = col := by
        simp only [hcol, render, List.length_nil, Nat.zero_add, Nat.add_zero]
        rw [Nat.mod_add_mod]
      have ee : e = empty_entry := by simp [he, entry_of]
      rw [ec] at r2
      have r3 := Reach.trans r1 r2
      rw [← init_eq] at r3
      refine ⟨1 + 2, by simp, ?_⟩
      simpa [render, ee] using r3
    | cons p ps =>
      have hne : sp ≠ [] := hsne (by simp)
      have h1 : mem.drop 0 =
          render (p :: ps) ++ (sp ++ (ascii "password" ++ (trail ++ d :: rest))) := h0
      have r1 := reach_line_pairs cb 1 0 empty_entry arg [] p ps h1
        (StartsDelim.of_blank hsp hne) hc hs
      have r2 := reach_password_eol cb 1 ((0 + (render (p :: ps)).length) % UINT_RANGE) e arg []
        (drop_add_of_drop_eq h1) hsp hb hd hpw
      have ec : ((0 + (render (p :: ps)).length) % UINT_RANGE + sp.length + 8) % UINT_RANGE =
          col := by
        simp only [hcol, Nat.zero_add]
        rw [Nat.add_assoc, Nat.mod_add_mod, Nat.add_assoc]
      rw [ec] at r2
      have r3 := Reach.trans r1 r2
      rw [← init_eq] at r3
      refine ⟨1 + 2 * (p :: ps).length + 2, by simp; omega, ?_⟩
      simpa using r3
  obtain ⟨k, hk3, r⟩ := main
  have hpl := render_length_ge hc
  rcases hrest with ⟨hr, htm⟩ | ⟨hr, htm⟩
  · subst hr
    have hdrop : mem.drop ((render ps).length + sp.length + 8 + trail.length + 1) = [0] := by
      have h3 := drop_add_of_drop_eq (drop_add_of_drop_eq (drop_add_of_drop_eq
        (drop_add_of_drop_eq h0)))
      have h4 : mem.drop (0 + (render ps).length + sp.length + (ascii "password").length +
          trail.length) = [d] ++ [0] := h3
      have hl : (ascii "password").length = 8 := by decide
      simpa [hl] using drop_add_of_drop_eq h4
    obtain ⟨s1, r2, hs1, hcalls, -⟩ := reach_end cb ((1 + 1) % UINT_RANGE) 0 e _ _ _ hdrop
    have hfin := parse_of_reach (Reach.trans r r2) (by simp at hmlen; omega) hs1
    rw [hfin]
    exact ⟨by simpa using hcalls, by simp [htm]⟩
  · subst hr
    have hdrop : mem.drop ((render ps).length + sp.length + 8 + trail.length + 1) = [] := by
      apply List.drop_eq_nil_of_le
      simp at hmlen; omega
    have hnot : term ≠ [10] := by rw [htm]; simp
    cases hb2 : (report_result cb e 1
        (cb.error_callback AUTHINFO_PET_MISSING_VALUE 1 col arg).2).1 with
    | true =>
      rw [hb2] at r
      have hfin := parse_of_reach r (by simp at hmlen; omega) rfl
      rw [hfin]
      exact ⟨by simp, by simp⟩
    | false =>
      rw [hb2] at r
      have hfin := parse_of_reach_overrun r (by simp at hmlen; omega) rfl hdrop
      rw [hfin]
      exact ⟨by simp, by simp [hnot]⟩

/-- The parse of a line of tokens that name no host, for any handlers. -/
theorem parse_line_without_host {σ : Type} (cb : Handlers σ) (arg : σ) (x : Tok) (xs : List Tok)
    (trail : List Nat) (hwf : ∀ y ∈ x :: xs, y.wf ∧ y.no_host) (hsp : ∀ y ∈ xs, y.sp ≠ [])
    (hfirst : x.tok.head? ≠ some 35 ∧ x.tok ≠ ascii "macdef") (hb : Blank trail) :
    (∀ (m : List Nat) (e : authinfo_parse_entry_t) (b : Bool),
      Call.entry e b ∈ (authinfo_parse cb m arg).2.calls → e.host ≠ none) ∧
    (authinfo_parse cb (cstr (render_toks (x :: xs) ++ trail ++ [10])) arg).1 =
      Outcome.finished ∧
    ∃ errs b, ErrsOn cb 1 errs ∧
      ((authinfo_parse cb (cstr (render_toks (x :: xs) ++ trail ++ [10])) arg).2.calls =
          errs ++ [Call.error AUTHINFO_PET_MISSING_HOST 1 0 b] ∨
        ((authinfo_parse cb (cstr (render_toks (x :: xs) ++ trail ++ [10])) arg).2.calls = errs ∧
          ∃ ty col, Call.error ty 1 col true ∈ errs)) := by
  refine ⟨fun m e b hm => run_hosts_present cb m _ (init arg)
    (by intro e1 b1 h1; simp [init] at h1) e b hm, ?_⟩
  set mem := cstr (render_toks (x :: xs) ++ trail ++ [10]) with hmem
  have hx := hwf x (by simp)
  have hwf2 : ∀ y ∈ xs, y.wf ∧ y.no_host := fun y hy => hwf y (by simp [hy])
  have h0 : mem.drop 0 = x.sp ++ (x.tok ++ (render_toks xs ++ (trail ++ [10, 0]))) := by
    simp [hmem, cstr, render_toks]
  have r1 := Reach.step rfl (body_line_start cb 1 0 empty_entry arg [] h0 hx.1.1 hx.1.2.1
    hx.1.2.2 (starts_delim_render_toks hwf2 hsp hb) hfirst.1 hfirst.2)
  rw [← init_eq] at r1
  have hq : ∀ y ∈ (⟨[], x.tok⟩ : Tok) :: xs, y.wf ∧ y.no_host := by
    intro y hy
    rcases List.mem_cons.mp hy with hy | hy
    · subst hy
      exact ⟨⟨by simp [Blank], hx.1.2.1, hx.1.2.2⟩, hx.2⟩
    · exact hwf2 y hy
  have h1 : mem.drop (0 + x.sp.length) =
      render_toks ((⟨[], x.tok⟩ : Tok) :: xs) ++ (trail ++ [10, 0]) := by
    simpa [render_toks] using drop_add_of_drop_eq h0
  obtain ⟨k, s1, hk, r2, hstop, errs, b, herrs, hcalls⟩ :=
    reach_tokens_nohost cb 1 hb ((⟨[], x.tok⟩ : Tok) :: xs) (0 + x.sp.length)
      ((0 + x.sp.length) % UINT_RANGE) empty_entry WAITING_NEXT_PAIR arg [] (Or.inl rfl) rfl
      h1 hq hsp
  have hlen : 1 + k ≤ 2 * mem.length + 2 := by
    have h3 := render_toks_length_ge hwf
    simp only [hmem, cstr, List.length_append, List.length_cons, List.length_nil] at *
    omega
  have hfin := parse_of_reach (Reach.trans r1 r2) hlen hstop
  rw [hfin]
  exact ⟨rfl, errs, b, herrs, by simpa using hcalls⟩

/-! ## The claims -/

/-- C1: for all tokens `h`, `u`, `p` that are non-empty, hold no space, tab,
newline or NUL and are at most 127 bytes long, `authinfo_parse` on the buffer
`machine h login u password p\n` runs to completion and calls the entry
callback exactly once, with host `h`, user `u`, password `p`, no protocol and
`force` false; the error callback is never called. -/
theorem C1_single_record {σ : Type} (cb : Handlers σ) (arg : σ) (h u p : List Nat)
    (hh : TokenBytes h ∧ h ≠ [] ∧ h.length ≤ 127)
    (hu : TokenBytes u ∧ u ≠ [] ∧ u.length ≤ 127)
    (hp : TokenBytes p ∧ p ≠ [] ∧ p.length ≤ 127) :
    (authinfo_parse cb (cstr (ascii "machine " ++ h ++ ascii " login " ++ u ++
        ascii " password " ++ p ++ ascii "\n")) arg).1 = Outcome.finished ∧
    (authinfo_parse cb (cstr (ascii "machine " ++ h ++ ascii " login " ++ u ++
        ascii " password " ++ p ++ ascii "\n")) arg).2.calls =
      [Call.entry ⟨some h, none, some u, some p, false⟩
        (cb.entry_callback ⟨some h, none, some u, some p, false⟩ arg).1] := by
  have e1 : ascii "machine " = ascii "machine" ++ [32] := by decide
  have e2 : ascii " login " = [32] ++ ascii "login" ++ [32] := by decide
  have e3 : ascii " password " = [32] ++ ascii "password" ++ [32] := by decide
  have e4 : ascii "\n" = [10] := by decide
  have k1 : keyword (ascii "machine") = some Key.host := by decide
  have k2 : keyword (ascii "login") = some Key.user := by decide
  have k3 : keyword (ascii "password") = some Key.password := by decide
  have hbl : Blank [32] := by decide
  have hcl : Clean empty_entry [⟨[], ascii "machine", [32], h⟩, ⟨[32], ascii "login", [32], u⟩,
      ⟨[32], ascii "password", [32], p⟩] := by
    simp only [Clean, Pair.wf, Pair.fresh, Pair.apply, k1, k2, k3, Key.given, Key.assign,
      empty_entry, TOKEN_SIZE_MAX]
    refine ⟨⟨by decide, rfl, hbl, by simp, hh.1, hh.2.1, by omega, by simp⟩, rfl,
      ⟨hbl, rfl, hbl, by simp, hu.1, hu.2.1, by omega, by simp⟩, rfl,
      ⟨hbl, rfl, hbl, by simp, hp.1, hp.2.1, by omega, by simp⟩, rfl, trivial⟩
  have hsp : Spaced [⟨[], ascii "machine", [32], h⟩, ⟨[32], ascii "login", [32], u⟩,
      ⟨[32], ascii "password", [32], p⟩] := by
    intro q hq
    simp at hq
    rcases hq with hq | hq <;> subst hq <;> simp
  have key := parse_clean_line cb arg _ _ [] hcl hsp (by simp [Blank])
  have hbuf : render [⟨[], ascii "machine", [32], h⟩, ⟨[32], ascii "login", [32], u⟩,
      ⟨[32], ascii "password", [32], p⟩] ++ [] ++ [10] =
      ascii "machine " ++ h ++ ascii " login " ++ u ++ ascii " password " ++ p ++ ascii "\n" := by
    simp [render, Pair.text, e1, e2, e3, e4]
  have hent : entry_of empty_entry [⟨[], ascii "machine", [32], h⟩,
      ⟨[32], ascii "login", [32], u⟩, ⟨[32], ascii "password", [32], p⟩] =
      ⟨some h, none, some u, some p, false⟩ := by
    simp [entry_of, Pair.apply, k1, k2, k3, Key.assign, empty_entry]
  rw [hbuf, hent] at key
  simpa [report_call, report_result] using key

/-- Witness of C1 on `machine foo.example login bob password hunter2\n`. -/
theorem C1_single_record_witness :
    (authinfo_parse go_on
        (cstr (ascii "machine " ++ ascii "foo.example" ++ ascii " login " ++ ascii "bob" ++
          ascii " password " ++ ascii "hunter2" ++ ascii "\n")) ()).1 = Outcome.finished ∧
    (authinfo_parse go_on
        (cstr (ascii "machine " ++ ascii "foo.example" ++ ascii " login " ++ ascii "bob" ++
          ascii " password " ++ ascii "hunter2" ++ ascii "\n")) ()).2.calls =
      [Call.entry ⟨some (ascii "foo.example"), none, some (ascii "bob"),
        some (ascii "hunter2"), false⟩ false] :=
  C1_single_record go_on () (ascii "foo.example") (ascii "bob") (ascii "hunter2")
    (by decide) (by decide) (by decide)

/-- C2: a line of well-formed pairs `p :: ps`, then one more pair `d` whose
keyword belongs to a text field (host, user, password, protocol) that the line
has already given, then further well-formed pairs `qs` that repeat no field.
The parse reports exactly one duplicate-keyword error, for the keyword of `d`.
Unless the error callback asks to stop there, it then reports the entry built
from `p :: ps` and `qs` alone: the value of `d` is not reported, and the field
still holds the value it was given first. -/
theorem C2_duplicate_keeps_first {σ : Type} (cb : Handlers σ) (arg : σ) (p : Pair)
    (ps : List Pair) (d : Pair) (qs : List Pair) (trail : List Nat) (c : Key)
    (hc : Clean empty_entry (p :: ps)) (hs : Spaced (p :: ps))
    (hd : d.wf ∧ d.sp1 ≠ []) (hk : keyword d.kw = some c ∧ c ≠ Key.force)
    (hg : c.given (entry_of empty_entry (p :: ps)) = true)
    (hq : Clean (entry_of empty_entry (p :: ps)) qs ∧ ∀ q ∈ qs, q.sp1 ≠ [])
    (hb : Blank trail) :
    (authinfo_parse cb
        (cstr (render (p :: ps) ++ d.text ++ render qs ++ trail ++ [10])) arg).1 =
      Outcome.finished ∧
    (authinfo_parse cb
        (cstr (render (p :: ps) ++ d.text ++ render qs ++ trail ++ [10])) arg).2.calls =
      Call.error AUTHINFO_PET_DUPLICATED_KEYWORD 1 ((render (p :: ps)).length % UINT_RANGE)
          (cb.error_callback AUTHINFO_PET_DUPLICATED_KEYWORD 1
            ((render (p :: ps)).length % UINT_RANGE) arg).1 ::
        (if (cb.error_callback AUTHINFO_PET_DUPLICATED_KEYWORD 1
            ((render (p :: ps)).length % UINT_RANGE) arg).1 then []
         else [report_call (entry_of (entry_of empty_entry (p :: ps)) qs) 1
           (report_result cb (entry_of (entry_of empty_entry (p :: ps)) qs) 1
             (cb.error_callback AUTHINFO_PET_DUPLICATED_KEYWORD 1
               ((render (p :: ps)).length % UINT_RANGE) arg).2).1]) ∧
    Key.text (entry_of (entry_of empty_entry (p :: ps)) qs) c =
      Key.text (entry_of empty_entry (p :: ps)) c := by
  obtain ⟨⟨hb1, -, hb2, hne2, htv, hnev, hlv, hyes⟩, hne1⟩ := hd
  obtain ⟨hk, hcf⟩ := hk
  obtain ⟨hqc, hqs⟩ := hq
  obtain ⟨htk, hnek, hlk, -, -, -⟩ := keyword_token hk
  refine ⟨?_, ?_, entry_of_text hqc hg⟩
  all_goals
    set mem := cstr (render (p :: ps) ++ d.text ++ render qs ++ trail ++ [10]) with hmem
    set e := entry_of empty_entry (p :: ps) with he
    set n := (render (p :: ps)).length with hn
    have hdel : StartsDelim (render qs ++ (trail ++ [10, 0])) :=
      starts_delim_render hqc hqs (starts_delim_trail hb)
    have h0 : mem.drop 0 = render (p :: ps) ++
        (d.sp1 ++ (d.kw ++ (d.sp2 ++ (d.val ++ (render qs ++ (trail ++ [10, 0])))))) := by
      simp [hmem, cstr, Pair.text]
    have r1 := reach_line_pairs cb 1 0 empty_entry arg [] p ps h0
      (StartsDelim.of_blank hb1 hne1) hc hs
    rw [← init_eq] at r1
    simp only [Nat.zero_add, ← he, ← hn] at r1
    have h1 : mem.drop n =
        d.sp1 ++ (d.kw ++ (d.sp2 ++ (d.val ++ (render qs ++ (trail ++ [10, 0]))))) := by
      simpa using drop_add_of_drop_eq h0
    have r2 := Reach.step rfl (body_keyword cb 1 (n % UINT_RANGE) e arg [] h1 hb1 htk hnek
      (StartsDelim.of_blank hb2 hne2) hlk)
    rw [keyword_arm_key cb _ _ _ _ _ _ _ hk] at r2
    simp only [hg, if_true] at r2
    have hlen : 1 + 2 * (p :: ps).length + 1 + 1 + 2 * qs.length + 2 ≤ 2 * mem.length + 2 := by
      have h3 := render_length_ge hc
      have h4 : 0 < d.val.length := List.length_pos.mpr hnev
      have h5 := render_length_ge hqc
      simp only [hmem, cstr, List.length_append, List.length_cons, List.length_nil, Pair.text,
        ← hn] at *
      omega
    cases hstop : (cb.error_callback AUTHINFO_PET_DUPLICATED_KEYWORD 1 (n % UINT_RANGE) arg).1
      with
    | true =>
      rw [hstop] at r2
      have hfin := parse_of_reach (Reach.trans r1 r2) (by omega) rfl
      simp [hfin]
    | false =>
      rw [hstop] at r2
      have h2 : mem.drop (n + d.sp1.length + d.kw.length) =
          d.sp2 ++ (d.val ++ (render qs ++ (trail ++ [10, 0]))) :=
        drop_add_of_drop_eq (drop_add_of_drop_eq h1)
      have r3 := Reach.step rfl (body_value cb 1
        ((n % UINT_RANGE + d.sp1.length + d.kw.length) % UINT_RANGE) e
        (cb.error_callback AUTHINFO_PET_DUPLICATED_KEYWORD 1 (n % UINT_RANGE) arg).2
        ([] ++ [Call.error AUTHINFO_PET_DUPLICATED_KEYWORD 1 (n % UINT_RANGE) false])
        (state_value c) h2 hb2 htv hnev hdel hlv)
      rw [value_arm_key cb _ _ _ _ _ _ _ (fun hkf => absurd hkf hcf), assign_of_given _ hg] at r3
      have h3 : mem.drop (n + d.sp1.length + d.kw.length + d.sp2.length + d.val.length) =
          render qs ++ (trail ++ [10, 0]) := drop_add_of_drop_eq (drop_add_of_drop_eq h2)
      have r4 := reach_pairs cb 1
        (cb.error_callback AUTHINFO_PET_DUPLICATED_KEYWORD 1 (n % UINT_RANGE) arg).2
        ([] ++ [Call.error AUTHINFO_PET_DUPLICATED_KEYWORD 1 (n % UINT_RANGE) false]) qs
        (n + d.sp1.length + d.kw.length + d.sp2.length + d.val.length)
        (((n % UINT_RANGE + d.sp1.length + d.kw.length) % UINT_RANGE + d.sp2.length +
          d.val.length) % UINT_RANGE) e (Nat.mod_lt _ (by decide)) h3 (starts_delim_trail hb)
        hqc (fun q hq => hqs q (List.mem_of_mem_tail hq))
      obtain ⟨s1, r5, hs1, hcalls⟩ := reach_last_pair cb 1
        ((((n % UINT_RANGE + d.sp1.length + d.kw.length) % UINT_RANGE + d.sp2.length +
          d.val.length) % UINT_RANGE + (render qs).length) % UINT_RANGE) (entry_of e qs)
        (cb.error_callback AUTHINFO_PET_DUPLICATED_KEYWORD 1 (n % UINT_RANGE) arg).2
        ([] ++ [Call.error AUTHINFO_PET_DUPLICATED_KEYWORD 1 (n % UINT_RANGE) false])
        (drop_add_of_drop_eq h3) hb
      have hfin := parse_of_reach
        (Reach.trans (Reach.trans (Reach.trans (Reach.trans r1 r2) r3) r4) r5) hlen hs1
      first | (rw [hfin]; done) | (rw [hfin]; simpa using hcalls)

/-- Witness of C2 on `machine a machine b\n`. -/
theorem C2_duplicate_keeps_first_witness :
    (authinfo_parse go_on (cstr (ascii "machine a machine b\n")) ()).1 = Outcome.finished ∧
    (authinfo_parse go_on (cstr (ascii "machine a machine b\n")) ()).2.calls =
      [Call.error AUTHINFO_PET_DUPLICATED_KEYWORD 1 9 false,
       Call.entry ⟨some (ascii "a"), none, none, none, false⟩ false] ∧
    Key.text (entry_of (entry_of empty_entry [⟨[], ascii "machine", [32], ascii "a"⟩]) [])
        Key.host =
      Key.text (entry_of empty_entry [⟨[], ascii "machine", [32], ascii "a"⟩]) Key.host :=
  C2_duplicate_keeps_first go_on () ⟨[], ascii "machine", [32], ascii "a"⟩ []
    ⟨[32], ascii "machine", [32], ascii "b"⟩ [] [] Key.host (by decide) (by decide) (by decide)
    (by decide) (by decide) (by decide) (by decide)

/-- C3 (code defect): on `machine a default\n` the duplicate-keyword error is
reported, but the `default` arm has overwritten the host buffer: the entry
reported for the line has the empty host, not `a`. -/
theorem C3_default_overwrites_host :
    (authinfo_parse go_on (cstr (ascii "machine a default\n")) ()).2.calls =
      [Call.error AUTHINFO_PET_DUPLICATED_KEYWORD 1 9 false,
       Call.entry ⟨some [], none, none, none, false⟩ false] := by
  decide

/-- C4 (counterexample): on `machine a password\n` the missing-value error is
followed by a call of the entry callback for the same line. -/
theorem C4_record_still_reported :
    (authinfo_parse go_on (cstr (ascii "machine a password\n")) ()).2.calls =
      [Call.error AUTHINFO_PET_MISSING_VALUE 1 18 false,
       Call.entry ⟨some (ascii "a"), none, none, none, false⟩ false] := by
  decide

/-- C4 (amended): a line of well-formed pairs that give no password, followed by
the keyword `password` and no value before the newline or the end of the
buffer, parsed with an error callback that does not answer the missing-value
error with a stop request.  Exactly one missing-value error is reported, at
the column where the keyword ends; then the line is reported as a line that
ends there: the entry callback is called with the fields the pairs gave when
they gave a host, and a missing-host error is reported when they did not.
These are the only calls, and after a newline the parse runs to completion. -/
theorem C4_missing_value_then_report {σ : Type} (cb : Handlers σ) (arg : σ) (ps : List Pair)
    (sp trail term : List Nat) (hc : Clean empty_entry ps) (hs : Spaced ps)
    (hpw : (entry_of empty_entry ps).password = none)
    (hsp : Blank sp ∧ (ps ≠ [] → sp ≠ [])) (hb : Blank trail) (ht : term = [10] ∨ term = [])
    (hgo : (cb.error_callback AUTHINFO_PET_MISSING_VALUE 1
      (((render ps).length + sp.length + 8) % UINT_RANGE) arg).1 = false) :
    (authinfo_parse cb (cstr (render ps ++ sp ++ ascii "password" ++ trail ++ term)) arg).2.calls =
      [Call.error AUTHINFO_PET_MISSING_VALUE 1
          (((render ps).length + sp.length + 8) % UINT_RANGE) false,
       report_call (entry_of empty_entry ps) 1
          (report_result cb (entry_of empty_entry ps) 1
            (cb.error_callback AUTHINFO_PET_MISSING_VALUE 1
              (((render ps).length + sp.length + 8) % UINT_RANGE) arg).2).1] ∧
    (term = [10] →
      (authinfo_parse cb (cstr (render ps ++ sp ++ ascii "password" ++ trail ++ term)) arg).1 =
        Outcome.finished) := by
  obtain ⟨h1, h2⟩ := parse_password_missing cb arg ps sp trail term hc hs hpw hsp hb ht
  rw [hgo] at h1
  refine ⟨h1, fun h10 => ?_⟩
  rw [h2, if_pos (Or.inl h10)]

/-- Witness of C4 (amended) on `login bob password\n`: no host was given, so the
missing-value error is followed by a missing-host error. -/
theorem C4_missing_value_then_report_witness :
    (authinfo_parse go_on (cstr (ascii "login bob password\n")) ()).2.calls =
      [Call.error AUTHINFO_PET_MISSING_VALUE 1 18 false,
       Call.error AUTHINFO_PET_MISSING_HOST 1 0 false] :=
  (C4_missing_value_then_report go_on () [⟨[], ascii "login", [32], ascii "bob"⟩] [32] [] [10]
    (by decide) (by decide) (by decide) (by decide) (by decide) (by decide) rfl).1

/-- C5 (counterexample): on `foo\n` with an error callback that asks to stop,
the only call is the bad-keyword error, so no missing-host error is reported;
and the comment line `#x\n` is skipped without any call. -/
theorem C5_no_missing_host_reported :
    (authinfo_parse halt (cstr (ascii "foo\n")) ()).2.calls =
      [Call.error AUTHINFO_PET_BAD_KEYWORD 1 0 true] ∧
    (authinfo_parse go_on (cstr (ascii "#x\n")) ()).2.calls = [] := by
  decide

/-- C5 (amended): on every buffer and with any handlers the entry callback is
only called for an entry whose host is present.  And for a line of one or more
tokens, none of them `machine`, `host` or `default`, whose first token neither
starts with `#` nor is `macdef`, parsed with an error callback that never asks
to stop: the parse runs to completion and never calls the entry callback; the
log consists of errors other than missing-host on line 1, followed by exactly
one missing-host error at line 1, column 0. -/
theorem C5_line_without_host {σ : Type} (cb : Handlers σ) (arg : σ) (x : Tok) (xs : List Tok)
    (trail : List Nat) (hwf : ∀ y ∈ x :: xs, y.wf ∧ y.no_host) (hsp : ∀ y ∈ xs, y.sp ≠ [])
    (hfirst : x.tok.head? ≠ some 35 ∧ x.tok ≠ ascii "macdef") (hb : Blank trail)
    (hgo : ∀ t l c a, (cb.error_callback t l c a).1 = false) :
    (∀ (τ : Type) (cb2 : Handlers τ) (arg2 : τ) (m : List Nat) (e : authinfo_parse_entry_t)
      (b : Bool), Call.entry e b ∈ (authinfo_parse cb2 m arg2).2.calls → e.host ≠ none) ∧
    (authinfo_parse cb (cstr (render_toks (x :: xs) ++ trail ++ [10])) arg).1 =
      Outcome.finished ∧
    (∀ e b, Call.entry e b ∉
      (authinfo_parse cb (cstr (render_toks (x :: xs) ++ trail ++ [10])) arg).2.calls) ∧
    ∃ errs, ErrsOn cb 1 errs ∧
      (authinfo_parse cb (cstr (render_toks (x :: xs) ++ trail ++ [10])) arg).2.calls =
        errs ++ [Call.error AUTHINFO_PET_MISSING_HOST 1 0 false] := by
  refine ⟨fun τ cb2 arg2 m e b hm => run_hosts_present cb2 m _ (init arg2)
    (by intro e1 b1 h1; simp [init] at h1) e b hm, ?_⟩
  obtain ⟨-, hfin, errs, b, herrs, hcalls⟩ :=
    parse_line_without_host cb arg x xs trail hwf hsp hfirst hb
  have hflag : ∀ c ∈ errs, ∃ t col, c = Call.error t 1 col false := by
    intro c hc
    obtain ⟨t, col, a, h1, -⟩ := herrs c hc
    rw [hgo] at h1
    exact ⟨t, col, h1⟩
  rcases hcalls with hcalls | ⟨-, ty, col, hmem⟩
  · have hb0 : b = false := by
      obtain ⟨a, ha⟩ := parse_answers cb (cstr (render_toks (x :: xs) ++ trail ++ [10])) arg
        (Call.error AUTHINFO_PET_MISSING_HOST 1 0 b) (by rw [hcalls]; simp)
      rw [ha, hgo]
    subst hb0
    refine ⟨hfin, fun e b hmem => ?_, errs, herrs, hcalls⟩
    rw [hcalls] at hmem
    rcases List.mem_append.mp hmem with h1 | h1
    · obtain ⟨t, col, h2⟩ := hflag _ h1
      simp at h2
    · simp at h1
  · obtain ⟨t, col2, h1⟩ := hflag _ hmem
    simp at h1

/-- Witness of C5 (amended) on `force yes\n`. -/
theorem C5_line_without_host_witness :
    (authinfo_parse go_on (cstr (ascii "force yes\n")) ()).1 = Outcome.finished ∧
    (∀ e b, Call.entry e b ∉ (authinfo_parse go_on (cstr (ascii "force yes\n")) ()).2.calls) ∧
    ∃ errs, ErrsOn go_on 1 errs ∧
      (authinfo_parse go_on (cstr (ascii "force yes\n")) ()).2.calls =
        errs ++ [Call.error AUTHINFO_PET_MISSING_HOST 1 0 false] :=
  (C5_line_without_host go_on () ⟨[], ascii "force"⟩ [⟨[32], ascii "yes"⟩] [] (by decide)
    (by decide) (by decide) (by decide) (fun _ _ _ _ => rfl)).2

/-- C6: a line whose first token is `default`, followed by well-formed pairs
that give each of user, password, protocol and force at most once and do not
name the host.  The parse runs to completion and makes exactly one call: the
entry callback, with the fields of the pairs and a host that is present and
equal to the empty string; no error is reported. -/
theorem C6_default_first {σ : Type} (cb : Handlers σ) (arg : σ) (sp : List Nat)
    (ps : List Pair) (trail : List Nat) (hsp : Blank sp) (hc : Clean default_entry ps)
    (hs : ∀ q ∈ ps, q.sp1 ≠ []) (hb : Blank trail) :
    (authinfo_parse cb (cstr (sp ++ ascii "default" ++ render ps ++ trail ++ [10])) arg).1 =
      Outcome.finished ∧
    (authinfo_parse cb (cstr (sp ++ ascii "default" ++ render ps ++ trail ++ [10])) arg).2.calls =
      [Call.entry (entry_of default_entry ps)
        (cb.entry_callback (entry_of default_entry ps) arg).1] ∧
    (entry_of default_entry ps).host = some [] := by
  set mem := cstr (sp ++ ascii "default" ++ render ps ++ trail ++ [10]) with hmem
  have hhost : (entry_of default_entry ps).host = some [] := entry_of_host hc rfl
  have htd : TokenBytes (ascii "default") ∧ ascii "default" ≠ [] ∧
      (ascii "default").length < TOKEN_SIZE_MAX ∧ (ascii "default").head? ≠ some 35 ∧
      ascii "default" ≠ ascii "macdef" ∧ (ascii "default").length = 7 := by decide
  obtain ⟨ht, hne, hl, hnc, hnm, hl7⟩ := htd
  have hdel : StartsDelim (render ps ++ (trail ++ [10, 0])) :=
    starts_delim_render hc hs (starts_delim_trail hb)
  have h0 : mem.drop 0 = sp ++ (ascii "default" ++ (render ps ++ (trail ++ [10, 0]))) := by
    simp [hmem, cstr]
  have r1 := Reach.step rfl (body_line_start cb 1 0 empty_entry arg [] h0 hsp ht hne hdel hnc hnm)
  rw [← init_eq] at r1
  have h1 : mem.drop (0 + sp.length) =
      [] ++ (ascii "default" ++ (render ps ++ (trail ++ [10, 0]))) := drop_add_of_drop_eq h0
  have r2 := Reach.step rfl (body_keyword cb 1 ((0 + sp.length) % UINT_RANGE) empty_entry arg []
    h1 (by simp [Blank]) ht hne hdel hl)
  rw [keyword_arm_default] at r2
  have r2b : Reach cb mem 1
      ⟨0 + sp.length, 1, (0 + sp.length) % UINT_RANGE, empty_entry, false, WAITING_NEXT_PAIR,
        arg, []⟩
      ⟨0 + sp.length + ([] : List Nat).length + (ascii "default").length, 1,
        ((0 + sp.length) % UINT_RANGE + ([] : List Nat).length + (ascii "default").length) %
          UINT_RANGE, default_entry, false, WAITING_NEXT_PAIR, arg, []⟩ := r2
  have h2 : mem.drop (0 + sp.length + ([] : List Nat).length + (ascii "default").length) =
      render ps ++ (trail ++ [10, 0]) := drop_add_of_drop_eq (drop_add_of_drop_eq h1)
  have r3 := reach_pairs cb 1 arg [] ps
    (0 + sp.length + ([] : List Nat).length + (ascii "default").length)
    (((0 + sp.length) % UINT_RANGE + ([] : List Nat).length + (ascii "default").length) %
      UINT_RANGE) default_entry (Nat.mod_lt _ (by decide)) h2
    (starts_delim_trail hb) hc (fun q hq => hs q (List.mem_of_mem_tail hq))
  obtain ⟨s1, r4, hstop, hcalls⟩ := reach_last_pair cb 1
    ((((0 + sp.length) % UINT_RANGE + ([] : List Nat).length + (ascii "default").length) %
      UINT_RANGE + (render ps).length) % UINT_RANGE) (entry_of default_entry ps) arg []
    (drop_add_of_drop_eq h2) hb
  have hlen : 1 + 1 + 2 * ps.length + 2 ≤ 2 * mem.length + 2 := by
    have h3 := render_length_ge hc
    simp only [hmem, cstr, List.length_append, List.length_cons, List.length_nil, hl7] at *
    omega
  have hfin := parse_of_reach (Reach.trans (Reach.trans (Reach.trans r1 r2b) r3) r4) hlen hstop
  rw [hfin]
  refine ⟨rfl, ?_, hhost⟩
  simpa [report_call, report_result, hhost] using hcalls

/-- Witness of C6 on `default login bob force yes\n`. -/
theorem C6_default_first_witness :
    (authinfo_parse go_on (cstr (ascii "default login bob force yes\n")) ()).1 =
      Outcome.finished ∧
    (authinfo_parse go_on (cstr (ascii "default login bob force yes\n")) ()).2.calls =
      [Call.entry ⟨some [], none, some (ascii "bob"), none, true⟩ false] ∧
    (entry_of default_entry [⟨[32], ascii "login", [32], ascii "bob"⟩,
      ⟨[32], ascii "force", [32], ascii "yes"⟩]).host = some [] :=
  C6_default_first go_on () [] [⟨[32], ascii "login", [32], ascii "bob"⟩,
    ⟨[32], ascii "force", [32], ascii "yes"⟩] [] (by decide) (by decide) (by decide) (by decide)

/-- C7: the parser waits for the value of a text field (host, user, password
or protocol) and the next token is `v`.  If `v` is at most 127 bytes long (in
particular exactly 127) the iteration makes no call and the field holds `v`
verbatim, unless it held a value already, which it keeps.  If `v` is 128 bytes
or longer the iteration reports exactly one value-too-long error and leaves the
entry as it was.  In both cases the cursor is past `v` and the state is
`WAITING_NEXT_PAIR`, so the next token is read as a keyword. -/
theorem C7_value_length_limit {σ : Type} (cb : Handlers σ) (mem ws v rest : List Nat)
    (data line column : Nat) (entry : authinfo_parse_entry_t) (arg : σ) (calls : List Call)
    (k : Key) (hk : k ≠ Key.force) (h : mem.drop data = ws ++ (v ++ rest)) (hws : Blank ws)
    (hv : TokenBytes v ∧ v ≠ []) (hr : StartsDelim rest) :
    loop_body cb mem ⟨data, line, column, entry, false, k.state, arg, calls⟩ =
      Exec.ok
        (if v.length ≤ 127 then
          ⟨data + ws.length + v.length, line, (column + ws.length + v.length) % UINT_RANGE,
            k.assign v entry, false, WAITING_NEXT_PAIR, arg, calls⟩
        else
          ⟨data + ws.length + v.length, line, (column + ws.length + v.length) % UINT_RANGE,
            entry, (cb.error_callback AUTHINFO_PET_VALUE_TOO_LONG line column arg).1,
            WAITING_NEXT_PAIR, (cb.error_callback AUTHINFO_PET_VALUE_TOO_LONG line column arg).2,
            calls ++ [Call.error AUTHINFO_PET_VALUE_TOO_LONG line column
              (cb.error_callback AUTHINFO_PET_VALUE_TOO_LONG line column arg).1]⟩) ∧
    Key.text (k.assign v entry) k = some ((Key.text entry k).getD v) := by
  constructor
  · by_cases hl : v.length ≤ 127
    · have hl2 : v.length < TOKEN_SIZE_MAX := by simp [TOKEN_SIZE_MAX]; omega
      rw [body_value cb line column entry arg calls (state_value k) h hws hv.1 hv.2 hr hl2,
        value_arm_key cb _ _ _ _ _ _ _ (fun hkf => absurd hkf hk)]
      simp [hl]
    · have hl2 : TOKEN_SIZE_MAX ≤ v.length := by simp [TOKEN_SIZE_MAX]; omega
      rw [body_value_long cb line column entry arg calls (state_value k) h hws hv.1 hr hl2]
      simp [hl]
  · cases entry with
    | mk host protocol user password force =>
      cases k
      · cases host <;> simp [Key.assign, Key.text]
      · cases user <;> simp [Key.assign, Key.text]
      · cases password <;> simp [Key.assign, Key.text]
      · exact absurd rfl hk
      · cases protocol <;> simp [Key.assign, Key.text]

set_option maxRecDepth 8000 in
/-- Witness of C7: the value of `password` is a token of 128 bytes. -/
theorem C7_value_length_limit_witness :
    loop_body go_on (cstr (ascii "password " ++ List.replicate 128 120 ++ [10]))
        ⟨8, 1, 8, empty_entry, false, Key.password.state, (), []⟩ =
      Exec.ok
        (if (List.replicate 128 120).length ≤ 127 then
          ⟨8 + [32].length + (List.replicate 128 120).length, 1,
            (8 + [32].length + (List.replicate 128 120).length) % UINT_RANGE,
            Key.password.assign (List.replicate 128 120) empty_entry, false, WAITING_NEXT_PAIR,
            (), []⟩
        else
          ⟨8 + [32].length + (List.replicate 128 120).length, 1,
            (8 + [32].length + (List.replicate 128 120).length) % UINT_RANGE,
            empty_entry, (go_on.error_callback AUTHINFO_PET_VALUE_TOO_LONG 1 8 ()).1,
            WAITING_NEXT_PAIR, (go_on.error_callback AUTHINFO_PET_VALUE_TOO_LONG 1 8 ()).2,
            [] ++ [Call.error AUTHINFO_PET_VALUE_TOO_LONG 1 8
              (go_on.error_callback AUTHINFO_PET_VALUE_TOO_LONG 1 8 ()).1]⟩) ∧
    Key.text (Key.password.assign (List.replicate 128 120) empty_entry) Key.password =
      some ((Key.text empty_entry Key.password).getD (List.replicate 128 120)) :=
  C7_value_length_limit go_on (cstr (ascii "password " ++ List.replicate 128 120 ++ [10]))
    [32] (List.replicate 128 120) [10, 0] 8 1 8 empty_entry () [] Key.password (by decide)
    (by decide) (by decide) (by decide) (by decide)

/-- C8: for every buffer and all callbacks, an entry call that was answered
with a stop request is the last call of the whole parse, whatever follows in
the buffer, and the parse returns. -/
theorem C8_stop_after_record {σ : Type} (cb : Handlers σ) (mem : List Nat) (arg : σ)
    (pre post : List Call) (e : authinfo_parse_entry_t)
    (h : (authinfo_parse cb mem arg).2.calls = pre ++ Call.entry e true :: post) :
    post = [] ∧ (authinfo_parse cb mem arg).1 = Outcome.finished := by
  have hinit : StopsAtEntry (init arg).calls (init arg).stop := by
    intro a b c habc
    simp [init] at habc
  have hinv := run_stops_at_entry cb mem (2 * mem.length + 2) (init arg) hinit
  obtain ⟨hp, hs⟩ := hinv pre e post h
  exact ⟨hp, run_finished_of_stop cb mem _ _ hs⟩

/-- Witness of C8: the callbacks ask to stop at every call; of the two records
of `machine a\nmachine b\n` only the first is reported. -/
theorem C8_stop_after_record_witness :
    (authinfo_parse halt (cstr (ascii "machine a\nmachine b\n")) ()).2.calls =
      [] ++ Call.entry ⟨some (ascii "a"), none, none, none, false⟩ true :: [] ∧
    (([] : List Call) = [] ∧
      (authinfo_parse halt (cstr (ascii "machine a\nmachine b\n")) ()).1 = Outcome.finished) :=
  ⟨by decide, C8_stop_after_record halt (cstr (ascii "machine a\nmachine b\n")) () [] []
    ⟨some (ascii "a"), none, none, none, false⟩ (by decide)⟩

/-- C9 (code defect): the error callback asks to stop at every call.  On
`force no\n` its answer to the bad-value error is dropped and it is called
again with missing-host; on `machine a password\n` its answer to the
missing-value error is overwritten by `case LINE_END`, which calls the entry
callback. -/
theorem C9_stop_request_ignored :
    (authinfo_parse halt (cstr (ascii "force no\n")) ()).2.calls =
      [Call.error AUTHINFO_PET_BAD_VALUE 1 5 true,
       Call.error AUTHINFO_PET_MISSING_HOST 1 0 true] ∧
    (authinfo_parse halt (cstr (ascii "machine a password\n")) ()).2.calls =
      [Call.error AUTHINFO_PET_MISSING_VALUE 1 18 true,
       Call.entry ⟨some (ascii "a"), none, none, none, false⟩ true] := by
  decide

/-- C10 (code defect): on `machine a machine b\n` the second `machine` starts at
byte 10 of the line, after the blank at byte 9, and the duplicate-keyword error
carries column 9: `token_column` is taken before the blanks are skipped. -/
theorem C10_column_before_blanks :
    (authinfo_parse go_on (cstr (ascii "machine a machine b\n")) ()).2.calls =
      [Call.error AUTHINFO_PET_DUPLICATED_KEYWORD 1 9 false,
       Call.entry ⟨some (ascii "a"), none, none, none, false⟩ false] ∧
    (ascii "machine a machine b\n").take 10 = ascii "machine a " ∧
    (ascii "machine a machine b\n").drop 10 = ascii "machine b\n" := by
  decide

/-- C11: a comment line (blanks `w`, `#`, a text `t` that contains neither a
newline nor a NUL, a newline) followed by any buffer `R`.  The first iteration
skips the line, calls no handler and leaves the cursor at the start of `R`, on
line 2.  The calls of the whole parse are the calls of the parse of `R` with
every error line number advanced by 1: in `unsigned int` arithmetic for every
`R`, and by plain addition when `R` is shorter than `2 ^ 32 - 2` bytes.  The
handlers of the parse of `R` are given the advanced line numbers; the two
parses end the same way and leave the same `arg`.  For handlers that do not
look at the line number, the parse of `R` is the one by the same handlers. -/
theorem C11_comment_line {σ : Type} (cb : Handlers σ) (arg : σ) (w t R : List Nat)
    (hw : Blank w) (ht : ∀ c ∈ t, c ≠ 10 ∧ c ≠ 0) :
    loop_body cb (cstr (w ++ 35 :: t ++ 10 :: R)) (init arg) =
        Exec.ok ⟨w.length + t.length + 2, 2, 0, empty_entry, false, LINE_START, arg, []⟩ ∧
      (authinfo_parse cb (cstr (w ++ 35 :: t ++ 10 :: R)) arg).2.calls =
        (authinfo_parse (cb.shift 1) (cstr R) arg).2.calls.map (Call.shift 1) ∧
      (R.length + 2 < UINT_RANGE →
        (authinfo_parse cb (cstr (w ++ 35 :: t ++ 10 :: R)) arg).2.calls =
          (authinfo_parse (cb.shift 1) (cstr R) arg).2.calls.map (Call.advance 1)) ∧
      (authinfo_parse cb (cstr (w ++ 35 :: t ++ 10 :: R)) arg).1 =
        (authinfo_parse (cb.shift 1) (cstr R) arg).1 ∧
      (authinfo_parse cb (cstr (w ++ 35 :: t ++ 10 :: R)) arg).2.arg =
        (authinfo_parse (cb.shift 1) (cstr R) arg).2.arg ∧
      ((∀ ty l l2 c a, cb.error_callback ty l c a = cb.error_callback ty l2 c a) →
        (authinfo_parse cb (cstr (w ++ 35 :: t ++ 10 :: R)) arg).2.calls =
            (authinfo_parse cb (cstr R) arg).2.calls.map (Call.shift 1) ∧
          (R.length + 2 < UINT_RANGE →
            (authinfo_parse cb (cstr (w ++ 35 :: t ++ 10 :: R)) arg).2.calls =
              (authinfo_parse cb (cstr R) arg).2.calls.map (Call.advance 1))) := by
  have hmem : cstr (w ++ 35 :: t ++ 10 :: R) = (w ++ 35 :: t ++ [10]) ++ cstr R := by
    simp [cstr]
  have h0 : (cstr (w ++ 35 :: t ++ 10 :: R)).drop 0 = w ++ (35 :: t ++ 10 :: cstr R) := by
    simp [cstr]
  have hstep := body_comment cb 1 0 empty_entry arg [] h0 hw
    (fun c hc => ⟨(ht c hc).2, (ht c hc).1⟩) (Or.inr rfl)
  rw [← init_eq] at hstep
  have hbody : loop_body cb (cstr (w ++ 35 :: t ++ 10 :: R)) (init arg) =
      Exec.ok ⟨w.length + t.length + 2, 2, 0, empty_entry, false, LINE_START, arg, []⟩ := by
    rw [hstep]
    simp [Nat.add_assoc]
    rfl
  refine ⟨hbody, ?_⟩
  have hreach := Reach.step rfl hbody
  rw [hmem] at hreach ⊢
  obtain ⟨p1, p2, p3, p4⟩ := parse_below cb (w ++ 35 :: t ++ [10]) R arg 1 1 _ _ empty_entry
    hreach (by simp; omega) (by decide)
  refine ⟨p1, fun hlen => ?_, p2, p3, fun hb => ⟨p4 hb, fun hlen => ?_⟩⟩
  · rw [p1, parse_shift_eq_advance _ R arg 1 (by omega)]
  · rw [p4 hb, parse_shift_eq_advance cb R arg 1 (by omega)]

/-- Witness of C11 on ` # note\nfoo\n`: the calls are those of the parse of
`foo\n`, with the line numbers increased by 1. -/
theorem C11_comment_line_witness :
    (authinfo_parse go_on (cstr (ascii " # note\nfoo\n")) ()).2.calls =
      (authinfo_parse (go_on.shift 1) (cstr (ascii "foo\n")) ()).2.calls.map (Call.advance 1) :=
  (C11_comment_line go_on () [32] (ascii " note") (ascii "foo\n") (by decide)
    (by decide)).2.2.1 (by decide)

/-- C12: a macro definition (blanks `w`, the token `macdef`, a rest of line
`tail` that is empty or starts with a blank, a newline, the body lines `ls`,
each with at least one byte before its newline, and an empty line) followed by
any buffer `R`.  Two iterations consume the block: they call no handler and
leave the cursor at the start of `R`, `ls.length + 2` lines down.  The calls
of the whole parse are the calls of the parse of `R` with every error line
number advanced by `ls.length + 2`: in `unsigned int` arithmetic for every
`R`, and by plain addition when the line numbers stay below `2 ^ 32`.  The
handlers of the parse of `R` are given the advanced line numbers; the two
parses end the same way.  For handlers that do not look at the line number,
the parse of `R` is the one by the same handlers. -/
theorem C12_macdef_block {σ : Type} (cb : Handlers σ) (arg : σ) (w tail R : List Nat)
    (ls : List (List Nat)) (hw : Blank w) (htail : ∀ c ∈ tail, c ≠ 10 ∧ c ≠ 0)
    (hsep : tail = [] ∨ StartsDelim tail) (hls : ∀ x ∈ ls, BodyLine x) :
    Reach cb (cstr (w ++ ascii "macdef" ++ tail ++ 10 :: unlines ls ++ 10 :: R)) 2 (init arg)
        ⟨(w ++ ascii "macdef" ++ tail ++ 10 :: unlines ls ++ [10]).length,
          (1 + (ls.length + 2)) % UINT_RANGE, 0, empty_entry, false, LINE_START, arg, []⟩ ∧
      (authinfo_parse cb (cstr (w ++ ascii "macdef" ++ tail ++ 10 :: unlines ls ++ 10 :: R))
          arg).2.calls =
        (authinfo_parse (cb.shift (ls.length + 2)) (cstr R) arg).2.calls.map
          (Call.shift (ls.length + 2)) ∧
      (R.length + 1 + (ls.length + 2) < UINT_RANGE →
        (authinfo_parse cb (cstr (w ++ ascii "macdef" ++ tail ++ 10 :: unlines ls ++ 10 :: R))
            arg).2.calls =
          (authinfo_parse (cb.shift (ls.length + 2)) (cstr R) arg).2.calls.map
            (Call.advance (ls.length + 2))) ∧
      (authinfo_parse cb (cstr (w ++ ascii "macdef" ++ tail ++ 10 :: unlines ls ++ 10 :: R))
          arg).1 =
        (authinfo_parse (cb.shift (ls.length + 2)) (cstr R) arg).1 ∧
      ((∀ ty l l2 c a, cb.error_callback ty l c a = cb.error_callback ty l2 c a) →
        (authinfo_parse cb (cstr (w ++ ascii "macdef" ++ tail ++ 10 :: unlines ls ++ 10 :: R))
              arg).2.calls =
            (authinfo_parse cb (cstr R) arg).2.calls.map (Call.shift (ls.length + 2)) ∧
          (R.length + 1 + (ls.length + 2) < UINT_RANGE →
            (authinfo_parse cb
                (cstr (w ++ ascii "macdef" ++ tail ++ 10 :: unlines ls ++ 10 :: R))
                arg).2.calls =
              (authinfo_parse cb (cstr R) arg).2.calls.map (Call.advance (ls.length + 2)))) := by
  have hmem : cstr (w ++ ascii "macdef" ++ tail ++ 10 :: unlines ls ++ 10 :: R) =
      (w ++ ascii "macdef" ++ tail ++ 10 :: unlines ls ++ [10]) ++ cstr R := by
    simp [cstr]
  have h0 : (cstr (w ++ ascii "macdef" ++ tail ++ 10 :: unlines ls ++ 10 :: R)).drop 0 =
      w ++ (ascii "macdef" ++ (tail ++ 10 :: (unlines ls ++ 10 :: cstr R))) := by
    simp [cstr]
  have hstep := body_macdef cb ls 1 0 empty_entry arg [] h0 hw
    (fun c hc => ⟨(htail c hc).2, (htail c hc).1⟩) hsep hls
  rw [← init_eq] at hstep
  have h1 : (cstr (w ++ ascii "macdef" ++ tail ++ 10 :: unlines ls ++ 10 :: R)).drop
      (0 + w.length + (6 + tail.length + 1 + (unlines ls).length)) = [] ++ 10 :: cstr R := by
    have h6 : (ascii "macdef").length = 6 := by decide
    have := drop_add_of_drop_eq (by simpa using h0 :
      (cstr (w ++ ascii "macdef" ++ tail ++ 10 :: unlines ls ++ 10 :: R)).drop 0 =
        (w ++ ascii "macdef" ++ tail ++ 10 :: unlines ls) ++ (10 :: cstr R))
    simp only [List.length_append, List.length_cons, h6] at this
    rw [← this]
    congr 1
    omega
  have hstep2 := body_empty_line cb ((1 + (ls.length + 1)) % UINT_RANGE) 0 empty_entry arg []
    h1 (by simp [Blank])
  have hreach := Reach.trans (Reach.step rfl hstep) (Reach.step rfl hstep2)
  have hl : ((1 + (ls.length + 1)) % UINT_RANGE + 1) % UINT_RANGE =
      (1 + (ls.length + 2)) % UINT_RANGE := line_add 1 (ls.length + 1) 1
  have hd : 0 + w.length + (6 + tail.length + 1 + (unlines ls).length) + ([] : List Nat).length
      + 1 = (w ++ ascii "macdef" ++ tail ++ 10 :: unlines ls ++ [10]).length := by
    have h6 : (ascii "macdef").length = 6 := by decide
    simp only [List.length_append, List.length_cons, List.length_nil, h6]
    omega
  rw [hl, hd] at hreach
  refine ⟨hreach, ?_⟩
  rw [hmem] at hreach ⊢
  obtain ⟨p1, p2, -, p4⟩ := parse_below cb (w ++ ascii "macdef" ++ tail ++ 10 :: unlines ls ++ [10])
    R arg (ls.length + 2) 2 _ _ empty_entry hreach rfl rfl
  refine ⟨p1, fun hlen => ?_, p2, fun hb => ⟨p4 hb, fun hlen => ?_⟩⟩
  · rw [p1, parse_shift_eq_advance _ R arg _ hlen]
  · rw [p4 hb, parse_shift_eq_advance cb R arg _ hlen]

/-- Witness of C12: a macro definition with two body lines, then `foo\n`. -/
theorem C12_macdef_block_witness :
    (authinfo_parse go_on (cstr (ascii "macdef m 1\nmachine a\n b\n\nfoo\n")) ()).2.calls =
      (authinfo_parse (go_on.shift 4) (cstr (ascii "foo\n")) ()).2.calls.map (Call.advance 4) :=
  (C12_macdef_block go_on () [] (ascii " m 1") (ascii "foo\n") [ascii "machine a", ascii " b"]
    (by decide) (by decide) (by decide) (by decide)).2.2.1 (by decide)

/-- C13 (code defect): the loop itself always ends, no parse uses up the bound
on its iterations; but it need not end at the end of the buffer.  On
`macdef x\nbody`, a macro definition that no empty line ends, the loop of
`authinfo_skip_macdef` skips the last line, steps over the terminating NUL
(offset 13) and reads the byte behind it: the parse ends in an out-of-bounds
read during its first iteration. -/
theorem C13_unterminated_macdef_overruns :
    (∀ (σ : Type) (cb : Handlers σ) (mem : List Nat) (arg : σ),
      (authinfo_parse cb mem arg).1 ≠ Outcome.exhausted) ∧
      (ascii "macdef x\nbody").length = 13 ∧
      authinfo_skip_line (cstr (ascii "macdef x\nbody")) 9 2 = some (14, 3, 0) ∧
      load (cstr (ascii "macdef x\nbody")) 14 = none ∧
      authinfo_skip_macdef (cstr (ascii "macdef x\nbody")) 0 1 0 = Exec.fault ∧
      (authinfo_parse go_on (cstr (ascii "macdef x\nbody")) ()).1 = Outcome.overrun ∧
      (authinfo_parse go_on (cstr (ascii "macdef x\nbody")) ()).2.data = 0 :=
  ⟨fun _ cb mem arg => parse_not_exhausted cb mem arg, by decide⟩

set_option maxRecDepth 8000 in
/-- C14 (counterexample): the value of `force` is a token of 128 bytes; the
error reported for it is value-too-long, not bad-value. -/
theorem C14_long_force_value :
    (authinfo_parse go_on (cstr (ascii "machine a force " ++ List.replicate 128 120 ++ [10]))
        ()).2.calls =
      [Call.error AUTHINFO_PET_VALUE_TOO_LONG 1 15 false,
       Call.entry ⟨some (ascii "a"), none, none, none, false⟩ false] := by
  decide

/-- C14 (amended): the parser waits for the value of `force` and the next token
is `v`.  If `v` is 128 bytes or longer, exactly one value-too-long error is
reported and the entry is unchanged.  Otherwise `force` becomes true when `v`
is exactly `yes` and no call is made; for any other `v` exactly one bad-value
error is reported and the entry, `force` included, is unchanged.  In every
case the cursor is past `v` and the state is `WAITING_NEXT_PAIR`, so the next
token is read as a keyword. -/
theorem C14_force_value {σ : Type} (cb : Handlers σ) (mem ws v rest : List Nat)
    (data line column : Nat) (entry : authinfo_parse_entry_t) (arg : σ) (calls : List Call)
    (h : mem.drop data = ws ++ (v ++ rest)) (hws : Blank ws) (hv : TokenBytes v ∧ v ≠ [])
    (hr : StartsDelim rest) :
    loop_body cb mem ⟨data, line, column, entry, false, WAITING_FORCE, arg, calls⟩ =
      Exec.ok
        (if 128 ≤ v.length then
          ⟨data + ws.length + v.length, line, (column + ws.length + v.length) % UINT_RANGE,
            entry, (cb.error_callback AUTHINFO_PET_VALUE_TOO_LONG line column arg).1,
            WAITING_NEXT_PAIR, (cb.error_callback AUTHINFO_PET_VALUE_TOO_LONG line column arg).2,
            calls ++ [Call.error AUTHINFO_PET_VALUE_TOO_LONG line column
              (cb.error_callback AUTHINFO_PET_VALUE_TOO_LONG line column arg).1]⟩
        else if v = ascii "yes" then
          ⟨data + ws.length + v.length, line, (column + ws.length + v.length) % UINT_RANGE,
            { entry with force := true }, false, WAITING_NEXT_PAIR, arg, calls⟩
        else
          ⟨data + ws.length + v.length, line, (column + ws.length + v.length) % UINT_RANGE,
            entry, false, WAITING_NEXT_PAIR,
            (cb.error_callback AUTHINFO_PET_BAD_VALUE line column arg).2,
            calls ++ [Call.error AUTHINFO_PET_BAD_VALUE line column
              (cb.error_callback AUTHINFO_PET_BAD_VALUE line column arg).1]⟩) := by
  have hst : ValueState WAITING_FORCE := by simp [ValueState]
  by_cases hl : 128 ≤ v.length
  · rw [body_value_long cb line column entry arg calls hst h hws hv.1 hr
      (by simpa [TOKEN_SIZE_MAX] using hl)]
    simp [hl]
  · rw [body_value cb line column entry arg calls hst h hws hv.1 hv.2 hr
      (by simp [TOKEN_SIZE_MAX]; omega)]
    rw [if_neg hl]
    by_cases hy : v = ascii "yes"
    · rw [if_pos hy]; simp [value_arm, hy]
    · rw [if_neg hy]; simp [value_arm, hy, authinfo_report_error]

/-- Witness of C14 (amended): `force Yes` is a bad value. -/
theorem C14_force_value_witness :
    loop_body go_on (cstr (ascii "force Yes\n"))
        ⟨5, 1, 5, empty_entry, false, WAITING_FORCE, (), []⟩ =
      Exec.ok ⟨9, 1, 9, empty_entry, false, WAITING_NEXT_PAIR, (),
        [Call.error AUTHINFO_PET_BAD_VALUE 1 5 false]⟩ :=
  C14_force_value go_on (cstr (ascii "force Yes\n")) [32] (ascii "Yes") [10, 0] 5 1 5
    empty_entry () [] (by decide) (by decide) (by decide) (by decide)

/-- C15: the parser waits for a keyword and the next token `t` has at most 127
bytes.  The table `keyword` holds exactly `machine`, `host` (host), `login`,
`user`, `account` (user), `password`, `port`, `protocol` (protocol) and `force`,
compared byte by byte.  A token of the table moves the parser to the state that
awaits the value of its field and leaves the entry alone; `default` sets the
host to the empty string and leaves the parser waiting for a keyword; both
report a duplicate-keyword error when the field was given before.  Every other
token reports exactly one bad-keyword error, leaves the entry alone and leaves
the parser waiting for a keyword. -/
theorem C15_keyword_table {σ : Type} (cb : Handlers σ) (mem ws t rest : List Nat)
    (data line column : Nat) (entry : authinfo_parse_entry_t) (arg : σ) (calls : List Call)
    (h : mem.drop data = ws ++ (t ++ rest)) (hws : Blank ws)
    (ht : TokenBytes t ∧ t ≠ [] ∧ t.length ≤ 127) (hr : StartsDelim rest) :
    ((keyword t = some Key.host ↔ t = ascii "machine" ∨ t = ascii "host") ∧
      (keyword t = some Key.user ↔ t = ascii "login" ∨ t = ascii "user" ∨ t = ascii "account") ∧
      (keyword t = some Key.password ↔ t = ascii "password") ∧
      (keyword t = some Key.protocol ↔ t = ascii "port" ∨ t = ascii "protocol") ∧
      (keyword t = some Key.force ↔ t = ascii "force")) ∧
    loop_body cb mem ⟨data, line, column, entry, false, WAITING_NEXT_PAIR, arg, calls⟩ =
      Exec.ok
        (if t = ascii "default" then
          (if entry.host.isSome then
            ⟨data + ws.length + t.length, line, (column + ws.length + t.length) % UINT_RANGE,
              { entry with host := some [] },
              (cb.error_callback AUTHINFO_PET_DUPLICATED_KEYWORD line column arg).1,
              WAITING_NEXT_PAIR,
              (cb.error_callback AUTHINFO_PET_DUPLICATED_KEYWORD line column arg).2,
              calls ++ [Call.error AUTHINFO_PET_DUPLICATED_KEYWORD line column
                (cb.error_callback AUTHINFO_PET_DUPLICATED_KEYWORD line column arg).1]⟩
          else
            ⟨data + ws.length + t.length, line, (column + ws.length + t.length) % UINT_RANGE,
              { entry with host := some [] }, false, WAITING_NEXT_PAIR, arg, calls⟩)
        else
          match keyword t with
          | some k =>
            if k.given entry then
              ⟨data + ws.length + t.length, line, (column + ws.length + t.length) % UINT_RANGE,
                entry, (cb.error_callback AUTHINFO_PET_DUPLICATED_KEYWORD line column arg).1,
                k.state, (cb.error_callback AUTHINFO_PET_DUPLICATED_KEYWORD line column arg).2,
                calls ++ [Call.error AUTHINFO_PET_DUPLICATED_KEYWORD line column
                  (cb.error_callback AUTHINFO_PET_DUPLICATED_KEYWORD line column arg).1]⟩
            else
              ⟨data + ws.length + t.length, line, (column + ws.length + t.length) % UINT_RANGE,
                entry, false, k.state, arg, calls⟩
          | none =>
            ⟨data + ws.length + t.length, line, (column + ws.length + t.length) % UINT_RANGE,
              entry, (cb.error_callback AUTHINFO_PET_BAD_KEYWORD line column arg).1,
              WAITING_NEXT_PAIR, (cb.error_callback AUTHINFO_PET_BAD_KEYWORD line column arg).2,
              calls ++ [Call.error AUTHINFO_PET_BAD_KEYWORD line column
                (cb.error_callback AUTHINFO_PET_BAD_KEYWORD line column arg).1]⟩) := by
  constructor
  · unfold keyword
    refine ⟨?_, ?_, ?_, ?_, ?_⟩
    all_goals
      constructor
      · intro hk
        split_ifs at hk <;> simp_all
      · intro hk
        first
          | (rcases hk with hk | hk | hk <;> subst hk <;> decide)
          | (rcases hk with hk | hk <;> subst hk <;> decide)
          | (subst hk; decide)
  · rw [body_keyword cb line column entry arg calls h hws ht.1 ht.2.1 hr
      (by simp [TOKEN_SIZE_MAX]; omega)]
    by_cases hd : t = ascii "default"
    · subst hd
      rw [keyword_arm_default]
      simp
    · cases hk : keyword t with
      | none => rw [keyword_arm_bad cb _ _ _ _ _ _ _ hk hd]; simp [hd]
      | some k => rw [keyword_arm_key cb _ _ _ _ _ _ _ hk]; simp [hd]

/-- Witness of C15: the comparison is case-sensitive, `Machine` is not a
keyword. -/
theorem C15_keyword_table_witness :
    loop_body go_on (cstr (ascii "Machine a\n"))
        ⟨0, 1, 0, empty_entry, false, WAITING_NEXT_PAIR, (), []⟩ =
      Exec.ok ⟨7, 1, 7, empty_entry, false, WAITING_NEXT_PAIR, (),
        [Call.error AUTHINFO_PET_BAD_KEYWORD 1 0 false]⟩ :=
  (C15_keyword_table go_on (cstr (ascii "Machine a\n")) [] (ascii "Machine")
    (ascii " a\n" ++ [0]) 0 1 0 empty_entry () [] (by decide) (by decide) (by decide)
    (by decide)).2

/-- C16: `authinfo_next_token` with the cursor at offset `p` of a buffer that
holds a NUL at or after `p`.  Let `n` be the length of the longest prefix of
the string at `p` without space, tab, newline or NUL.  The cursor moves by `n`,
the column by `n` in `unsigned int` arithmetic; for `n ≤ 127` the call succeeds
and the token is that prefix, for `n ≥ 128` it fails.  No byte is special but
these four: a quote is part of the token. -/
theorem C16_next_token (mem : List Nat) (p column : Nat) (h : 0 ∈ mem.drop p) :
    authinfo_next_token mem p column =
      some (p + (token_run (mem.drop p)).length,
        (column + (token_run (mem.drop p)).length) % UINT_RANGE,
        if (token_run (mem.drop p)).length ≤ 127 then some (token_run (mem.drop p))
        else none) := by
  have hs := strcspn_scan_takeWhile [32, 9, 10] (mem.drop p) ⟨0, h, Or.inl rfl⟩
  have ht := take_length_takeWhile (fun c => decide (¬(c = 0 ∨ c ∈ [32, 9, 10]))) (mem.drop p)
  unfold authinfo_next_token strcspn token_run
  rw [hs]
  simp only [ht, TOKEN_SIZE_MAX]
  generalize List.takeWhile (fun c => decide (¬(c = 0 ∨ c ∈ [32, 9, 10]))) (mem.drop p) = tk
  split_ifs <;> first | rfl | (exfalso; omega)

/-- Witness of C16: the token at offset 6 of `login "a b"\n` is the two bytes
`"a`; the quote does not keep the space inside the token. -/
theorem C16_next_token_witness :
    authinfo_next_token (cstr (ascii "login " ++ [34, 97, 32, 98, 34, 10])) 6 6 =
      some (6 + (token_run ((cstr (ascii "login " ++ [34, 97, 32, 98, 34, 10])).drop 6)).length,
        (6 + (token_run ((cstr (ascii "login " ++ [34, 97, 32, 98, 34, 10])).drop 6)).length) %
          UINT_RANGE,
        if (token_run ((cstr (ascii "login " ++ [34, 97, 32, 98, 34, 10])).drop 6)).length ≤ 127
        then some (token_run ((cstr (ascii "login " ++ [34, 97, 32, 98, 34, 10])).drop 6))
        else none) ∧
    token_run ((cstr (ascii "login " ++ [34, 97, 32, 98, 34, 10])).drop 6) = [34, 97] :=
  ⟨C16_next_token (cstr (ascii "login " ++ [34, 97, 32, 98, 34, 10])) 6 6 (by decide),
    by decide⟩

/-- C17: the position counters, on a NUL-terminated buffer `cstr text`.  The
locals at the start of an iteration are the ones `Visits` lists; the locals
`authinfo_parse` ends with are among them.  Whenever the cursor is inside the
buffer (at most at the NUL), `line` is 1 plus the number of newlines before the
cursor and `column` is the distance from the start of the line, both as
`unsigned int` values, and exactly so for a buffer shorter than `2 ^ 32`.
Every error an iteration reports carries the line number of that position.
The iteration under the probe is the iteration itself, with a record of the
cursor and the counters at every invocation of the error handler: there is one
record for each error the iteration logs, in the same order, the counters of
every record fit its cursor (exactly so for a buffer shorter than `2 ^ 32`), and
the line number given to the handler is the line counter.
Each of `authinfo_skip_spaces`, `authinfo_next_token`, `authinfo_skip_line`,
`authinfo_skip_comment` and `authinfo_skip_macdef` takes counters that fit the
cursor to counters that fit the new cursor, as long as it stays inside the
buffer. -/
theorem C17_position_counters {σ : Type} (cb : Handlers σ) (arg : σ) (text : List Nat)
    (htext : ∀ c ∈ text, c ≠ 0) :
    Visits cb (cstr text) (init arg) (authinfo_parse cb (cstr text) arg).2 ∧
    (∀ s, Visits cb (cstr text) (init arg) s → s.data ≤ text.length →
      Positioned (cstr text) s.data s.line s.column) ∧
    (text.length + 1 < UINT_RANGE →
      ∀ s, Visits cb (cstr text) (init arg) s → s.data ≤ text.length →
        s.line = line_at (cstr text) s.data ∧ s.column = column_at (cstr text) s.data) ∧
    (∀ s s1, Visits cb (cstr text) (init arg) s → loop_body cb (cstr text) s = Exec.ok s1 →
      ∃ added, s1.calls = s.calls ++ added ∧
        ∀ t l c b, Call.error t l c b ∈ added →
          l = line_at (cstr text) s.data % UINT_RANGE) ∧
    (∀ s pr, Exec.map Prod.fst (loop_body_probed cb (cstr text) s pr) =
      loop_body cb (cstr text) s) ∧
    (∀ s s1, Visits cb (cstr text) (init arg) s → loop_body cb (cstr text) s = Exec.ok s1 →
      ∃ ps, loop_body_probed cb (cstr text) s [] = Exec.ok (s1, ps) ∧
        (∃ added, s1.calls = s.calls ++ added ∧
          added.filter Call.is_error = ps.map Probe.call) ∧
        ∀ x ∈ ps, Positioned (cstr text) x.data x.line x.column ∧
          (text.length + 1 < UINT_RANGE →
            x.line = line_at (cstr text) x.data ∧ x.column = column_at (cstr text) x.data) ∧
          ∃ t c b, x.call = Call.error t x.line c b) ∧
    (∀ p l c p1 c1, Positioned (cstr text) p l c →
      authinfo_skip_spaces (cstr text) p c = some (p1, c1) → Positioned (cstr text) p1 l c1) ∧
    (∀ p l c p1 c1 tok, Positioned (cstr text) p l c →
      authinfo_next_token (cstr text) p c = some (p1, c1, tok) →
      Positioned (cstr text) p1 l c1) ∧
    (∀ p l c p1 l1 c1, Positioned (cstr text) p l c →
      authinfo_skip_line (cstr text) p l = some (p1, l1, c1) → p1 ≤ text.length →
      Positioned (cstr text) p1 l1 c1) ∧
    (∀ p l c p1 l1 c1, Positioned (cstr text) p l c →
      authinfo_skip_comment (cstr text) p l = some (some (p1, l1, c1)) → p1 ≤ text.length →
      Positioned (cstr text) p1 l1 c1) ∧
    (∀ p l c p1 l1 c1, Positioned (cstr text) p l c →
      authinfo_skip_macdef (cstr text) p l c = Exec.ok (some (p1, l1, c1)) →
      p1 ≤ text.length ∧ Positioned (cstr text) p1 l1 c1) := by
  have hline : ∀ p l c p1 l1 c1, Positioned (cstr text) p l c →
      authinfo_skip_line (cstr text) p l = some (p1, l1, c1) → p1 ≤ text.length →
      Positioned (cstr text) p1 l1 c1 := by
    intro p l c p1 l1 c1 hp h hin
    obtain ⟨a, d, r, hdrop, ha, hd, rfl, rfl, rfl⟩ := skip_line_some h
    exact positioned_line_skips htext (LineSkips.one p l a r d hdrop ha hd) hin c hp
  refine ⟨?_, visits_positioned cb arg htext, ?_, ?_, fun s pr => loop_body_erase cb _ s pr, ?_,
    ?_, ?_, hline, ?_, ?_⟩
  · exact visits_run cb (cstr text) (init arg) _ _ Visits.start
  · intro hlen s hv hin
    obtain ⟨h1, h2⟩ := visits_positioned cb arg htext s hv hin
    have h3 := line_at_le (cstr text) s.data
    have h4 := column_at_le (cstr text) s.data
    rw [Nat.mod_eq_of_lt (by omega)] at h1 h2
    exact ⟨h1, h2⟩
  · intro s s1 hv hbody
    have hle : s.data ≤ text.length := by
      obtain ⟨a, d, r, hdrop, -⟩ := body_effect cb (cstr text) s s1 hbody
      have := lt_length_of_drop_cons (by simpa using hdrop :
        (cstr text).drop s.data = a ++ d :: r)
      simp [cstr] at this
      omega
    obtain ⟨added, h1, h2⟩ := body_lines cb (cstr text) s s1 hbody
    refine ⟨added, h1, fun t l c b hc => ?_⟩
    rw [h2 t l c b hc]
    exact (visits_positioned cb arg htext s hv hle).1
  · intro s s1 hv hbody
    obtain ⟨ps, h1, h2, h3⟩ := body_probes cb arg htext s s1 hv hbody
    exact ⟨ps, h1, h2, fun x hx =>
      ⟨(h3 x hx).1, fun hlen => positioned_exact hlen (h3 x hx).1, (h3 x hx).2⟩⟩
  · intro p l c p1 c1 hp h
    obtain ⟨a, d, r, hdrop, ha, -, -, rfl, rfl⟩ := skip_spaces_some h
    refine positioned_within hdrop ?_ hp
    intro x hx
    rcases ha x hx with h1 | h1 <;> subst h1 <;> decide
  · intro p l c p1 c1 tok hp h
    obtain ⟨a, d, r, hdrop, ha, -, rfl, rfl, -⟩ := next_token_some h
    exact positioned_within hdrop (fun x hx => (ha x hx).2.2.2) hp
  · intro p l c p1 l1 c1 hp h hin
    unfold authinfo_skip_comment at h
    rcases h1 : load (cstr text) p with _ | x
    · simp [h1] at h
    · simp only [h1] at h
      split_ifs at h
      · rcases h2 : authinfo_skip_line (cstr text) p l with _ | ⟨q, lq, cq⟩
        · simp [h2] at h
        · simp only [h2, Option.some.injEq, Prod.mk.injEq] at h
          obtain ⟨rfl, rfl, rfl⟩ := h
          exact hline p l c _ _ _ hp h2 hin
      · simp at h
  · intro p l c p1 l1 c1 hp h
    have hin : p1 ≤ text.length := by
      have := skip_macdef_inside h
      simp [cstr] at this
      omega
    obtain ⟨w, rest, hdrop, hw, hs, rfl⟩ := skip_macdef_some h
    have hpw := positioned_within hdrop (fun x hx => (hw x hx).2) hp
    exact ⟨hin, positioned_line_skips htext hs hin _ hpw⟩

/-- Witness of C17 on `machine a\nfoo bar\n`: the parse ends with the cursor
at the NUL, offset 18, on line 3, column 0.  And on `foo\n`, the iteration that
reads `foo` reports a bad keyword at column 0 while the cursor is at offset 3
and the column counter is 3. -/
theorem C17_position_counters_witness :
    Positioned (cstr (ascii "machine a\nfoo bar\n"))
        (authinfo_parse go_on (cstr (ascii "machine a\nfoo bar\n")) ()).2.data
        (authinfo_parse go_on (cstr (ascii "machine a\nfoo bar\n")) ()).2.line
        (authinfo_parse go_on (cstr (ascii "machine a\nfoo bar\n")) ()).2.column ∧
      Exec.map Prod.snd (loop_body_probed go_on (cstr (ascii "foo\n"))
          ⟨0, 1, 0, empty_entry, false, WAITING_NEXT_PAIR, (), []⟩ []) =
        Exec.ok [⟨Call.error AUTHINFO_PET_BAD_KEYWORD 1 0 false, 3, 1, 3⟩] :=
  ⟨(C17_position_counters go_on () (ascii "machine a\nfoo bar\n") (by decide)).2.1 _
    (C17_position_counters go_on () (ascii "machine a\nfoo bar\n") (by decide)).1 (by decide),
    by decide⟩

/-- C18: inside a macro definition, a line `ws` of one or more blanks is a
body line like any other.  With body lines `before` and `after` it (each with
at least one byte before its newline, whatever they look like),
`authinfo_skip_macdef` skips all of them and returns with the cursor on the
first line whose first byte is a newline; the iteration of `authinfo_parse`
that meets the `macdef` line ends there too, without a handler call. -/
theorem C18_blank_line_in_macdef {σ : Type} (cb : Handlers σ) (arg : σ)
    (mem w tail ws rest : List Nat) (before after : List (List Nat)) (data line column : Nat)
    (entry : authinfo_parse_entry_t) (calls : List Call)
    (h : mem.drop data = w ++ (ascii "macdef" ++
      (tail ++ 10 :: (unlines (before ++ ws :: after) ++ 10 :: rest))))
    (hw : Blank w) (htail : ∀ c ∈ tail, c ≠ 10 ∧ c ≠ 0) (hsep : tail = [] ∨ StartsDelim tail)
    (hws : Blank ws) (hne : ws ≠ []) (hb : ∀ x ∈ before, BodyLine x)
    (ha : ∀ x ∈ after, BodyLine x) :
    authinfo_skip_macdef mem (data + w.length) line column =
        Exec.ok (some (data + w.length + (6 + tail.length + 1 + (unlines before).length) +
          (ws.length + 1) + (unlines after).length,
          (line + (before.length + after.length + 2)) % UINT_RANGE, 0)) ∧
      load mem (data + w.length + (6 + tail.length + 1 + (unlines before).length) +
        (ws.length + 1) + (unlines after).length) = some 10 ∧
      loop_body cb mem ⟨data, line, column, entry, false, LINE_START, arg, calls⟩ =
        Exec.ok ⟨data + w.length + (6 + tail.length + 1 + (unlines before).length) +
          (ws.length + 1) + (unlines after).length,
          (line + (before.length + after.length + 2)) % UINT_RANGE, 0, empty_entry, false,
          LINE_START, arg, calls⟩ := by
  have hls : ∀ x ∈ before ++ ws :: after, BodyLine x := by
    intro x hx
    rcases List.mem_append.mp hx with hx | hx
    · exact hb x hx
    · rcases List.mem_cons.mp hx with hx | hx
      · subst hx
        refine ⟨hne, fun c hc => ?_⟩
        rcases hws c hc with h1 | h1 <;> subst h1 <;> decide
      · exact ha x hx
  have htail2 : ∀ c ∈ tail, c ≠ 0 ∧ c ≠ 10 := fun c hc => ⟨(htail c hc).2, (htail c hc).1⟩
  have hlen : (unlines (before ++ ws :: after)).length =
      (unlines before).length + (ws.length + 1) + (unlines after).length := by
    simp [unlines_append, unlines]
    omega
  have hcount : (before ++ ws :: after).length + 1 = before.length + after.length + 2 := by
    simp
    omega
  have h2 := drop_add_of_drop_eq h
  have hmac := skip_macdef_block (before ++ ws :: after) line column h2 htail2 hsep hls
  have hbody := body_macdef cb (before ++ ws :: after) line column entry arg calls h hw htail2
    hsep hls
  have hpos : data + w.length + (6 + tail.length + 1 + (unlines (before ++ ws :: after)).length) =
      data + w.length + (6 + tail.length + 1 + (unlines before).length) + (ws.length + 1) +
        (unlines after).length := by
    rw [hlen]; omega
  rw [hcount, hpos] at hmac hbody
  refine ⟨hmac, ?_, hbody⟩
  have h6 : (ascii "macdef").length = 6 := by decide
  have h3 := drop_add_of_drop_eq (by simpa using h :
    mem.drop data = (w ++ ascii "macdef" ++ tail ++ 10 :: unlines (before ++ ws :: after)) ++
      (10 :: rest))
  simp only [List.length_append, List.length_cons, h6, hlen] at h3
  unfold load
  rw [show data + w.length + (6 + tail.length + 1 + (unlines before).length) + (ws.length + 1) +
    (unlines after).length = data + (w.length + 6 + tail.length +
      ((unlines before).length + (ws.length + 1) + (unlines after).length + 1)) by omega, h3]
  rfl

/-- Witness of C18 on `macdef m\nfoo\n \t\nmachine a login b\n\nmachine c\n`:
the line ` \t` does not end the block, the record-like line after it is
skipped, and the cursor ends at offset 34, the empty line. -/
theorem C18_blank_line_in_macdef_witness :
    authinfo_skip_macdef
        (cstr (ascii "macdef m\nfoo\n \t\nmachine a login b\n\nmachine c\n")) 0 1 0 =
      Exec.ok (some (34, 5, 0)) ∧
    load (cstr (ascii "macdef m\nfoo\n \t\nmachine a login b\n\nmachine c\n")) 34 = some 10 ∧
    loop_body go_on (cstr (ascii "macdef m\nfoo\n \t\nmachine a login b\n\nmachine c\n"))
        ⟨0, 1, 0, empty_entry, false, LINE_START, (), []⟩ =
      Exec.ok ⟨34, 5, 0, empty_entry, false, LINE_START, (), []⟩ :=
  C18_blank_line_in_macdef go_on () _ [] (ascii " m") [32, 9] (ascii "machine c\n\x00")
    [ascii "foo"] [ascii "machine a login b"] 0 1 0 empty_entry [] (by decide) (by decide)
    (by decide) (by decide) (by decide) (by decide) (by decide) (by decide)

/-- C19 (code defect): the cursor a parse ends with is at most one byte behind
the last byte of the buffer, its NUL, but it can be that one byte behind.  On
`machine a`, a record that no newline ends, the NUL is at offset 9;
`case LINE_END` reports the record and `authinfo_skip_line` then adds
`cspan + 1` to the cursor, which leaves it at offset 10, behind the NUL, where
the next iteration reads. -/
theorem C19_cursor_passes_nul :
    (∀ (σ : Type) (cb : Handlers σ) (text : List Nat) (arg : σ),
      (authinfo_parse cb (cstr text) arg).2.data ≤ text.length + 1) ∧
      (ascii "machine a").length = 9 ∧
      authinfo_skip_line (cstr (ascii "machine a")) 9 1 = some (10, 2, 0) ∧
      (authinfo_parse go_on (cstr (ascii "machine a")) ()).2.data = 10 ∧
      (authinfo_parse go_on (cstr (ascii "machine a")) ()).2.calls =
        [Call.entry ⟨some (ascii "a"), none, none, none, false⟩ false] ∧
      load (cstr (ascii "machine a")) 10 = none ∧
      (authinfo_parse go_on (cstr (ascii "machine a")) ()).1 = Outcome.overrun :=
  ⟨fun _ cb text arg => by
    have := visits_data_le cb (cstr text) arg (authinfo_parse cb (cstr text) arg).2
      (visits_run cb (cstr text) (init arg) (2 * (cstr text).length + 2) (init arg)
        Visits.start)
    simpa [cstr] using this, by decide⟩

/-- C20: a line `L` (no newline, no NUL) whose first token is not `macdef`,
then a newline, then any buffer `R`, parsed with handlers that never ask to
stop.  The parse of `L` and its newline alone runs to completion.  The calls of
the parse of the whole buffer are the calls of the parse of the line alone,
followed by the calls of the parse of `R` (whatever `arg` it is started with)
with every error line number advanced by 1: in `unsigned int` arithmetic for
every `R`, and by plain addition when `R` is shorter than `2 ^ 32 - 2` bytes.
The whole parse ends the way the parse of `R` ends.  In particular every entry
reported by the whole parse is one reported for the line alone or one reported
for `R` alone. -/
theorem C20_line_independence {σ : Type} (cb : Handlers σ) (arg arg2 : σ) (L R : List Nat)
    (hL : ∀ c ∈ L, c ≠ 10 ∧ c ≠ 0) (hm : first_token L ≠ ascii "macdef")
    (hns : NeverStops cb) :
    (authinfo_parse cb (cstr (L ++ [10])) arg).1 = Outcome.finished ∧
    (authinfo_parse cb (cstr (L ++ 10 :: R)) arg).2.calls =
      (authinfo_parse cb (cstr (L ++ [10])) arg).2.calls ++
        (authinfo_parse cb (cstr R) arg2).2.calls.map (Call.shift 1) ∧
    (R.length + 2 < UINT_RANGE →
      (authinfo_parse cb (cstr (L ++ 10 :: R)) arg).2.calls =
        (authinfo_parse cb (cstr (L ++ [10])) arg).2.calls ++
          (authinfo_parse cb (cstr R) arg2).2.calls.map (Call.advance 1)) ∧
    (authinfo_parse cb (cstr (L ++ 10 :: R)) arg).1 = (authinfo_parse cb (cstr R) arg2).1 ∧
    (∀ e b, Call.entry e b ∈ (authinfo_parse cb (cstr (L ++ 10 :: R)) arg).2.calls →
      Call.entry e b ∈ (authinfo_parse cb (cstr (L ++ [10])) arg).2.calls ∨
        Call.entry e b ∈ (authinfo_parse cb (cstr R) arg2).2.calls) := by
  obtain ⟨j, sL, hreach, h1, h2, h3, h4, h5⟩ :=
    reach_line_end hns L hL (budget (L ++ [10]) (init arg) + 1) (init arg) (by omega) rfl
      (Nat.zero_le _) (by simp [init]) (fun _ => by simpa [init] using hm)
  obtain ⟨d, l, c, e, b, st, a, cl⟩ := sL
  simp only at h1 h2 h3 h4 h5
  subst h1 h2 h3 h4 h5
  have e0 : cstr (L ++ [10]) = L ++ 10 :: [0] := by simp [cstr]
  have e1 : cstr (L ++ 10 :: R) = (L ++ [10]) ++ cstr R := by simp [cstr]
  have e2 : L ++ 10 :: cstr R = (L ++ [10]) ++ cstr R := by simp
  have hdrop0 : (L ++ 10 :: [0]).drop (L.length + 1) = [] ++ 0 :: [] := by
    simp
  have hb0 := body_eof cb (((init arg).line + 1) % UINT_RANGE) 0 e a cl hdrop0
    (by simp [Blank])
  have hp0 : authinfo_parse cb (cstr (L ++ [10])) arg =
      (Outcome.finished,
        ⟨L.length + 1 + ([] : List Nat).length, ((init arg).line + 1) % UINT_RANGE,
          (0 + ([] : List Nat).length) % UINT_RANGE, e, true, LINE_START, a, cl⟩) := by
    rw [e0, ← parse_eq_run cb (L ++ 10 :: [0]) arg
      (j + (1 + (2 * (L ++ 10 :: [0]).length + 2))) (by omega), hreach [0],
      Reach.step rfl hb0, run_of_stop _ _ _ _ rfl]
  have hsim : Sim (fun _ _ : σ => True) (L ++ [10]).length 1 cl
      ⟨L.length + 1, ((init arg).line + 1) % UINT_RANGE, 0, e, false, LINE_START, a, cl⟩
      (init arg2) :=
    ⟨by simp [init], rfl, rfl, rfl, rfl, fun hx => absurd rfl hx, trivial, by simp [init]⟩
  have hr1 := hreach (cstr R)
  rw [e2] at hr1
  obtain ⟨q1, -, -, -, -, -, -, -, q8⟩ :=
    parse_after_prefix (compat_never hns 1) (L ++ [10]) (cstr R) hr1 hsim
  rw [e1, hp0]
  refine ⟨rfl, q8, fun hlen => ?_, q1, ?_⟩
  · rw [q8, parse_shift_eq_advance cb R arg2 1 (by omega)]
  intro en bn hmem
  rw [q8] at hmem
  rcases List.mem_append.mp hmem with h | h
  · exact Or.inl h
  · exact Or.inr (shift_entry_mem h)

/-- Witness of C20 on the line `machine a login b` followed by `foo\nmachine c\n`. -/
theorem C20_line_independence_witness :
    (authinfo_parse go_on (cstr (ascii "machine a login b\nfoo\nmachine c\n")) ()).2.calls =
      (authinfo_parse go_on (cstr (ascii "machine a login b\n")) ()).2.calls ++
        (authinfo_parse go_on (cstr (ascii "foo\nmachine c\n")) ()).2.calls.map
          (Call.advance 1) :=
  (C20_line_independence go_on () () (ascii "machine a login b") (ascii "foo\nmachine c\n")
    (by decide) (by decide) ⟨fun _ _ => rfl, fun _ _ _ _ => rfl⟩).2.2.1 (by decide)

end Authinfo
